import Mathlib

/-!
Verification development for an AI-powered directory management system
(`directory.py`).  The program sorts the immediate files of a directory into
category subfolders chosen by a layered classifier (MIME type, then
extension, then content keywords), records every move in a transaction log
(`restore_log.json`), and can replay that log to restore the files.

The shallow embedding below models:
  * the filesystem as an association list from paths (lists of components)
    to nodes (file with content, or directory), in which list order is the
    `iterdir` enumeration order;
  * the collaborators (`magic` MIME sniffer, PyPDF2 text extraction, the
    NLTK tokenize/POS-tag pipeline, `hashlib.md5`, I/O failures and
    `shutil.move` failures) as an oracle record `Env`, with `Except`
    results where the Python call can raise;
  * `shutil.move` semantics faithfully: moving onto an existing directory
    moves the source *inside* that directory, moving onto an existing file
    overwrites it, and the failure cases raise;
  * uncaught Python exceptions as an `aborted` run outcome that keeps the
    partial state mutated so far.
-/

namespace DirOrg

/-- A filesystem path, as a list of components. -/
abbrev FPath := List String

/-- A filesystem node: a regular file with its byte content, or a directory. -/
inductive Node where
  | file (content : String)
  | dir
deriving DecidableEq, Repr

/-- The filesystem: an association list from paths to nodes.  List order is
the enumeration order of `Path.iterdir`. -/
abbrev FS := List (FPath × Node)

/-- First-match lookup of a path in the filesystem. -/
def fsLookup : FS → FPath → Option Node
  | [], _ => none
  | (q, n) :: rest, p => if q = p then some n else fsLookup rest p

/-- `pathLe a b` holds when `a` is an initial segment of `b`
(so `b` is `a` itself or lies inside the directory `a`). -/
def pathLe : FPath → FPath → Bool
  | [], _ => true
  | _ :: _, [] => false
  | a :: as, b :: bs => a = b && pathLe as bs

/-- `os.path.isdir`. -/
def isDirAt (fs : FS) (p : FPath) : Bool :=
  match fsLookup fs p with
  | some Node.dir => true
  | _ => false

/-- `os.path.basename` / `PurePath.name`: the last path component. -/
def pbase (p : FPath) : String := p.getLastD ""

/-- Remove every entry at or below `a` (the subtree rooted at `a`). -/
def fsEraseAll (fs : FS) (a : FPath) : FS :=
  fs.filter (fun e => ! pathLe a e.1)

/-- `shutil.move fs a b`: `none` models a raised exception.  If `b` is an
existing directory the source is moved inside it (to `b/basename a`), and
that inner destination must not already exist; otherwise the destination is
`b` itself, an existing file there is overwritten by the rename, and a
directory there makes the rename fail.  The parent of the destination must
exist as a directory.  The whole subtree rooted at `a` is relocated. -/
def fsMove (fs : FS) (a b : FPath) : Option FS :=
  match fsLookup fs a with
  | none => none
  | some _ =>
    let intoDir := isDirAt fs b
    let dst := if intoDir then b ++ [pbase a] else b
    if intoDir && (fsLookup fs dst).isSome then none
    else if isDirAt fs dst then none
    else if ! isDirAt fs dst.dropLast then none
    else
      let sub := fs.filter (fun e => pathLe a e.1)
      let kept := (fsEraseAll fs a).filter (fun e => e.1 ≠ dst)
      some (kept ++ sub.map (fun e => (dst ++ e.1.drop a.length, e.2)))

/-- `Path.mkdir(exist_ok=True)`: `none` models the uncaught
`FileExistsError` raised when a non-directory sits at `p`. -/
def fsMkdir (fs : FS) (p : FPath) : Option FS :=
  match fsLookup fs p with
  | some Node.dir => some fs
  | some (Node.file _) => none
  | none => some (fs ++ [(p, Node.dir)])

/-- The immediate children of `p`, as (name, node) pairs in `iterdir`
order. -/
def childEntries (fs : FS) (p : FPath) : List (String × Node) :=
  fs.filterMap (fun e =>
    if pathLe p e.1 && e.1.length = p.length + 1 then some (pbase e.1, e.2) else none)

/-- `[f for f in source_path.iterdir() if f.is_file()]`: the names of the
immediate regular-file children of `p`. -/
def iterdirFiles (fs : FS) (p : FPath) : List String :=
  (childEntries fs p).filterMap (fun en =>
    match en.2 with
    | Node.file _ => some en.1
    | Node.dir => none)

/-! ## Collaborator oracle -/

/-- Results of all collaborator calls the engine makes.  Calls that can
raise in Python return `Except`; the error value is the exception text. -/
structure Env where
  /-- `hashlib.md5(content).hexdigest()`. -/
  md5 : String → String
  /-- whether `open(p)` raises for this path (permissions, vanished file). -/
  readFails : FPath → Bool
  /-- whether `shutil.move(a, b)` raises for reasons outside the model
  (permissions, cross-device errors). -/
  moveFails : FPath → FPath → Bool
  /-- `magic.Magic(mime=True).from_file(p)`; raises on e.g. missing file. -/
  sniff : FPath → Except String String
  /-- the text PyPDF2 extracts from the pages of `p` (before lowering);
  an `error` models any exception inside `extract_text_from_pdf`. -/
  pdfRaw : FPath → Except String String
  /-- `pos_tag(word_tokenize(s))`; raises e.g. when NLTK data is absent. -/
  tokTag : String → Except String (List (String × String))

/-! ## Category registry (`CATEGORIES`) -/

/-- One category rule: keywords, extensions (no dot, lowercase) and MIME
types. -/
structure CatRule where
  keywords : List String
  extensions : List String
  mime_types : List String
deriving DecidableEq, Repr

/-- The registry: an insertion-ordered mapping from category name to rule,
as Python's insertion-ordered `dict`. -/
abbrev Registry := List (String × CatRule)

/-- The default `CATEGORIES` table of the source. -/
def CATEGORIES : Registry :=
  [ ("Documents",
     { keywords := ["report", "invoice", "letter", "contract"]
       extensions := ["doc", "docx", "pdf", "txt"]
       mime_types := ["application/pdf", "text/plain", "application/msword"] }),
    ("Images",
     { keywords := ["photo", "image", "picture"]
       extensions := ["jpg", "png", "jpeg", "gif"]
       mime_types := ["image/jpeg", "image/png", "image/gif"] }),
    ("Media",
     { keywords := ["video", "audio", "movie"]
       extensions := ["mp4", "mp3", "wav"]
       mime_types := ["video/mp4", "audio/mpeg", "audio/wav"] }),
    ("Code",
     { keywords := ["script", "code", "program"]
       extensions := ["py", "js", "html", "cpp"]
       mime_types := ["text/x-python", "application/javascript", "text/html", "text/x-c++"] }) ]

/-! ## Classifier (`categorize_file` and helpers) -/

/-- `PurePath.suffix`: the final `.ext` of a name, empty when the name has
no dot, starts with its only dot, or ends in a dot. -/
def pySuffix (name : String) : String :=
  let cs := name.toList
  match cs.reverse.findIdx? (fun c => c = '.') with
  | none => ""
  | some j =>
    let i := cs.length - 1 - j
    if 0 < i ∧ i < cs.length - 1 then String.mk (cs.drop i) else ""

/-- `str.lower()` (character-wise, as the kernel-reducible form of
`String.toLower`). -/
def strLower (s : String) : String := String.mk (s.toList.map Char.toLower)

/-- `s[:n]` (character-wise `String.take`). -/
def strTake (s : String) (n : ℕ) : String := String.mk (s.toList.take n)

/-- Character-list prefix test. -/
def charsLe : List Char → List Char → Bool
  | [], _ => true
  | _ :: _, [] => false
  | a :: as, b :: bs => a = b && charsLe as bs

/-- `s.startswith(pre)`. -/
def strStartsWith (s pre : String) : Bool := charsLe pre.toList s.toList

/-- `file_path.suffix[1:].lower()`. -/
def extOf (name : String) : String :=
  String.mk (((pySuffix name).toList.drop 1).map Char.toLower)

/-- `open(p).read()` through the oracle: `none` when the read raises or no
regular file is at `p`. -/
def readFileStr (env : Env) (fs : FS) (p : FPath) : Option String :=
  if env.readFails p then none
  else
    match fsLookup fs p with
    | some (Node.file c) => some c
    | _ => none

/-- `get_file_hash`: md5 of the file content, `None` when reading raises
(the error is logged and swallowed inside the function). -/
def get_file_hash (env : Env) (fs : FS) (p : FPath) : Option String :=
  match readFileStr env fs p with
  | some c => some (env.md5 c)
  | none => none

/-- `extract_text_from_pdf`: the lowered page text, or `""` when PyPDF2
raises (the error is swallowed inside the function). -/
def extract_text_from_pdf (env : Env) (p : FPath) : String :=
  match env.pdfRaw p with
  | Except.ok t => strLower t
  | Except.error _ => ""

/-- `analyze_content`: tokenize and POS-tag the first 2000 characters,
keep the nouns (tags starting with `NN`).  The NLTK calls can raise and
`categorize_file` does not catch that. -/
def analyze_content (env : Env) (text : String) : Except String (List String) :=
  match env.tokTag (strTake text 2000) with
  | Except.error e => Except.error e
  | Except.ok tagged =>
    Except.ok ((tagged.filter (fun wp => strStartsWith wp.2 "NN")).map Prod.fst)

/-- `for category, props in CATEGORIES.items(): if pred(props): return
category` — first rule in insertion order satisfying `pred`. -/
def firstMatch (reg : Registry) (pred : CatRule → Bool) : Option String :=
  match reg with
  | [] => none
  | (name, rule) :: rest => if pred rule then some name else firstMatch rest pred

/-- Step 3 keyword scan of `categorize_file`: analyze the text, return the
first category one of whose keywords occurs among the nouns, else
`"Uncategorized"`.  An NLTK exception propagates. -/
def keywordStage (env : Env) (reg : Registry) (text : String) : Except String String :=
  match analyze_content env text with
  | Except.error e => Except.error e
  | Except.ok nouns =>
    match firstMatch reg (fun r => r.keywords.any (fun k => nouns.contains k)) with
    | some c => Except.ok c
    | none => Except.ok "Uncategorized"

/-- `categorize_file`.  The MIME sniff is *outside* any try/except, so its
exception propagates (`Except.error`).  Step 1: MIME match; step 2:
extension match; step 3 (only for `application/pdf` or `text/plain`):
extract text (PDF extraction errors give `""`), fall back to reading the
file (a raised read returns `"Uncategorized"`), then keyword-match the
nouns; step 4: `"Uncategorized"`. -/
def categorize_file (env : Env) (fs : FS) (reg : Registry) (p : FPath) :
    Except String String :=
  let file_ext := extOf (pbase p)
  match env.sniff p with
  | Except.error e => Except.error e
  | Except.ok mime_type =>
    match firstMatch reg (fun r => r.mime_types.contains mime_type) with
    | some c => Except.ok c
    | none =>
      match firstMatch reg (fun r => r.extensions.contains file_ext) with
      | some c => Except.ok c
      | none =>
        if mime_type = "application/pdf" ∨ mime_type = "text/plain" then
          let text := if file_ext = "pdf" then extract_text_from_pdf env p else ""
          if text = "" then
            match readFileStr env fs p with
            | none => Except.ok "Uncategorized"
            | some t => keywordStage env reg (strLower t)
          else keywordStage env reg text
        else Except.ok "Uncategorized"

/-! ## Organize engine (`organize_files`) -/

/-- A per-file line of the run's report (the `log_widget` messages that
record a decision about a file or a restore entry). -/
inductive RLine where
  | skippedDup (name : String)
  | moved (name : String) (category : String)
  | moveError (name : String)
  | restored (name : String)
  | restoreError (name : String)
  | notFound (name : String)
deriving DecidableEq, Repr

/-- The file name a report line is about. -/
def lineName : RLine → String
  | RLine.skippedDup n => n
  | RLine.moved n _ => n
  | RLine.moveError n => n
  | RLine.restored n => n
  | RLine.restoreError n => n
  | RLine.notFound n => n

/-- The in-memory transaction log: target path mapped to original path, in
insertion order (a Python `dict`). -/
abbrev MoveLog := List (FPath × FPath)

/-- `move_log[target] = original`: dict insertion — overwrite in place when
the key exists, append otherwise. -/
def logInsert (l : MoveLog) (k v : FPath) : MoveLog :=
  if l.any (fun e => e.1 == k) then
    l.map (fun e => if e.1 = k then (k, v) else e)
  else l ++ [(k, v)]

/-- `seen_hashes[h] = target` with the same dict semantics. -/
def seenInsert (l : List (String × FPath)) (k : String) (v : FPath) :
    List (String × FPath) :=
  if l.any (fun e => e.1 == k) then
    l.map (fun e => if e.1 = k then (k, v) else e)
  else l ++ [(k, v)]

/-- Python truthiness of `file_hash` in `if skip_duplicates and file_hash
and file_hash in seen_hashes`. -/
def hashTruthy : Option String → Bool
  | some h => h != ""
  | none => false

/-- `file_hash in seen_hashes`. -/
def seenHas (seen : List (String × FPath)) (h : Option String) : Bool :=
  match h with
  | some s => seen.any (fun e => e.1 == s)
  | none => false

/-- Mutable state of one organize run: the filesystem, the in-memory
transaction log, the seen-hash dict, the categories whose folder the run
has ensured so far (recorded for specification purposes), and the report
lines. -/
structure OrgSt where
  fs : FS
  log : MoveLog
  seen : List (String × FPath)
  cats : List String
  report : List RLine

/-- The categories list after the run has ensured `category`'s folder
(bookkeeping recorded for specification purposes only). -/
def catsAfter (cats : List String) (category : String) : List String :=
  if cats.contains category then cats else cats ++ [category]

/-- Lines 128-143 of the loop body: ensure the category folder (`mkdir`
raising on a non-directory aborts, uncaught), then try the move.  A raised
`shutil.move` is caught and reported, leaving the log and the seen-hash
dict untouched; a successful move records target→original in the log and,
when deduplication is active and the hash is truthy, remembers the hash. -/
def orgStepMove (env : Env) (skipDup : Bool) (src : FPath) (st : OrgSt)
    (name : String) (file_hash : Option String) (category : String) :
    OrgSt × Bool :=
  match fsMkdir st.fs (src ++ [category]) with
  | none => (st, true)
  | some fs1 =>
    if env.moveFails (src ++ [name]) (src ++ [category, name]) then
      ({ st with fs := fs1, cats := catsAfter st.cats category
                 report := st.report ++ [RLine.moveError name] }, false)
    else
      match fsMove fs1 (src ++ [name]) (src ++ [category, name]) with
      | none =>
        ({ st with fs := fs1, cats := catsAfter st.cats category
                   report := st.report ++ [RLine.moveError name] }, false)
      | some fs2 =>
        ({ fs := fs2
           log := logInsert st.log (src ++ [category, name]) (src ++ [name])
           seen := if skipDup && hashTruthy file_hash then
                     seenInsert st.seen (file_hash.getD "") (src ++ [category, name])
                   else st.seen
           cats := catsAfter st.cats category
           report := st.report ++ [RLine.moved name category] }, false)

/-- Lines 122-127 of the loop body, once the hash is computed: skip a
truthy hash already seen, otherwise classify (a raised classification
aborts the run, uncaught) and proceed to the move. -/
def orgStepAfterHash (env : Env) (reg : Registry) (skipDup : Bool) (src : FPath)
    (st : OrgSt) (name : String) (file_hash : Option String) : OrgSt × Bool :=
  if skipDup && hashTruthy file_hash && seenHas st.seen file_hash then
    ({ st with report := st.report ++ [RLine.skippedDup name] }, false)
  else
    match categorize_file env st.fs reg (src ++ [name]) with
    | Except.error _ => (st, true)
    | Except.ok category => orgStepMove env skipDup src st name file_hash category

/-- One iteration of the organize loop for the file `src/name`, mirroring
the loop body of `organize_files`.  Returns the new state and `true` when
an uncaught exception aborts the run; the state mutated so far is kept.
Hash failures are swallowed by `get_file_hash` (the file then proceeds as
if not a duplicate). -/
def orgStep (env : Env) (reg : Registry) (skipDup : Bool) (src : FPath)
    (st : OrgSt) (name : String) : OrgSt × Bool :=
  orgStepAfterHash env reg skipDup src st name
    (if skipDup then get_file_hash env st.fs (src ++ [name]) else none)

/-- The organize loop over the enumerated file names; an abort stops the
iteration at once (the exception propagates). -/
def orgLoop (env : Env) (reg : Registry) (skipDup : Bool) (src : FPath) :
    List String → OrgSt → OrgSt × Bool
  | [], st => (st, false)
  | n :: ns, st =>
    match orgStep env reg skipDup src st n with
    | (st', true) => (st', true)
    | (st', false) => orgLoop env reg skipDup src ns st'

/-- Terminal status of a run. -/
inductive Outcome where
  | done
  | dirNotFound
  | aborted
  | noLogFound
  | parseError
  | emptyLog
deriving DecidableEq, Repr

/-- The world outside a run: the filesystem and the persisted
`restore_log.json` (`none` when no log file exists, `Except.error` when it
exists but `json.load` raises). -/
structure World where
  fs : FS
  persisted : Option (Except String MoveLog)

/-- Result of `organize_files`. -/
structure OrgResult where
  world : World
  log : MoveLog
  cats : List String
  report : List RLine
  outcome : Outcome

/-- `organize_files`.  A nonexistent `source_dir` is reported and nothing
else happens (the persisted log is not touched); a `source_dir` that
exists but is not a directory passes the `exists()` check and then
`iterdir()` raises, aborting the run with nothing done.  Otherwise the
immediate regular files are enumerated and processed in order, and on
normal completion the full in-memory log is persisted, replacing any
previous `restore_log.json`; an aborted run skips the save. -/
def organize_files (env : Env) (reg : Registry) (skipDup : Bool) (src : FPath)
    (w : World) (moveLog0 : MoveLog) : OrgResult :=
  match fsLookup w.fs src with
  | none =>
    { world := w, log := moveLog0, cats := [], report := []
      outcome := Outcome.dirNotFound }
  | some (Node.file _) =>
    { world := w, log := moveLog0, cats := [], report := []
      outcome := Outcome.aborted }
  | some Node.dir =>
    let files := iterdirFiles w.fs src
    let st0 : OrgSt := { fs := w.fs, log := moveLog0, seen := [], cats := [], report := [] }
    match orgLoop env reg skipDup src files st0 with
    | (st, true) =>
      { world := { fs := st.fs, persisted := w.persisted }
        log := st.log, cats := st.cats, report := st.report
        outcome := Outcome.aborted }
    | (st, false) =>
      { world := { fs := st.fs, persisted := some (Except.ok st.log) }
        log := st.log, cats := st.cats, report := st.report
        outcome := Outcome.done }

/-! ## Restore engine (`restore_files`) -/

/-- One restore entry: skip with a note when the target no longer exists,
otherwise move it back, catching a raised move. -/
def restStep (env : Env) (fs : FS) (entry : FPath × FPath) : FS × RLine :=
  if (fsLookup fs entry.1).isNone then (fs, RLine.notFound (pbase entry.1))
  else if env.moveFails entry.1 entry.2 then (fs, RLine.restoreError (pbase entry.1))
  else
    match fsMove fs entry.1 entry.2 with
    | none => (fs, RLine.restoreError (pbase entry.1))
    | some fs' => (fs', RLine.restored (pbase entry.1))

/-- The restore loop over the log entries in on-disk order; individual
failures never stop it. -/
def restLoop (env : Env) : List (FPath × FPath) → FS → List RLine → FS × List RLine
  | [], fs, rep => (fs, rep)
  | e :: es, fs, rep =>
    let r := restStep env fs e
    restLoop env es r.1 (rep ++ [r.2])

/-- `not any(subdir.iterdir())`: no entry lies strictly below `d`. -/
def dirEmpty (fs : FS) (d : FPath) : Bool :=
  ! fs.any (fun e => pathLe d e.1 && decide (d.length < e.1.length))

/-- The cleanup pass: over the immediate children of `sp`, remove each
subdirectory that is empty at that moment. -/
def cleanupDirs (fs : FS) (sp : FPath) : FS :=
  (childEntries fs sp).foldl
    (fun acc en =>
      match en.2 with
      | Node.dir =>
        if dirEmpty acc (sp ++ [en.1]) then
          acc.filter (fun e => e.1 ≠ sp ++ [en.1])
        else acc
      | Node.file _ => acc)
    fs

/-- Result of `restore_files`. -/
structure RestResult where
  world : World
  report : List RLine
  outcome : Outcome

/-- `restore_files`.  Missing log file, a raised `json.load`, and an empty
log each end the run before any file operation.  Otherwise every entry is
processed in order; afterwards, when `cleanup_empty` is set, the empty
immediate subfolders of the directory inferred from the first entry's
original path are removed (`iterdir` on that inferred root raises —
uncaught — when it is not a directory).  The persisted log is never
modified by restore. -/
def restore_files (env : Env) (cleanupEmpty : Bool) (w : World) : RestResult :=
  match w.persisted with
  | none => { world := w, report := [], outcome := Outcome.noLogFound }
  | some (Except.error _) => { world := w, report := [], outcome := Outcome.parseError }
  | some (Except.ok entries) =>
    if entries.isEmpty then { world := w, report := [], outcome := Outcome.emptyLog }
    else
      let source_path := ((entries.head?.map (fun e => e.2)).getD []).dropLast
      let r := restLoop env entries w.fs []
      if cleanupEmpty then
        if isDirAt r.1 source_path then
          { world := { fs := cleanupDirs r.1 source_path, persisted := w.persisted }
            report := r.2, outcome := Outcome.done }
        else
          { world := { fs := r.1, persisted := w.persisted }
            report := r.2, outcome := Outcome.aborted }
      else
        { world := { fs := r.1, persisted := w.persisted }
          report := r.2, outcome := Outcome.done }

/-- A fresh source directory holding exactly the given files. -/
def freshFS (src : FPath) (children : List (String × String)) : FS :=
  (src, Node.dir) :: children.map (fun nc => (src ++ [nc.1], Node.file nc.2))

/-- An organize run on a fresh directory, started the way the UI does: the
in-memory log cleared, no constraints on the previous persisted log
(taken absent here). -/
def orgRun (env : Env) (reg : Registry) (skipDup : Bool) (src : FPath)
    (children : List (String × String)) : OrgResult :=
  organize_files env reg skipDup src { fs := freshFS src children, persisted := none } []

/-! ## Lemmas about the registry scan -/

theorem contains_false_of_not_mem {l : List String} {a : String} (h : a ∉ l) :
    l.contains a = false := by
  induction l with
  | nil => rfl
  | cons x xs ih =>
    simp only [List.contains_cons]
    have h' : a ≠ x ∧ a ∉ xs := by simpa [List.mem_cons, not_or] using h
    simp only [List.contains_cons, Bool.or_eq_false_iff, ih h'.2, beq_eq_false_iff_ne,
      ne_eq, and_true]
    exact h'.1

theorem firstMatch_eq_some (reg : Registry) (pred : CatRule → Bool) (i : ℕ)
    (name : String) (r : CatRule) (hget : reg.get? i = some (name, r))
    (hp : pred r = true)
    (hprev : ∀ j, j < i → ∀ nr, reg.get? j = some nr → pred nr.2 = false) :
    firstMatch reg pred = some name := by
  induction reg generalizing i with
  | nil => simp at hget
  | cons e rest ih =>
    cases i with
    | zero =>
      simp only [List.get?] at hget
      cases hget
      simp [firstMatch, hp]
    | succ i =>
      have he : pred e.2 = false := hprev 0 (Nat.succ_pos i) e rfl
      obtain ⟨n1, r1⟩ := e
      simp only [firstMatch]
      rw [if_neg (by simp [he])]
      exact ih i hget (fun j hj nr hnr => hprev (j + 1) (Nat.succ_lt_succ hj) nr hnr)

theorem firstMatch_eq_none (reg : Registry) (pred : CatRule → Bool)
    (h : ∀ e ∈ reg, pred e.2 = false) : firstMatch reg pred = none := by
  induction reg with
  | nil => rfl
  | cons e rest ih =>
    obtain ⟨n1, r1⟩ := e
    simp only [firstMatch]
    rw [if_neg (by simpa using h (n1, r1) (List.mem_cons_self _ _))]
    exact ih (fun x hx => h x (List.mem_cons_of_mem _ hx))

/-- The text that step 3 of `categorize_file` subjects to the keyword scan:
the (already lowered) PDF extraction when the extension is `pdf` and it is
non-empty, else the lowered file content, `none` when that read raises. -/
def stage3Text (env : Env) (fs : FS) (p : FPath) : Option String :=
  let t := if extOf (pbase p) = "pdf" then extract_text_from_pdf env p else ""
  if t = "" then (readFileStr env fs p).map strLower else some t

/-- `categorize_file` once steps 1 and 2 found no rule and the MIME type
admits content analysis: the keyword scan over the stage-3 text, or
`"Uncategorized"` when the fallback read raises. -/
theorem categorize_stage3 (env : Env) (fs : FS) (reg : Registry) (p : FPath)
    (mt : String) (hs : env.sniff p = Except.ok mt)
    (h1 : ∀ e ∈ reg, mt ∉ e.2.mime_types)
    (h2 : ∀ e ∈ reg, extOf (pbase p) ∉ e.2.extensions)
    (h3 : mt = "application/pdf" ∨ mt = "text/plain") :
    categorize_file env fs reg p =
      match stage3Text env fs p with
      | none => Except.ok "Uncategorized"
      | some t => keywordStage env reg t := by
  have hm1 : firstMatch reg (fun r => r.mime_types.contains mt) = none :=
    firstMatch_eq_none _ _ (fun e he => contains_false_of_not_mem (h1 e he))
  have hm2 : firstMatch reg (fun r => r.extensions.contains (extOf (pbase p))) = none :=
    firstMatch_eq_none _ _ (fun e he => contains_false_of_not_mem (h2 e he))
  unfold categorize_file
  rw [hs]
  simp only [hm1, hm2, stage3Text]
  rw [if_pos h3]
  by_cases hpdf : extOf (pbase p) = "pdf"
  · simp only [if_pos hpdf]
    by_cases hemp : extract_text_from_pdf env p = ""
    · simp only [if_pos hemp]
      cases hr : readFileStr env fs p <;> simp [hr]
    · simp only [if_neg hemp]
  · simp only [if_neg hpdf, if_pos rfl]
    cases hr : readFileStr env fs p <;> simp [hr]

theorem contains_true_of_mem {l : List String} {a : String} (h : a ∈ l) :
    l.contains a = true := by
  induction l with
  | nil => simp at h
  | cons x xs ih =>
    simp only [List.contains_cons, Bool.or_eq_true]
    rcases List.mem_cons.mp h with h1 | h2
    · exact Or.inl (by simp [h1])
    · exact Or.inr (ih h2)

theorem kwPred_true {r : CatRule} {nouns : List String}
    (h : ∃ k ∈ r.keywords, k ∈ nouns) :
    (r.keywords.any (fun k => nouns.contains k)) = true := by
  rcases h with ⟨k, hk, hkn⟩
  exact List.any_eq_true.mpr ⟨k, hk, contains_true_of_mem hkn⟩

theorem mem_of_contains_true {l : List String} {a : String}
    (h : l.contains a = true) : a ∈ l := by
  induction l with
  | nil => simp [List.contains] at h
  | cons x xs ih =>
    simp only [List.contains_cons, Bool.or_eq_true] at h
    rcases h with h1 | h2
    · simp only [beq_iff_eq] at h1
      exact List.mem_cons.mpr (Or.inl h1)
    · exact List.mem_cons.mpr (Or.inr (ih h2))

theorem kwPred_false {r : CatRule} {nouns : List String}
    (h : ∀ k ∈ r.keywords, k ∉ nouns) :
    (r.keywords.any (fun k => nouns.contains k)) = false := by
  rw [Bool.eq_false_iff]
  intro hc
  rcases List.any_eq_true.mp hc with ⟨k, hk, hkc⟩
  exact h k hk (mem_of_contains_true hkc)

/-- Evaluation of `analyze_content` when the NLTK calls succeed. -/
theorem analyze_content_eq (env : Env) (text : String) (l : List (String × String))
    (hl : env.tokTag (strTake text 2000) = Except.ok l) :
    analyze_content env text =
      Except.ok ((l.filter (fun wp => strStartsWith wp.2 "NN")).map Prod.fst) := by
  unfold analyze_content
  rw [hl]

/-- Evaluation of `keywordStage` once the nouns are known. -/
theorem keywordStage_eq (env : Env) (reg : Registry) (text : String)
    (nouns : List String) (ha : analyze_content env text = Except.ok nouns) :
    keywordStage env reg text =
      match firstMatch reg (fun r => r.keywords.any (fun k => nouns.contains k)) with
      | some c => Except.ok c
      | none => Except.ok "Uncategorized" := by
  unfold keywordStage
  rw [ha]

/-- `categorize_file` after a successful sniff, with the outer match on the
sniff result reduced. -/
theorem categorize_eq_match (env : Env) (fs : FS) (reg : Registry) (p : FPath)
    (mt : String) (hs : env.sniff p = Except.ok mt) :
    categorize_file env fs reg p =
      match firstMatch reg (fun r => r.mime_types.contains mt) with
      | some c => Except.ok c
      | none =>
        match firstMatch reg (fun r => r.extensions.contains (extOf (pbase p))) with
        | some c => Except.ok c
        | none =>
          if mt = "application/pdf" ∨ mt = "text/plain" then
            let text := if extOf (pbase p) = "pdf" then extract_text_from_pdf env p else ""
            if text = "" then
              match readFileStr env fs p with
              | none => Except.ok "Uncategorized"
              | some t => keywordStage env reg (strLower t)
            else keywordStage env reg text
          else Except.ok "Uncategorized" := by
  unfold categorize_file
  rw [hs]

/-- `categorize_file` when step 1 hits. -/
theorem categorize_mime_hit (env : Env) (fs : FS) (reg : Registry) (p : FPath)
    (mt c : String) (hs : env.sniff p = Except.ok mt)
    (h1 : firstMatch reg (fun r => r.mime_types.contains mt) = some c) :
    categorize_file env fs reg p = Except.ok c := by
  rw [categorize_eq_match env fs reg p mt hs, h1]

/-- `categorize_file` when step 1 misses and step 2 hits. -/
theorem categorize_ext_hit (env : Env) (fs : FS) (reg : Registry) (p : FPath)
    (mt c : String) (hs : env.sniff p = Except.ok mt)
    (h1 : firstMatch reg (fun r => r.mime_types.contains mt) = none)
    (h2 : firstMatch reg (fun r => r.extensions.contains (extOf (pbase p))) = some c) :
    categorize_file env fs reg p = Except.ok c := by
  rw [categorize_eq_match env fs reg p mt hs, h1, h2]

/-- `categorize_file` when steps 1 and 2 both miss. -/
theorem categorize_no_stage12 (env : Env) (fs : FS) (reg : Registry) (p : FPath)
    (mt : String) (hs : env.sniff p = Except.ok mt)
    (h1 : firstMatch reg (fun r => r.mime_types.contains mt) = none)
    (h2 : firstMatch reg (fun r => r.extensions.contains (extOf (pbase p))) = none) :
    categorize_file env fs reg p =
      (if mt = "application/pdf" ∨ mt = "text/plain" then
        (if (if extOf (pbase p) = "pdf" then extract_text_from_pdf env p else "") = "" then
          match readFileStr env fs p with
          | none => Except.ok "Uncategorized"
          | some t => keywordStage env reg (strLower t)
        else keywordStage env reg
          (if extOf (pbase p) = "pdf" then extract_text_from_pdf env p else ""))
      else Except.ok "Uncategorized") := by
  rw [categorize_eq_match env fs reg p mt hs, h1, h2]

/-- If the keyword scan runs on a text whose term extraction succeeds, it
returns some category (possibly the fallback). -/
theorem keywordStage_ok (env : Env) (reg : Registry) (text : String)
    (ht : ∃ l, env.tokTag (strTake text 2000) = Except.ok l) :
    ∃ c, keywordStage env reg text = Except.ok c := by
  obtain ⟨l, hl⟩ := ht
  rw [keywordStage_eq env reg text _ (analyze_content_eq env text l hl)]
  rcases hfm : firstMatch reg
      (fun r => r.keywords.any (fun k =>
        ((l.filter (fun wp => strStartsWith wp.2 "NN")).map Prod.fst).contains k)) with _ | c
  · exact ⟨"Uncategorized", by rw [hfm]⟩
  · exact ⟨c, by rw [hfm]⟩

/-- C2, as the spec states it, fails: the MIME sniff sits outside every
`try/except` in `categorize_file`, so a raised sniff propagates. -/
def c2Env : Env :=
  { md5 := fun _ => ""
    readFails := fun _ => false
    moveFails := fun _ _ => false
    sniff := fun _ => Except.error "magic: cannot open file"
    pdfRaw := fun _ => Except.ok ""
    tokTag := fun _ => Except.ok [] }

/-- C2 counterexample: on a file whose MIME sniff raises, `categorize_file`
raises instead of absorbing the error — classification is not total. -/
theorem C2_counterexample :
    categorize_file c2Env [] CATEGORIES ["dir", "file.bin"] =
      Except.error "magic: cannot open file" := by
  rfl

/-- C2 amended: classification never raises *provided the MIME sniff and
the NLTK term extraction do not raise*; errors while extracting document
text or reading the file are absorbed, and the worst case is
`"Uncategorized"`. -/
theorem C2_classification_total_amended (env : Env) (fs : FS) (reg : Registry)
    (p : FPath) (hs : ∃ mt, env.sniff p = Except.ok mt)
    (ht : ∀ s, ∃ l, env.tokTag s = Except.ok l) :
    ∃ c, categorize_file env fs reg p = Except.ok c := by
  obtain ⟨mt, hmt⟩ := hs
  rcases h1 : firstMatch reg (fun r => r.mime_types.contains mt) with _ | c1
  · rcases h2 : firstMatch reg (fun r => r.extensions.contains (extOf (pbase p))) with _ | c2
    · rw [categorize_no_stage12 env fs reg p mt hmt h1 h2]
      by_cases h3 : mt = "application/pdf" ∨ mt = "text/plain"
      · rw [if_pos h3]
        by_cases hpdf : extOf (pbase p) = "pdf"
        · rw [if_pos hpdf]
          by_cases hemp : extract_text_from_pdf env p = ""
          · rw [hemp, if_pos rfl]
            rcases hr : readFileStr env fs p with _ | t
            · exact ⟨"Uncategorized", rfl⟩
            · obtain ⟨c, hc⟩ := keywordStage_ok env reg (strLower t) (ht _)
              exact ⟨c, hc⟩
          · rw [if_neg hemp]
            exact keywordStage_ok env reg _ (ht _)
        · rw [if_neg hpdf, if_pos rfl]
          rcases hr : readFileStr env fs p with _ | t
          · exact ⟨"Uncategorized", rfl⟩
          · obtain ⟨c, hc⟩ := keywordStage_ok env reg (strLower t) (ht _)
            exact ⟨c, hc⟩
      · rw [if_neg h3]
        exact ⟨"Uncategorized", rfl⟩
    · exact ⟨c2, categorize_ext_hit env fs reg p mt c2 hmt h1 h2⟩
  · exact ⟨c1, categorize_mime_hit env fs reg p mt c1 hmt h1⟩

/-- Witness for the amended C2 at a concrete input. -/
def c2wEnv : Env :=
  { md5 := fun _ => ""
    readFails := fun _ => true
    moveFails := fun _ _ => false
    sniff := fun _ => Except.ok "text/plain"
    pdfRaw := fun _ => Except.error "PdfReadError"
    tokTag := fun _ => Except.ok [] }

theorem C2_classification_total_amended_witness :
    ∃ c, categorize_file c2wEnv [] CATEGORIES ["dir", "weird.name"] = Except.ok c :=
  C2_classification_total_amended c2wEnv [] CATEGORIES ["dir", "weird.name"]
    ⟨"text/plain", rfl⟩ (fun _ => ⟨[], rfl⟩)

/-- C4: `categorize_file` evaluates the MIME stage first, then the
extension stage, then the content/keyword stage, returning the category of
the first stage that matches; within a stage the rule earliest in registry
insertion order wins.  Stated by index: if the rule at position `i` matches
and every rule before it does not, position `i`'s category is returned;
the three conjuncts cover the three stages in priority order. -/
theorem C4_stage_priority (env : Env) (fs : FS) (reg : Registry) (p : FPath)
    (mt : String) (hs : env.sniff p = Except.ok mt) :
    ((∀ i name r, reg.get? i = some (name, r) → mt ∈ r.mime_types →
        (∀ j, j < i → ∀ nr, reg.get? j = some nr → mt ∉ nr.2.mime_types) →
        categorize_file env fs reg p = Except.ok name)
    ∧ ((∀ e ∈ reg, mt ∉ e.2.mime_types) →
        ∀ i name r, reg.get? i = some (name, r) → extOf (pbase p) ∈ r.extensions →
        (∀ j, j < i → ∀ nr, reg.get? j = some nr → extOf (pbase p) ∉ nr.2.extensions) →
        categorize_file env fs reg p = Except.ok name)
    ∧ ((∀ e ∈ reg, mt ∉ e.2.mime_types) →
        (∀ e ∈ reg, extOf (pbase p) ∉ e.2.extensions) →
        (mt = "application/pdf" ∨ mt = "text/plain") →
        ∀ t nouns, stage3Text env fs p = some t →
        analyze_content env t = Except.ok nouns →
        ∀ i name r, reg.get? i = some (name, r) → (∃ k ∈ r.keywords, k ∈ nouns) →
        (∀ j, j < i → ∀ nr, reg.get? j = some nr → ∀ k ∈ nr.2.keywords, k ∉ nouns) →
        categorize_file env fs reg p = Except.ok name)) := by
  refine ⟨?_, ?_, ?_⟩
  · intro i name r hget hmem hprev
    exact categorize_mime_hit env fs reg p mt name hs
      (firstMatch_eq_some reg _ i name r hget (contains_true_of_mem hmem)
        (fun j hj nr hnr => contains_false_of_not_mem (hprev j hj nr hnr)))
  · intro hm i name r hget hmem hprev
    exact categorize_ext_hit env fs reg p mt name hs
      (firstMatch_eq_none reg _ (fun e he => contains_false_of_not_mem (hm e he)))
      (firstMatch_eq_some reg _ i name r hget (contains_true_of_mem hmem)
        (fun j hj nr hnr => contains_false_of_not_mem (hprev j hj nr hnr)))
  · intro hm he h3 t nouns hst ha i name r hget hkw hprev
    have hc := categorize_stage3 env fs reg p mt hs hm he h3
    rw [hst] at hc
    have hc2 : categorize_file env fs reg p = keywordStage env reg t := hc
    rw [hc2, keywordStage_eq env reg t nouns ha,
      firstMatch_eq_some reg _ i name r hget (kwPred_true hkw)
        (fun j hj nr hnr => kwPred_false (hprev j hj nr hnr))]

/-- Environment for concrete classifier witnesses: a successful sniff. -/
def c4wEnv : Env :=
  { md5 := fun _ => ""
    readFails := fun _ => false
    moveFails := fun _ _ => false
    sniff := fun _ => Except.ok "application/pdf"
    pdfRaw := fun _ => Except.ok ""
    tokTag := fun _ => Except.ok [] }

theorem C4_stage_priority_witness :
    categorize_file c4wEnv [] CATEGORIES ["s", "x.bin"] = Except.ok "Documents" :=
  (C4_stage_priority c4wEnv [] CATEGORIES ["s", "x.bin"] "application/pdf" rfl).1
    0 "Documents"
    { keywords := ["report", "invoice", "letter", "contract"]
      extensions := ["doc", "docx", "pdf", "txt"]
      mime_types := ["application/pdf", "text/plain", "application/msword"] }
    (by decide) (by decide)
    (fun j hj => absurd hj (Nat.not_lt_zero j))

/-- C6: a file that matches no registered rule by MIME type, by extension,
or by content keywords is classified `"Uncategorized"` (assuming the term
extraction itself does not raise when the content stage runs). -/
theorem C6_fallback (env : Env) (fs : FS) (reg : Registry) (p : FPath)
    (mt : String) (hs : env.sniff p = Except.ok mt)
    (h1 : ∀ e ∈ reg, mt ∉ e.2.mime_types)
    (h2 : ∀ e ∈ reg, extOf (pbase p) ∉ e.2.extensions)
    (h3 : ∀ t, stage3Text env fs p = some t → ∃ l, env.tokTag (strTake t 2000) = Except.ok l)
    (h4 : ∀ t nouns, stage3Text env fs p = some t →
        analyze_content env t = Except.ok nouns →
        ∀ e ∈ reg, ∀ k ∈ e.2.keywords, k ∉ nouns) :
    categorize_file env fs reg p = Except.ok "Uncategorized" := by
  by_cases hallow : mt = "application/pdf" ∨ mt = "text/plain"
  · have hc := categorize_stage3 env fs reg p mt hs h1 h2 hallow
    rcases hst : stage3Text env fs p with _ | t
    · rw [hst] at hc
      exact hc
    · rw [hst] at hc
      have hc2 : categorize_file env fs reg p = keywordStage env reg t := hc
      obtain ⟨l, hl⟩ := h3 t hst
      have ha := analyze_content_eq env t l hl
      rw [hc2, keywordStage_eq env reg t _ ha,
        firstMatch_eq_none reg _ (fun e he => kwPred_false (h4 t _ hst ha e he))]
  · rw [categorize_no_stage12 env fs reg p mt hs
      (firstMatch_eq_none reg _ (fun e he => contains_false_of_not_mem (h1 e he)))
      (firstMatch_eq_none reg _ (fun e he => contains_false_of_not_mem (h2 e he))),
      if_neg hallow]

/-- Environment for the C6 witness: an unsniffable MIME type. -/
def c6wEnv : Env :=
  { md5 := fun _ => ""
    readFails := fun _ => false
    moveFails := fun _ _ => false
    sniff := fun _ => Except.ok "application/octet-stream"
    pdfRaw := fun _ => Except.ok ""
    tokTag := fun _ => Except.ok [] }

theorem C6_fallback_witness :
    categorize_file c6wEnv [] CATEGORIES ["s", "file.xyz"] = Except.ok "Uncategorized" :=
  C6_fallback c6wEnv [] CATEGORIES ["s", "file.xyz"] "application/octet-stream" rfl
    (by decide) (by decide)
    (fun t ht => Option.noConfusion ht)
    (fun t nouns ht _ => Option.noConfusion ht)

/-! ## Equation lemmas for the engines -/

theorem organize_files_eq_missing (env : Env) (reg : Registry) (skipDup : Bool)
    (src : FPath) (w : World) (ml : MoveLog) (hl : fsLookup w.fs src = none) :
    organize_files env reg skipDup src w ml =
      { world := w, log := ml, cats := [], report := [], outcome := Outcome.dirNotFound } := by
  unfold organize_files
  rw [hl]

theorem organize_files_eq_file (env : Env) (reg : Registry) (skipDup : Bool)
    (src : FPath) (w : World) (ml : MoveLog) (c : String)
    (hl : fsLookup w.fs src = some (Node.file c)) :
    organize_files env reg skipDup src w ml =
      { world := w, log := ml, cats := [], report := [], outcome := Outcome.aborted } := by
  unfold organize_files
  rw [hl]

theorem organize_files_eq_dir (env : Env) (reg : Registry) (skipDup : Bool)
    (src : FPath) (w : World) (ml : MoveLog) (hl : fsLookup w.fs src = some Node.dir) :
    organize_files env reg skipDup src w ml =
      (match orgLoop env reg skipDup src (iterdirFiles w.fs src)
          { fs := w.fs, log := ml, seen := [], cats := [], report := [] } with
       | (st, true) =>
        { world := { fs := st.fs, persisted := w.persisted }
          log := st.log, cats := st.cats, report := st.report
          outcome := Outcome.aborted }
       | (st, false) =>
        { world := { fs := st.fs, persisted := some (Except.ok st.log) }
          log := st.log, cats := st.cats, report := st.report
          outcome := Outcome.done }) := by
  unfold organize_files
  rw [hl]

theorem restore_files_eq_ok (env : Env) (cleanup : Bool) (w : World)
    (entries : MoveLog) (h : w.persisted = some (Except.ok entries))
    (hne : entries ≠ []) :
    restore_files env cleanup w =
      (if cleanup then
        (if isDirAt (restLoop env entries w.fs []).1
            (((entries.head?.map (fun e => e.2)).getD []).dropLast) then
          { world := { fs := cleanupDirs (restLoop env entries w.fs []).1
                        (((entries.head?.map (fun e => e.2)).getD []).dropLast)
                       persisted := w.persisted }
            report := (restLoop env entries w.fs []).2, outcome := Outcome.done }
        else
          { world := { fs := (restLoop env entries w.fs []).1, persisted := w.persisted }
            report := (restLoop env entries w.fs []).2, outcome := Outcome.aborted })
      else
        { world := { fs := (restLoop env entries w.fs []).1, persisted := w.persisted }
          report := (restLoop env entries w.fs []).2, outcome := Outcome.done }) := by
  have hemp : entries.isEmpty = false := by
    cases entries with
    | nil => exact absurd rfl hne
    | cons e es => rfl
  unfold restore_files
  rw [h]
  simp only [hemp]
  rfl

/-- C7 amended: a *nonexistent* `source_dir` is reported as missing and the
run performs no further action (nothing enumerated, moved or logged; the
persisted log untouched); but a `source_dir` that exists as a regular file
passes the `exists()` check and the run dies on `iterdir()` with an
unhandled error instead of the missing-directory report — still with no
file action performed. -/
theorem C7_dir_precondition_amended (env : Env) (reg : Registry) (skipDup : Bool)
    (src : FPath) (w : World) (ml : MoveLog) :
    (fsLookup w.fs src = none →
      organize_files env reg skipDup src w ml =
        { world := w, log := ml, cats := [], report := [], outcome := Outcome.dirNotFound })
    ∧ (∀ c, fsLookup w.fs src = some (Node.file c) →
      organize_files env reg skipDup src w ml =
        { world := w, log := ml, cats := [], report := [], outcome := Outcome.aborted }) :=
  ⟨fun h => organize_files_eq_missing env reg skipDup src w ml h,
   fun c h => organize_files_eq_file env reg skipDup src w ml c h⟩

/-- The filesystem of the C7 counterexample: the source path exists but as
a regular file. -/
def c7fs : FS := [(["s"], Node.file "x")]

/-- C7 counterexample: `["s"]` does not exist *as a directory*, yet the run
does not fail with the missing-directory report — the code only checks
`exists()`, proceeds, and dies on `iterdir()`. -/
theorem C7_counterexample :
    isDirAt c7fs ["s"] = false ∧
    (organize_files c4wEnv CATEGORIES false ["s"]
        { fs := c7fs, persisted := none } []).outcome ≠ Outcome.dirNotFound ∧
    (organize_files c4wEnv CATEGORIES false ["s"]
        { fs := c7fs, persisted := none } []).outcome = Outcome.aborted := by
  refine ⟨rfl, ?_, rfl⟩
  intro h
  simp [organize_files, c7fs, fsLookup] at h

theorem C7_dir_precondition_amended_witness :
    organize_files c4wEnv CATEGORIES false ["s"] { fs := [], persisted := none } [] =
      { world := { fs := [], persisted := none }, log := [], cats := [], report := []
        outcome := Outcome.dirNotFound } :=
  (C7_dir_precondition_amended c4wEnv CATEGORIES false ["s"]
    { fs := [], persisted := none } []).1 rfl

/-- C8: restore preconditions.  No persisted log file fails with the
no-log report, a log whose parse raises fails with the parse report, an
empty log fails with the empty report, and in every such case the world is
untouched — no file operation is performed. -/
theorem C8_restore_preconditions (env : Env) (cleanup : Bool) (w : World) :
    (w.persisted = none →
      restore_files env cleanup w =
        { world := w, report := [], outcome := Outcome.noLogFound })
    ∧ (∀ e, w.persisted = some (Except.error e) →
      restore_files env cleanup w =
        { world := w, report := [], outcome := Outcome.parseError })
    ∧ (w.persisted = some (Except.ok []) →
      restore_files env cleanup w =
        { world := w, report := [], outcome := Outcome.emptyLog }) := by
  refine ⟨?_, ?_, ?_⟩
  · intro h
    unfold restore_files
    rw [h]
  · intro e h
    unfold restore_files
    rw [h]
  · intro h
    unfold restore_files
    rw [h]
    rfl

theorem C8_restore_preconditions_witness :
    (restore_files c4wEnv true { fs := [], persisted := none } =
      { world := { fs := [], persisted := none }, report := []
        outcome := Outcome.noLogFound })
    ∧ (restore_files c4wEnv true { fs := [], persisted := some (Except.error "bad json") } =
      { world := { fs := [], persisted := some (Except.error "bad json") }, report := []
        outcome := Outcome.parseError })
    ∧ (restore_files c4wEnv true { fs := [], persisted := some (Except.ok []) } =
      { world := { fs := [], persisted := some (Except.ok []) }, report := []
        outcome := Outcome.emptyLog }) :=
  ⟨(C8_restore_preconditions c4wEnv true _).1 rfl,
   (C8_restore_preconditions c4wEnv true _).2.1 "bad json" rfl,
   (C8_restore_preconditions c4wEnv true _).2.2 rfl⟩

/-! ## Branch equations for the organize step -/

theorem orgStepAfterHash_skip (env : Env) (reg : Registry) (skipDup : Bool)
    (src : FPath) (st : OrgSt) (n : String) (fh : Option String)
    (h : (skipDup && hashTruthy fh && seenHas st.seen fh) = true) :
    orgStepAfterHash env reg skipDup src st n fh =
      ({ st with report := st.report ++ [RLine.skippedDup n] }, false) := by
  unfold orgStepAfterHash
  rw [if_pos h]

theorem orgStepAfterHash_abort (env : Env) (reg : Registry) (skipDup : Bool)
    (src : FPath) (st : OrgSt) (n : String) (fh : Option String) (e : String)
    (hns : (skipDup && hashTruthy fh && seenHas st.seen fh) = false)
    (hcat : categorize_file env st.fs reg (src ++ [n]) = Except.error e) :
    orgStepAfterHash env reg skipDup src st n fh = (st, true) := by
  unfold orgStepAfterHash
  rw [if_neg (by simp [hns]), hcat]

theorem orgStepAfterHash_ok (env : Env) (reg : Registry) (skipDup : Bool)
    (src : FPath) (st : OrgSt) (n : String) (fh : Option String) (cat : String)
    (hns : (skipDup && hashTruthy fh && seenHas st.seen fh) = false)
    (hcat : categorize_file env st.fs reg (src ++ [n]) = Except.ok cat) :
    orgStepAfterHash env reg skipDup src st n fh =
      orgStepMove env skipDup src st n fh cat := by
  unfold orgStepAfterHash
  rw [if_neg (by simp [hns]), hcat]

theorem orgStepMove_mkdirRaise (env : Env) (skipDup : Bool) (src : FPath)
    (st : OrgSt) (n : String) (fh : Option String) (cat : String)
    (hmk : fsMkdir st.fs (src ++ [cat]) = none) :
    orgStepMove env skipDup src st n fh cat = (st, true) := by
  unfold orgStepMove
  rw [hmk]

theorem orgStepMove_moveFail (env : Env) (skipDup : Bool) (src : FPath)
    (st : OrgSt) (n : String) (fh : Option String) (cat : String) (fs1 : FS)
    (hmk : fsMkdir st.fs (src ++ [cat]) = some fs1)
    (hmf : env.moveFails (src ++ [n]) (src ++ [cat, n]) = true) :
    orgStepMove env skipDup src st n fh cat =
      ({ st with fs := fs1, cats := catsAfter st.cats cat
                 report := st.report ++ [RLine.moveError n] }, false) := by
  simp only [orgStepMove, hmk]
  rw [if_pos hmf]

theorem orgStepMove_moveRaise (env : Env) (skipDup : Bool) (src : FPath)
    (st : OrgSt) (n : String) (fh : Option String) (cat : String) (fs1 : FS)
    (hmk : fsMkdir st.fs (src ++ [cat]) = some fs1)
    (hmf : env.moveFails (src ++ [n]) (src ++ [cat, n]) = false)
    (hmv : fsMove fs1 (src ++ [n]) (src ++ [cat, n]) = none) :
    orgStepMove env skipDup src st n fh cat =
      ({ st with fs := fs1, cats := catsAfter st.cats cat
                 report := st.report ++ [RLine.moveError n] }, false) := by
  simp only [orgStepMove, hmk]
  rw [if_neg (by simp [hmf])]
  simp only [hmv]

theorem orgStepMove_moved (env : Env) (skipDup : Bool) (src : FPath)
    (st : OrgSt) (n : String) (fh : Option String) (cat : String) (fs1 fs2 : FS)
    (hmk : fsMkdir st.fs (src ++ [cat]) = some fs1)
    (hmf : env.moveFails (src ++ [n]) (src ++ [cat, n]) = false)
    (hmv : fsMove fs1 (src ++ [n]) (src ++ [cat, n]) = some fs2) :
    orgStepMove env skipDup src st n fh cat =
      ({ fs := fs2
         log := logInsert st.log (src ++ [cat, n]) (src ++ [n])
         seen := if skipDup && hashTruthy fh then
                   seenInsert st.seen (fh.getD "") (src ++ [cat, n])
                 else st.seen
         cats := catsAfter st.cats cat
         report := st.report ++ [RLine.moved n cat] }, false) := by
  simp only [orgStepMove, hmk]
  rw [if_neg (by simp [hmf])]
  simp only [hmv]

/-! ## Per-file report accounting -/

/-- Every non-aborting organize step appends exactly one report line, named
after its file; an aborting step leaves the state unchanged. -/
theorem orgStep_shape (env : Env) (reg : Registry) (skipDup : Bool) (src : FPath)
    (st : OrgSt) (n : String) :
    ((orgStep env reg skipDup src st n).2 = true ∧
      (orgStep env reg skipDup src st n).1 = st)
    ∨ (∃ l, (orgStep env reg skipDup src st n).2 = false ∧
        (orgStep env reg skipDup src st n).1.report = st.report ++ [l] ∧
        lineName l = n) := by
  unfold orgStep
  rcases hcond : (skipDup && hashTruthy (if skipDup then
      get_file_hash env st.fs (src ++ [n]) else none) && seenHas st.seen
      (if skipDup then get_file_hash env st.fs (src ++ [n]) else none)) with _ | _
  · rcases hcat : categorize_file env st.fs reg (src ++ [n]) with e | cat
    · rw [orgStepAfterHash_abort env reg skipDup src st n _ e hcond hcat]
      exact Or.inl ⟨rfl, rfl⟩
    · rw [orgStepAfterHash_ok env reg skipDup src st n _ cat hcond hcat]
      rcases hmk : fsMkdir st.fs (src ++ [cat]) with _ | fs1
      · rw [orgStepMove_mkdirRaise env skipDup src st n _ cat hmk]
        exact Or.inl ⟨rfl, rfl⟩
      · rcases hmf : env.moveFails (src ++ [n]) (src ++ [cat, n]) with _ | _
        · rcases hmv : fsMove fs1 (src ++ [n]) (src ++ [cat, n]) with _ | fs2
          · rw [orgStepMove_moveRaise env skipDup src st n _ cat fs1 hmk hmf hmv]
            exact Or.inr ⟨RLine.moveError n, rfl, rfl, rfl⟩
          · rw [orgStepMove_moved env skipDup src st n _ cat fs1 fs2 hmk hmf hmv]
            exact Or.inr ⟨RLine.moved n cat, rfl, rfl, rfl⟩
        · rw [orgStepMove_moveFail env skipDup src st n _ cat fs1 hmk hmf]
          exact Or.inr ⟨RLine.moveError n, rfl, rfl, rfl⟩
  · rw [orgStepAfterHash_skip env reg skipDup src st n _ hcond]
    exact Or.inr ⟨RLine.skippedDup n, rfl, rfl, rfl⟩

theorem orgStep_false_report (env : Env) (reg : Registry) (skipDup : Bool)
    (src : FPath) (st st' : OrgSt) (n : String)
    (h : orgStep env reg skipDup src st n = (st', false)) :
    ∃ l, st'.report = st.report ++ [l] ∧ lineName l = n := by
  rcases orgStep_shape env reg skipDup src st n with ⟨h1, _⟩ | ⟨l, _, h2, h3⟩
  · rw [h] at h1
    cases h1
  · rw [h] at h2
    exact ⟨l, h2, h3⟩

/-- When the organize loop completes without aborting, it has appended one
report line per enumerated file, in enumeration order. -/
theorem orgLoop_done_report (env : Env) (reg : Registry) (skipDup : Bool)
    (src : FPath) :
    ∀ (ns : List String) (st : OrgSt),
      (orgLoop env reg skipDup src ns st).2 = false →
      ∃ rep, (orgLoop env reg skipDup src ns st).1.report = st.report ++ rep ∧
        rep.length = ns.length ∧
        ∀ i, (rep.get? i).map lineName = ns.get? i := by
  intro ns
  induction ns with
  | nil =>
    intro st _
    exact ⟨[], by simp [orgLoop], rfl, fun i => by cases i <;> rfl⟩
  | cons n ns ih =>
    intro st hdone
    rcases hstep : orgStep env reg skipDup src st n with ⟨st', b⟩
    cases b with
    | true =>
      rw [orgLoop, hstep] at hdone
      cases hdone
    | false =>
      have hloop : orgLoop env reg skipDup src (n :: ns) st =
          orgLoop env reg skipDup src ns st' := by
        rw [orgLoop, hstep]
      rw [hloop] at hdone ⊢
      obtain ⟨l, hrep, hname⟩ := orgStep_false_report env reg skipDup src st st' n hstep
      obtain ⟨rep, hrep2, hlen, hget⟩ := ih st' hdone
      refine ⟨l :: rep, ?_, by simp [hlen], ?_⟩
      · rw [hrep2, hrep, List.append_assoc]
        rfl
      · intro i
        cases i with
        | zero => simp [hname]
        | succ i => simpa using hget i

/-- Every restore entry produces exactly one report line, named after the
entry's target path. -/
theorem restStep_line (env : Env) (fs : FS) (e : FPath × FPath) :
    lineName (restStep env fs e).2 = pbase e.1 := by
  unfold restStep
  split
  · rfl
  · split
    · rfl
    · split <;> rfl

/-- The restore loop processes every entry, appending one line per entry in
order, whatever the per-entry outcomes are. -/
theorem restLoop_report (env : Env) :
    ∀ (es : MoveLog) (fs : FS) (rep0 : List RLine),
      ∃ rep, (restLoop env es fs rep0).2 = rep0 ++ rep ∧
        rep.length = es.length ∧
        ∀ i, (rep.get? i).map lineName = (es.get? i).map (fun e => pbase e.1) := by
  intro es
  induction es with
  | nil =>
    intro fs rep0
    exact ⟨[], by simp [restLoop], rfl, fun i => by cases i <;> rfl⟩
  | cons e es ih =>
    intro fs rep0
    obtain ⟨rep, h1, hlen, hget⟩ := ih (restStep env fs e).1 (rep0 ++ [(restStep env fs e).2])
    refine ⟨(restStep env fs e).2 :: rep, ?_, by simp [hlen], ?_⟩
    · rw [restLoop, h1, List.append_assoc]
      rfl
    · intro i
      cases i with
      | zero => simp [restStep_line]
      | succ i => simpa using hget i

/-- C3 amended: a hash failure or a move failure on one file is caught,
recorded, and never stops the organize iteration, and an individual
restore-entry failure never stops the restore iteration — whenever the
organize run is not aborted it has attempted every enumerated file (one
report line per file, in order), and a restore on a well-formed log always
attempts every entry.  A *classification* failure, however, is not caught:
it aborts the organize run (see the counterexample). -/
theorem C3_per_file_errors_amended (env : Env) (reg : Registry)
    (skipDup cleanup : Bool) (src : FPath) (w : World) (ml : MoveLog)
    (entries : MoveLog) :
    ((organize_files env reg skipDup src w ml).outcome = Outcome.done →
      ∃ rep, (organize_files env reg skipDup src w ml).report = rep ∧
        rep.length = (iterdirFiles w.fs src).length ∧
        ∀ i, (rep.get? i).map lineName = (iterdirFiles w.fs src).get? i)
    ∧ (w.persisted = some (Except.ok entries) → entries ≠ [] →
      ∃ rep, (restore_files env cleanup w).report = rep ∧
        rep.length = entries.length ∧
        ∀ i, (rep.get? i).map lineName = (entries.get? i).map (fun e => pbase e.1)) := by
  constructor
  · intro hdone
    rcases hl : fsLookup w.fs src with _ | nd
    · rw [organize_files_eq_missing env reg skipDup src w ml hl] at hdone
      cases hdone
    · cases nd with
      | file c =>
        rw [organize_files_eq_file env reg skipDup src w ml c hl] at hdone
        cases hdone
      | dir =>
        rw [organize_files_eq_dir env reg skipDup src w ml hl] at hdone ⊢
        rcases hloop : orgLoop env reg skipDup src (iterdirFiles w.fs src)
            { fs := w.fs, log := ml, seen := [], cats := [], report := [] } with ⟨st, b⟩
        rw [hloop] at hdone
        cases b with
        | true => exact Outcome.noConfusion hdone
        | false =>
          have h2 : (orgLoop env reg skipDup src (iterdirFiles w.fs src)
              { fs := w.fs, log := ml, seen := [], cats := [], report := [] }).2 = false := by
            rw [hloop]
          obtain ⟨rep, hrep, hlen, hget⟩ :=
            orgLoop_done_report env reg skipDup src (iterdirFiles w.fs src)
              { fs := w.fs, log := ml, seen := [], cats := [], report := [] } h2
          rw [hloop] at hrep
          exact ⟨rep, by simpa using hrep, hlen, hget⟩
  · intro h hne
    rw [restore_files_eq_ok env cleanup w entries h hne]
    obtain ⟨rep, hrep, hlen, hget⟩ := restLoop_report env entries w.fs []
    refine ⟨rep, ?_, hlen, hget⟩
    rcases cleanup with _ | _
    · simpa using hrep
    · rw [if_pos rfl]
      split <;> simpa using hrep

/-- Environment for the C3 counterexample: the sniff of the first file
raises; everything else succeeds. -/
def c3cEnv : Env :=
  { md5 := fun _ => "h"
    readFails := fun _ => false
    moveFails := fun _ _ => false
    sniff := fun p => if p = ["s", "a.txt"] then Except.error "sniff failed"
                      else Except.ok "text/plain"
    pdfRaw := fun _ => Except.ok ""
    tokTag := fun _ => Except.ok [] }

/-- C3 counterexample: two files are enumerated, but a classification
error on the first is *not* caught — the run aborts with no report line at
all, so the remaining file is never attempted. -/
theorem C3_counterexample :
    iterdirFiles (freshFS ["s"] [("a.txt", "x"), ("b.txt", "y")]) ["s"] =
      ["a.txt", "b.txt"] ∧
    (organize_files c3cEnv CATEGORIES false ["s"]
        { fs := freshFS ["s"] [("a.txt", "x"), ("b.txt", "y")], persisted := none }
        []).outcome = Outcome.aborted ∧
    (organize_files c3cEnv CATEGORIES false ["s"]
        { fs := freshFS ["s"] [("a.txt", "x"), ("b.txt", "y")], persisted := none }
        []).report = [] := by
  decide

/-- Environment for the C3 witness: the move of the first file raises,
everything else succeeds. -/
def c3wEnv : Env :=
  { md5 := fun _ => "h"
    readFails := fun _ => false
    moveFails := fun a _ => a == ["s", "a.txt"]
    sniff := fun _ => Except.ok "text/plain"
    pdfRaw := fun _ => Except.ok ""
    tokTag := fun _ => Except.ok [] }

def c3wWorld : World :=
  { fs := freshFS ["s"] [("a.txt", "x"), ("b.txt", "y")], persisted := none }

def c3wEntries : MoveLog := [(["s", "Documents", "q.txt"], ["s", "q.txt"])]

def c3rWorld : World :=
  { fs := [(["s"], Node.dir)], persisted := some (Except.ok c3wEntries) }

theorem C3_per_file_errors_amended_witness :
    (organize_files c3wEnv CATEGORIES false ["s"] c3wWorld []).outcome = Outcome.done ∧
    (∃ rep, (organize_files c3wEnv CATEGORIES false ["s"] c3wWorld []).report = rep ∧
      rep.length = (iterdirFiles c3wWorld.fs ["s"]).length ∧
      ∀ i, (rep.get? i).map lineName = (iterdirFiles c3wWorld.fs ["s"]).get? i) ∧
    (∃ rep, (restore_files c3wEnv false c3rWorld).report = rep ∧
      rep.length = c3wEntries.length ∧
      ∀ i, (rep.get? i).map lineName = (c3wEntries.get? i).map (fun e => pbase e.1)) :=
  ⟨by decide,
   (C3_per_file_errors_amended c3wEnv CATEGORIES false false ["s"] c3wWorld []
      c3wEntries).1 (by decide),
   (C3_per_file_errors_amended c3wEnv CATEGORIES false false ["s"] c3rWorld []
      c3wEntries).2 rfl (by decide)⟩

/-! ## Path and filesystem lemmas -/

theorem pathLe_refl (p : FPath) : pathLe p p = true := by
  induction p with
  | nil => rfl
  | cons x xs ih => simp [pathLe, ih]

theorem pathLe_append_same (s : FPath) (xs ys : FPath) :
    pathLe (s ++ xs) (s ++ ys) = pathLe xs ys := by
  induction s with
  | nil => rfl
  | cons a s ih => simp [pathLe, ih]

theorem pathLe_length {a b : FPath} (h : pathLe a b = true) :
    a.length ≤ b.length := by
  induction a generalizing b with
  | nil => simp
  | cons x xs ih =>
    cases b with
    | nil => cases h
    | cons y ys =>
      simp only [pathLe, Bool.and_eq_true] at h
      simpa using ih h.2

theorem pathLe_trans {a b c : FPath} (h1 : pathLe a b = true)
    (h2 : pathLe b c = true) : pathLe a c = true := by
  induction a generalizing b c with
  | nil => rfl
  | cons x xs ih =>
    cases b with
    | nil => cases h1
    | cons y ys =>
      cases c with
      | nil => cases h2
      | cons z zs =>
        simp only [pathLe, Bool.and_eq_true, decide_eq_true_eq] at h1 h2 ⊢
        exact ⟨h1.1.trans h2.1, ih h1.2 h2.2⟩

theorem pathLe_antisymm {a b : FPath} (h1 : pathLe a b = true)
    (hlen : b.length ≤ a.length) : a = b := by
  induction a generalizing b with
  | nil =>
    cases b with
    | nil => rfl
    | cons y ys => simp at hlen
  | cons x xs ih =>
    cases b with
    | nil => cases h1
    | cons y ys =>
      simp only [pathLe, Bool.and_eq_true, decide_eq_true_eq] at h1
      simp only [List.length_cons, Nat.succ_le_succ_iff] at hlen
      rw [h1.1, ih h1.2 hlen]

theorem pathLe_append_right (a b : FPath) : pathLe a (a ++ b) = true := by
  induction a with
  | nil => rfl
  | cons x xs ih => simp [pathLe, ih]

theorem fsLookup_append (xs ys : FS) (p : FPath) :
    fsLookup (xs ++ ys) p =
      (match fsLookup xs p with
       | some n => some n
       | none => fsLookup ys p) := by
  induction xs with
  | nil => rfl
  | cons e xs ih =>
    by_cases h : e.1 = p
    · simp [fsLookup, h]
    · simpa [fsLookup, h] using ih

theorem fsLookup_filter_keep (fs : FS) (pred : FPath × Node → Bool) (p : FPath)
    (h : ∀ nd, pred (p, nd) = true) :
    fsLookup (fs.filter pred) p = fsLookup fs p := by
  induction fs with
  | nil => rfl
  | cons e fs ih =>
    by_cases he : e.1 = p
    · obtain ⟨q, nd⟩ := e
      cases he
      rw [List.filter_cons_of_pos (h nd)]
      simp [fsLookup]
    · by_cases hp : pred e = true
      · rw [List.filter_cons_of_pos hp]
        simpa [fsLookup, he] using ih
      · rw [List.filter_cons_of_neg (by simpa using hp)]
        simpa [fsLookup, he] using ih

theorem fsLookup_filter_drop (fs : FS) (pred : FPath × Node → Bool) (p : FPath)
    (h : ∀ nd, pred (p, nd) = false) :
    fsLookup (fs.filter pred) p = none := by
  induction fs with
  | nil => rfl
  | cons e fs ih =>
    by_cases he : e.1 = p
    · obtain ⟨q, nd⟩ := e
      cases he
      rw [List.filter_cons_of_neg (by simp [h nd])]
      exact ih
    · by_cases hp : pred e = true
      · rw [List.filter_cons_of_pos hp]
        simpa [fsLookup, he] using ih
      · rw [List.filter_cons_of_neg (by simpa using hp)]
        exact ih

/-- Lookup after a plain (non-into-directory) move of a path with no
strict descendants. -/
theorem fsMove_plain (fs : FS) (a b : FPath) (nd : Node)
    (ha : fsLookup fs a = some nd)
    (huniq : fs.filter (fun e => pathLe a e.1) = [(a, nd)])
    (hb : isDirAt fs b = false)
    (hbd : isDirAt fs b.dropLast = true) :
    fsMove fs a b = some
      ((fsEraseAll fs a).filter (fun e => e.1 ≠ b) ++ [(b, nd)]) := by
  unfold fsMove
  rw [ha]
  simp only [hb, Bool.false_and, if_false, Bool.false_eq_true, if_neg, hbd]
  rw [huniq]
  simp

/-- Pointwise description of the filesystem produced by `fsMove_plain`. -/
theorem fsMove_plain_lookup (fs : FS) (a b : FPath) (nd : Node) (q : FPath) :
    fsLookup ((fsEraseAll fs a).filter (fun e => e.1 ≠ b) ++ [(b, nd)]) q =
      (if q = b then some nd
       else if pathLe a q = true then none
       else fsLookup fs q) := by
  rw [fsLookup_append]
  by_cases hqb : q = b
  · cases hqb
    rw [fsLookup_filter_drop _ _ _ (fun nd2 => by simp)]
    simp [fsLookup]
  · by_cases hle : pathLe a q = true
    · rw [if_neg hqb, if_pos hle]
      have : fsLookup ((fsEraseAll fs a).filter (fun e => e.1 ≠ b)) q = none := by
        rw [fsLookup_filter_keep _ _ _ (fun nd2 => by simp [hqb])]
        unfold fsEraseAll
        exact fsLookup_filter_drop _ _ _ (fun nd2 => by simp [hle])
      rw [this]
      simp only [fsLookup]
      rw [if_neg (fun h => hqb h.symm)]
    · rw [if_neg hqb, if_neg hle]
      have : fsLookup ((fsEraseAll fs a).filter (fun e => e.1 ≠ b)) q = fsLookup fs q := by
        rw [fsLookup_filter_keep _ _ _ (fun nd2 => by simp [hqb])]
        unfold fsEraseAll
        exact fsLookup_filter_keep _ _ _ (fun nd2 => by simp [hle])
      rw [this]
      cases hfs : fsLookup fs q with
      | some m => rfl
      | none =>
        simp only [fsLookup]
        rw [if_neg (fun h => hqb h.symm)]

theorem fsMkdir_dir (fs : FS) (p : FPath) (h : fsLookup fs p = some Node.dir) :
    fsMkdir fs p = some fs := by
  unfold fsMkdir
  rw [h]

theorem fsMkdir_new (fs : FS) (p : FPath) (h : fsLookup fs p = none) :
    fsMkdir fs p = some (fs ++ [(p, Node.dir)]) := by
  unfold fsMkdir
  rw [h]

theorem fsMkdir_file (fs : FS) (p : FPath) (c : String)
    (h : fsLookup fs p = some (Node.file c)) : fsMkdir fs p = none := by
  unfold fsMkdir
  rw [h]

theorem fsLookup_snoc (fs : FS) (p : FPath) (n : Node) (q : FPath) :
    fsLookup (fs ++ [(p, n)]) q =
      (match fsLookup fs q with
       | some m => some m
       | none => if p = q then some n else none) := by
  rw [fsLookup_append]
  cases fsLookup fs q <;> simp [fsLookup]

theorem path_ne_of_length {p q : FPath} (h : p.length ≠ q.length) : p ≠ q :=
  fun hh => h (by rw [hh])

theorem pathLe_snoc_self (s : FPath) (x : String) : pathLe (s ++ [x]) s = false := by
  induction s with
  | nil => rfl
  | cons a s ih => simp [pathLe, ih]

theorem pathLe_snoc_snoc (s : FPath) (x y : String) :
    pathLe (s ++ [x]) (s ++ [y]) = decide (x = y) := by
  rw [pathLe_append_same]
  simp [pathLe]

theorem pathLe_snoc_pair (s : FPath) (x y z : String) :
    pathLe (s ++ [x]) (s ++ [y, z]) = decide (x = y) := by
  rw [pathLe_append_same]
  simp [pathLe]

theorem pbase_snoc (s : FPath) (x : String) : pbase (s ++ [x]) = x := by
  unfold pbase
  induction s with
  | nil => rfl
  | cons a s ih =>
    cases s with
    | nil => rfl
    | cons b s => simpa using ih

theorem seenHas_nil (h : Option String) : seenHas [] h = false := by
  cases h <;> rfl

theorem get_file_hash_of_file (env : Env) (fs : FS) (p : FPath) (c : String)
    (hr : env.readFails p = false) (hl : fsLookup fs p = some (Node.file c)) :
    get_file_hash env fs p = some (env.md5 c) := by
  unfold get_file_hash readFileStr
  rw [hr, hl]
  rfl

theorem childEntries_freshFS (src : FPath) (children : List (String × String)) :
    childEntries (freshFS src children) src =
      children.map (fun nc => (nc.1, Node.file nc.2)) := by
  unfold childEntries freshFS
  rw [List.filterMap_cons]
  have hsrc : ¬ (pathLe src src && src.length = src.length + 1) = true := by simp
  rw [if_neg hsrc]
  induction children with
  | nil => rfl
  | cons nc rest ih =>
    rw [List.map_cons, List.filterMap_cons]
    have hc : (pathLe src (src ++ [nc.1]) &&
        (src ++ [nc.1]).length = src.length + 1) = true := by
      simp [pathLe_append_right]
    rw [if_pos hc]
    simpa [pbase_snoc] using congrArg (List.cons (nc.1, Node.file nc.2)) ih

theorem iterdirFiles_freshFS (src : FPath) (children : List (String × String)) :
    iterdirFiles (freshFS src children) src = children.map Prod.fst := by
  unfold iterdirFiles
  rw [childEntries_freshFS]
  induction children with
  | nil => rfl
  | cons nc rest ih =>
    rw [List.map_cons, List.filterMap_cons, List.map_cons]
    simpa using congrArg (List.cons nc.1) ih

/-- `categorize_file` depends on the filesystem only through the content of
the file it classifies. -/
theorem categorize_congr (env : Env) (reg : Registry) (p : FPath) (fs fs' : FS)
    (h : fsLookup fs p = fsLookup fs' p) :
    categorize_file env fs reg p = categorize_file env fs' reg p := by
  have hread : readFileStr env fs p = readFileStr env fs' p := by
    unfold readFileStr
    rw [h]
  unfold categorize_file
  rw [hread]

/-! ## C5: duplicate skip on a two-file run -/

theorem orgLoop_nil (env : Env) (reg : Registry) (sd : Bool) (src : FPath)
    (st : OrgSt) : orgLoop env reg sd src [] st = (st, false) := rfl

theorem orgLoop_cons_false (env : Env) (reg : Registry) (sd : Bool) (src : FPath)
    (st st' : OrgSt) (n : String) (ns : List String)
    (h : orgStep env reg sd src st n = (st', false)) :
    orgLoop env reg sd src (n :: ns) st = orgLoop env reg sd src ns st' := by
  rw [orgLoop, h]

theorem freshFS_lookup_src (src : FPath) (children : List (String × String)) :
    fsLookup (freshFS src children) src = some Node.dir := by
  simp [freshFS, fsLookup]

/-- An organize run on a fresh directory, reduced to its loop. -/
theorem orgRun_eq (env : Env) (reg : Registry) (sd : Bool) (src : FPath)
    (children : List (String × String)) :
    orgRun env reg sd src children =
      (match orgLoop env reg sd src (children.map Prod.fst)
          { fs := freshFS src children, log := [], seen := [], cats := []
            report := [] } with
       | (st, true) =>
        { world := { fs := st.fs, persisted := none }
          log := st.log, cats := st.cats, report := st.report
          outcome := Outcome.aborted }
       | (st, false) =>
        { world := { fs := st.fs, persisted := some (Except.ok st.log) }
          log := st.log, cats := st.cats, report := st.report
          outcome := Outcome.done }) := by
  unfold orgRun
  rw [organize_files_eq_dir env reg sd src _ [] (freshFS_lookup_src src children),
    iterdirFiles_freshFS]

/-- Component form of the step branch equations: stating the organize
state by its constructor avoids projections in unification. -/
theorem orgStepAfterHash_skipC (env : Env) (reg : Registry) (sd : Bool)
    (src : FPath) (fs : FS) (lg : MoveLog) (sn : List (String × FPath))
    (cts : List String) (rp : List RLine) (n : String) (fh : Option String)
    (h : (sd && hashTruthy fh && seenHas sn fh) = true) :
    orgStepAfterHash env reg sd src ⟨fs, lg, sn, cts, rp⟩ n fh =
      (⟨fs, lg, sn, cts, rp ++ [RLine.skippedDup n]⟩, false) :=
  orgStepAfterHash_skip env reg sd src ⟨fs, lg, sn, cts, rp⟩ n fh h

theorem orgStepAfterHash_okC (env : Env) (reg : Registry) (sd : Bool)
    (src : FPath) (fs : FS) (lg : MoveLog) (sn : List (String × FPath))
    (cts : List String) (rp : List RLine) (n : String) (fh : Option String)
    (cat : String)
    (hns : (sd && hashTruthy fh && seenHas sn fh) = false)
    (hcat : categorize_file env fs reg (src ++ [n]) = Except.ok cat) :
    orgStepAfterHash env reg sd src ⟨fs, lg, sn, cts, rp⟩ n fh =
      orgStepMove env sd src ⟨fs, lg, sn, cts, rp⟩ n fh cat :=
  orgStepAfterHash_ok env reg sd src ⟨fs, lg, sn, cts, rp⟩ n fh cat hns hcat

theorem orgStepMove_movedC (env : Env) (sd : Bool) (src : FPath) (fs : FS)
    (lg : MoveLog) (sn : List (String × FPath)) (cts : List String)
    (rp : List RLine) (n : String) (fh : Option String) (cat : String)
    (fs1 fs2 : FS)
    (hmk : fsMkdir fs (src ++ [cat]) = some fs1)
    (hmf : env.moveFails (src ++ [n]) (src ++ [cat, n]) = false)
    (hmv : fsMove fs1 (src ++ [n]) (src ++ [cat, n]) = some fs2) :
    orgStepMove env sd src ⟨fs, lg, sn, cts, rp⟩ n fh cat =
      (⟨fs2, logInsert lg (src ++ [cat, n]) (src ++ [n]),
        if sd && hashTruthy fh then seenInsert sn (fh.getD "") (src ++ [cat, n]) else sn,
        catsAfter cts cat, rp ++ [RLine.moved n cat]⟩, false) :=
  orgStepMove_moved env sd src ⟨fs, lg, sn, cts, rp⟩ n fh cat fs1 fs2 hmk hmf hmv

theorem orgStepMove_moveFailC (env : Env) (sd : Bool) (src : FPath) (fs : FS)
    (lg : MoveLog) (sn : List (String × FPath)) (cts : List String)
    (rp : List RLine) (n : String) (fh : Option String) (cat : String) (fs1 : FS)
    (hmk : fsMkdir fs (src ++ [cat]) = some fs1)
    (hmf : env.moveFails (src ++ [n]) (src ++ [cat, n]) = true) :
    orgStepMove env sd src ⟨fs, lg, sn, cts, rp⟩ n fh cat =
      (⟨fs1, lg, sn, catsAfter cts cat, rp ++ [RLine.moveError n]⟩, false) :=
  orgStepMove_moveFail env sd src ⟨fs, lg, sn, cts, rp⟩ n fh cat fs1 hmk hmf

/-- With `skip_duplicates` on, the step hashes the file first. -/
theorem orgStep_true_eq (env : Env) (reg : Registry) (src : FPath) (fs : FS)
    (lg : MoveLog) (sn : List (String × FPath)) (cts : List String)
    (rp : List RLine) (n : String) :
    orgStep env reg true src { fs := fs, log := lg, seen := sn, cats := cts, report := rp } n =
      orgStepAfterHash env reg true src
        { fs := fs, log := lg, seen := sn, cats := cts, report := rp } n
        (get_file_hash env fs (src ++ [n])) := rfl

/-- With `skip_duplicates` off, no hash is computed. -/
theorem orgStep_false_eq (env : Env) (reg : Registry) (src : FPath) (fs : FS)
    (lg : MoveLog) (sn : List (String × FPath)) (cts : List String)
    (rp : List RLine) (n : String) :
    orgStep env reg false src { fs := fs, log := lg, seen := sn, cats := cts, report := rp } n =
      orgStepAfterHash env reg false src
        { fs := fs, log := lg, seen := sn, cats := cts, report := rp } n none := rfl

/-- C5: in a single organize run over a directory holding exactly two
files whose content hashes are equal (hashing and the performed moves all
succeeding, classification succeeding, and the assigned category names
clashing with no file name), `skip_duplicates=true` moves exactly the
first file and skips the second without moving it, while
`skip_duplicates=false` moves both. -/
theorem C5_duplicate_skip (env : Env) (reg : Registry) (src : FPath)
    (n1 n2 c1 c2 cat1 cat2 : String)
    (hns : n1 ≠ n2)
    (hr : ∀ p, env.readFails p = false)
    (hm : ∀ a b, env.moveFails a b = false)
    (hh : env.md5 c2 = env.md5 c1)
    (hh0 : env.md5 c1 ≠ "")
    (hcat1 : categorize_file env (freshFS src [(n1, c1), (n2, c2)]) reg
      (src ++ [n1]) = Except.ok cat1)
    (hcat2 : categorize_file env (freshFS src [(n1, c1), (n2, c2)]) reg
      (src ++ [n2]) = Except.ok cat2)
    (hc1n1 : cat1 ≠ n1) (hc1n2 : cat1 ≠ n2) (hc2n2 : cat2 ≠ n2) :
    ((orgRun env reg true src [(n1, c1), (n2, c2)]).outcome = Outcome.done ∧
     (orgRun env reg true src [(n1, c1), (n2, c2)]).report =
       [RLine.moved n1 cat1, RLine.skippedDup n2] ∧
     (orgRun env reg true src [(n1, c1), (n2, c2)]).log =
       [(src ++ [cat1, n1], src ++ [n1])] ∧
     fsLookup (orgRun env reg true src [(n1, c1), (n2, c2)]).world.fs
       (src ++ [n2]) = some (Node.file c2))
    ∧ ((orgRun env reg false src [(n1, c1), (n2, c2)]).outcome = Outcome.done ∧
       (orgRun env reg false src [(n1, c1), (n2, c2)]).report =
         [RLine.moved n1 cat1, RLine.moved n2 cat2] ∧
       (orgRun env reg false src [(n1, c1), (n2, c2)]).log =
         [(src ++ [cat1, n1], src ++ [n1]), (src ++ [cat2, n2], src ++ [n2])]) := by
  have hn1c1 : n1 ≠ cat1 := Ne.symm hc1n1
  have hn2c1 : n2 ≠ cat1 := Ne.symm hc1n2
  have hn2c2 : n2 ≠ cat2 := Ne.symm hc2n2
  have hfresh : freshFS src [(n1, c1), (n2, c2)] =
      [(src, Node.dir), (src ++ [n1], Node.file c1), (src ++ [n2], Node.file c2)] := rfl
  have hl1 : fsLookup [(src, Node.dir), (src ++ [n1], Node.file c1),
      (src ++ [n2], Node.file c2)] (src ++ [n1]) = some (Node.file c1) := by
    simp [fsLookup]
  have hl2 : fsLookup [(src, Node.dir), (src ++ [n1], Node.file c1),
      (src ++ [n2], Node.file c2)] (src ++ [n2]) = some (Node.file c2) := by
    simp [fsLookup, hns]
  have hlc1 : fsLookup [(src, Node.dir), (src ++ [n1], Node.file c1),
      (src ++ [n2], Node.file c2)] (src ++ [cat1]) = none := by
    simp [fsLookup, hn1c1, hn2c1]
  have htr : hashTruthy (some (env.md5 c1)) = true := by
    simp [hashTruthy, hh0]
  have hmk1 : fsMkdir [(src, Node.dir), (src ++ [n1], Node.file c1),
      (src ++ [n2], Node.file c2)] (src ++ [cat1]) =
      some [(src, Node.dir), (src ++ [n1], Node.file c1), (src ++ [n2], Node.file c2),
        (src ++ [cat1], Node.dir)] := by
    rw [fsMkdir_new _ _ hlc1]
    rfl
  have hl1' : fsLookup [(src, Node.dir), (src ++ [n1], Node.file c1),
      (src ++ [n2], Node.file c2), (src ++ [cat1], Node.dir)] (src ++ [n1]) =
      some (Node.file c1) := by
    simp [fsLookup]
  have huniq1 : ([(src, Node.dir), (src ++ [n1], Node.file c1),
      (src ++ [n2], Node.file c2), (src ++ [cat1], Node.dir)] : FS).filter
      (fun e => pathLe (src ++ [n1]) e.1) = [(src ++ [n1], Node.file c1)] := by
    simp [pathLe_snoc_self, pathLe_snoc_snoc, pathLe_refl, hns, hn1c1]
  have hb1 : isDirAt [(src, Node.dir), (src ++ [n1], Node.file c1),
      (src ++ [n2], Node.file c2), (src ++ [cat1], Node.dir)]
      (src ++ [cat1, n1]) = false := by
    simp [isDirAt, fsLookup]
  have hdrop1 : (src ++ [cat1, n1]).dropLast = src ++ [cat1] := by
    have h : src ++ [cat1, n1] = (src ++ [cat1]) ++ [n1] := by simp
    rw [h, List.dropLast_concat]
  have hbd1 : isDirAt [(src, Node.dir), (src ++ [n1], Node.file c1),
      (src ++ [n2], Node.file c2), (src ++ [cat1], Node.dir)]
      (src ++ [cat1, n1]).dropLast = true := by
    rw [hdrop1]
    simp [isDirAt, fsLookup, hn1c1, hn2c1]
  have hmv1 : fsMove [(src, Node.dir), (src ++ [n1], Node.file c1),
      (src ++ [n2], Node.file c2), (src ++ [cat1], Node.dir)]
      (src ++ [n1]) (src ++ [cat1, n1]) = some
      ((fsEraseAll [(src, Node.dir), (src ++ [n1], Node.file c1),
          (src ++ [n2], Node.file c2), (src ++ [cat1], Node.dir)]
          (src ++ [n1])).filter (fun e => e.1 ≠ src ++ [cat1, n1]) ++
        [(src ++ [cat1, n1], Node.file c1)]) :=
    fsMove_plain _ _ _ _ hl1' huniq1 hb1 hbd1
  have hfs2 : (fsEraseAll [(src, Node.dir), (src ++ [n1], Node.file c1),
      (src ++ [n2], Node.file c2), (src ++ [cat1], Node.dir)]
      (src ++ [n1])).filter (fun e => e.1 ≠ src ++ [cat1, n1]) ++
      [(src ++ [cat1, n1], Node.file c1)] =
      [(src, Node.dir), (src ++ [n2], Node.file c2), (src ++ [cat1], Node.dir),
       (src ++ [cat1, n1], Node.file c1)] := by
    simp [fsEraseAll, pathLe_snoc_self, pathLe_snoc_snoc, pathLe_refl, hns, hn1c1]
  have hl2' : fsLookup [(src, Node.dir), (src ++ [n2], Node.file c2),
      (src ++ [cat1], Node.dir), (src ++ [cat1, n1], Node.file c1)]
      (src ++ [n2]) = some (Node.file c2) := by
    simp [fsLookup]
  have hgf1 : get_file_hash env [(src, Node.dir), (src ++ [n1], Node.file c1),
      (src ++ [n2], Node.file c2)] (src ++ [n1]) = some (env.md5 c1) :=
    get_file_hash_of_file env _ _ c1 (hr _) hl1
  have hcat1l : categorize_file env [(src, Node.dir), (src ++ [n1], Node.file c1),
      (src ++ [n2], Node.file c2)] reg (src ++ [n1]) = Except.ok cat1 := by
    rw [← hfresh]
    exact hcat1
  have hcondf : ∀ (fh : Option String) (sn : List (String × FPath)),
      (false && hashTruthy fh && seenHas sn fh) = false := by
    intro fh sn
    simp
  have hcond1t : (true && hashTruthy (some (env.md5 c1)) &&
      seenHas ([] : List (String × FPath)) (some (env.md5 c1))) = false := by
    simp [seenHas]
  have hcond2t : (true && hashTruthy (some (env.md5 c1)) &&
      seenHas [(env.md5 c1, src ++ [cat1, n1])] (some (env.md5 c1))) = true := by
    simp [htr, seenHas]
  -- step 1 with skip_duplicates = true
  have hstep1t : orgStep env reg true src
      { fs := [(src, Node.dir), (src ++ [n1], Node.file c1),
          (src ++ [n2], Node.file c2)]
        log := [], seen := [], cats := [], report := [] } n1 =
      ({ fs := [(src, Node.dir), (src ++ [n2], Node.file c2), (src ++ [cat1], Node.dir),
            (src ++ [cat1, n1], Node.file c1)]
         log := [(src ++ [cat1, n1], src ++ [n1])]
         seen := [(env.md5 c1, src ++ [cat1, n1])]
         cats := [cat1]
         report := [RLine.moved n1 cat1] }, false) := by
    rw [orgStep_true_eq, hgf1,
      orgStepAfterHash_okC env reg true src _ _ _ _ _ n1 _ cat1 hcond1t hcat1l,
      orgStepMove_movedC env true src _ _ _ _ _ n1 _ cat1 _ _ hmk1 (hm _ _) hmv1,
      hfs2]
    simp [htr, logInsert, seenInsert, catsAfter]
  -- step 2 with skip_duplicates = true: the duplicate is skipped
  have hgf2 : get_file_hash env [(src, Node.dir), (src ++ [n2], Node.file c2),
      (src ++ [cat1], Node.dir), (src ++ [cat1, n1], Node.file c1)]
      (src ++ [n2]) = some (env.md5 c1) := by
    rw [get_file_hash_of_file env _ _ c2 (hr _) hl2', hh]
  have hstep2t : orgStep env reg true src
      { fs := [(src, Node.dir), (src ++ [n2], Node.file c2), (src ++ [cat1], Node.dir),
          (src ++ [cat1, n1], Node.file c1)]
        log := [(src ++ [cat1, n1], src ++ [n1])]
        seen := [(env.md5 c1, src ++ [cat1, n1])]
        cats := [cat1]
        report := [RLine.moved n1 cat1] } n2 =
      ({ fs := [(src, Node.dir), (src ++ [n2], Node.file c2), (src ++ [cat1], Node.dir),
            (src ++ [cat1, n1], Node.file c1)]
         log := [(src ++ [cat1, n1], src ++ [n1])]
         seen := [(env.md5 c1, src ++ [cat1, n1])]
         cats := [cat1]
         report := [RLine.moved n1 cat1, RLine.skippedDup n2] }, false) := by
    rw [orgStep_true_eq, hgf2,
      orgStepAfterHash_skipC env reg true src _ _ _ _ _ n2 _ hcond2t]
    rfl
  have hloopT : orgLoop env reg true src [n1, n2]
      { fs := [(src, Node.dir), (src ++ [n1], Node.file c1),
          (src ++ [n2], Node.file c2)]
        log := [], seen := [], cats := [], report := [] } =
      ({ fs := [(src, Node.dir), (src ++ [n2], Node.file c2), (src ++ [cat1], Node.dir),
            (src ++ [cat1, n1], Node.file c1)]
         log := [(src ++ [cat1, n1], src ++ [n1])]
         seen := [(env.md5 c1, src ++ [cat1, n1])]
         cats := [cat1]
         report := [RLine.moved n1 cat1, RLine.skippedDup n2] }, false) := by
    rw [orgLoop_cons_false env reg true src _ _ n1 [n2] hstep1t,
      orgLoop_cons_false env reg true src _ _ n2 [] hstep2t, orgLoop_nil]
  -- steps with skip_duplicates = false
  have hstep1f : orgStep env reg false src
      { fs := [(src, Node.dir), (src ++ [n1], Node.file c1),
          (src ++ [n2], Node.file c2)]
        log := [], seen := [], cats := [], report := [] } n1 =
      ({ fs := [(src, Node.dir), (src ++ [n2], Node.file c2), (src ++ [cat1], Node.dir),
            (src ++ [cat1, n1], Node.file c1)]
         log := [(src ++ [cat1, n1], src ++ [n1])]
         seen := []
         cats := [cat1]
         report := [RLine.moved n1 cat1] }, false) := by
    rw [orgStep_false_eq,
      orgStepAfterHash_okC env reg false src _ _ _ _ _ n1 none cat1 (hcondf none []) hcat1l,
      orgStepMove_movedC env false src _ _ _ _ _ n1 none cat1 _ _ hmk1 (hm _ _) hmv1,
      hfs2]
    simp [logInsert, catsAfter]
  have hcat2l : categorize_file env [(src, Node.dir), (src ++ [n2], Node.file c2),
      (src ++ [cat1], Node.dir), (src ++ [cat1, n1], Node.file c1)] reg
      (src ++ [n2]) = Except.ok cat2 := by
    rw [categorize_congr env reg (src ++ [n2]) _ (freshFS src [(n1, c1), (n2, c2)])
      (by rw [hl2', hfresh, hl2]), hcat2]
  have hdrop2 : (src ++ [cat2, n2]).dropLast = src ++ [cat2] := by
    have h : src ++ [cat2, n2] = (src ++ [cat2]) ++ [n2] := by simp
    rw [h, List.dropLast_concat]
  have hrunT : orgRun env reg true src [(n1, c1), (n2, c2)] =
      { world := ⟨[(src, Node.dir), (src ++ [n2], Node.file c2),
            (src ++ [cat1], Node.dir), (src ++ [cat1, n1], Node.file c1)],
          some (Except.ok [(src ++ [cat1, n1], src ++ [n1])])⟩
        log := [(src ++ [cat1, n1], src ++ [n1])]
        cats := [cat1]
        report := [RLine.moved n1 cat1, RLine.skippedDup n2]
        outcome := Outcome.done } := by
    rw [orgRun_eq,
      show ([(n1, c1), (n2, c2)] : List (String × String)).map Prod.fst = [n1, n2]
        from rfl, hfresh, hloopT]
  by_cases hc21 : cat2 = cat1
  · -- the second category folder coincides with the first
    subst hc21
    have hmk2 : fsMkdir [(src, Node.dir), (src ++ [n2], Node.file c2),
        (src ++ [cat2], Node.dir), (src ++ [cat2, n1], Node.file c1)]
        (src ++ [cat2]) =
        some [(src, Node.dir), (src ++ [n2], Node.file c2),
          (src ++ [cat2], Node.dir), (src ++ [cat2, n1], Node.file c1)] :=
      fsMkdir_dir _ _ (by simp [fsLookup, hn2c2])
    have hl2'' : fsLookup [(src, Node.dir), (src ++ [n2], Node.file c2),
        (src ++ [cat2], Node.dir), (src ++ [cat2, n1], Node.file c1)]
        (src ++ [n2]) = some (Node.file c2) := by
      simp [fsLookup]
    have huniq2 : ([(src, Node.dir), (src ++ [n2], Node.file c2),
        (src ++ [cat2], Node.dir), (src ++ [cat2, n1], Node.file c1)] : FS).filter
        (fun e => pathLe (src ++ [n2]) e.1) = [(src ++ [n2], Node.file c2)] := by
      simp [pathLe_snoc_self, pathLe_snoc_snoc, pathLe_snoc_pair, pathLe_refl, hn2c2]
    have hb2 : isDirAt [(src, Node.dir), (src ++ [n2], Node.file c2),
        (src ++ [cat2], Node.dir), (src ++ [cat2, n1], Node.file c1)]
        (src ++ [cat2, n2]) = false := by
      simp [isDirAt, fsLookup, hns]
    have hbd2 : isDirAt [(src, Node.dir), (src ++ [n2], Node.file c2),
        (src ++ [cat2], Node.dir), (src ++ [cat2, n1], Node.file c1)]
        (src ++ [cat2, n2]).dropLast = true := by
      rw [hdrop2]
      simp [isDirAt, fsLookup, hn2c2]
    have hmv2 := fsMove_plain _ (src ++ [n2]) (src ++ [cat2, n2]) _ hl2'' huniq2 hb2 hbd2
    have hstep2f : orgStep env reg false src
        { fs := [(src, Node.dir), (src ++ [n2], Node.file c2), (src ++ [cat2], Node.dir),
            (src ++ [cat2, n1], Node.file c1)]
          log := [(src ++ [cat2, n1], src ++ [n1])]
          seen := []
          cats := [cat2]
          report := [RLine.moved n1 cat2] } n2 =
        ({ fs := (fsEraseAll [(src, Node.dir), (src ++ [n2], Node.file c2),
              (src ++ [cat2], Node.dir), (src ++ [cat2, n1], Node.file c1)]
              (src ++ [n2])).filter (fun e => e.1 ≠ src ++ [cat2, n2]) ++
            [(src ++ [cat2, n2], Node.file c2)]
           log := [(src ++ [cat2, n1], src ++ [n1]), (src ++ [cat2, n2], src ++ [n2])]
           seen := []
           cats := [cat2]
           report := [RLine.moved n1 cat2, RLine.moved n2 cat2] }, false) := by
      rw [orgStep_false_eq,
        orgStepAfterHash_okC env reg false src _ _ _ _ _ n2 none cat2 (hcondf none []) hcat2l,
        orgStepMove_movedC env false src _ _ _ _ _ n2 none cat2 _ _ hmk2 (hm _ _) hmv2]
      simp [logInsert, catsAfter, hns]
    have hloopF : orgLoop env reg false src [n1, n2]
        { fs := [(src, Node.dir), (src ++ [n1], Node.file c1),
            (src ++ [n2], Node.file c2)]
          log := [], seen := [], cats := [], report := [] } =
        ({ fs := (fsEraseAll [(src, Node.dir), (src ++ [n2], Node.file c2),
              (src ++ [cat2], Node.dir), (src ++ [cat2, n1], Node.file c1)]
              (src ++ [n2])).filter (fun e => e.1 ≠ src ++ [cat2, n2]) ++
            [(src ++ [cat2, n2], Node.file c2)]
           log := [(src ++ [cat2, n1], src ++ [n1]), (src ++ [cat2, n2], src ++ [n2])]
           seen := []
           cats := [cat2]
           report := [RLine.moved n1 cat2, RLine.moved n2 cat2] }, false) := by
      rw [orgLoop_cons_false env reg false src _ _ n1 [n2] hstep1f,
        orgLoop_cons_false env reg false src _ _ n2 [] hstep2f, orgLoop_nil]
    have hrunF : orgRun env reg false src [(n1, c1), (n2, c2)] =
        { world := ⟨(fsEraseAll [(src, Node.dir), (src ++ [n2], Node.file c2),
              (src ++ [cat2], Node.dir), (src ++ [cat2, n1], Node.file c1)]
              (src ++ [n2])).filter (fun e => e.1 ≠ src ++ [cat2, n2]) ++
            [(src ++ [cat2, n2], Node.file c2)],
            some (Except.ok [(src ++ [cat2, n1], src ++ [n1]),
              (src ++ [cat2, n2], src ++ [n2])])⟩
          log := [(src ++ [cat2, n1], src ++ [n1]), (src ++ [cat2, n2], src ++ [n2])]
          cats := [cat2]
          report := [RLine.moved n1 cat2, RLine.moved n2 cat2]
          outcome := Outcome.done } := by
      rw [orgRun_eq,
        show ([(n1, c1), (n2, c2)] : List (String × String)).map Prod.fst = [n1, n2]
          from rfl, hfresh, hloopF]
    rw [hrunT, hrunF]
    exact ⟨⟨rfl, rfl, rfl, by simp [fsLookup]⟩, rfl, rfl, rfl⟩
  · -- the second category folder is fresh
    have hc12 : cat1 ≠ cat2 := fun h => hc21 h.symm
    have hlc2 : fsLookup [(src, Node.dir), (src ++ [n2], Node.file c2),
        (src ++ [cat1], Node.dir), (src ++ [cat1, n1], Node.file c1)]
        (src ++ [cat2]) = none := by
      simp [fsLookup, hn2c2, hc12]
    have hmk2 : fsMkdir [(src, Node.dir), (src ++ [n2], Node.file c2),
        (src ++ [cat1], Node.dir), (src ++ [cat1, n1], Node.file c1)]
        (src ++ [cat2]) =
        some [(src, Node.dir), (src ++ [n2], Node.file c2),
          (src ++ [cat1], Node.dir), (src ++ [cat1, n1], Node.file c1),
          (src ++ [cat2], Node.dir)] := by
      rw [fsMkdir_new _ _ hlc2]
      rfl
    have hl2'' : fsLookup [(src, Node.dir), (src ++ [n2], Node.file c2),
        (src ++ [cat1], Node.dir), (src ++ [cat1, n1], Node.file c1),
        (src ++ [cat2], Node.dir)] (src ++ [n2]) = some (Node.file c2) := by
      simp [fsLookup]
    have huniq2 : ([(src, Node.dir), (src ++ [n2], Node.file c2),
        (src ++ [cat1], Node.dir), (src ++ [cat1, n1], Node.file c1),
        (src ++ [cat2], Node.dir)] : FS).filter
        (fun e => pathLe (src ++ [n2]) e.1) = [(src ++ [n2], Node.file c2)] := by
      simp [pathLe_snoc_self, pathLe_snoc_snoc, pathLe_snoc_pair, pathLe_refl,
        hn2c1, hn2c2]
    have hb2 : isDirAt [(src, Node.dir), (src ++ [n2], Node.file c2),
        (src ++ [cat1], Node.dir), (src ++ [cat1, n1], Node.file c1),
        (src ++ [cat2], Node.dir)] (src ++ [cat2, n2]) = false := by
      simp [isDirAt, fsLookup, hns]
    have hbd2 : isDirAt [(src, Node.dir), (src ++ [n2], Node.file c2),
        (src ++ [cat1], Node.dir), (src ++ [cat1, n1], Node.file c1),
        (src ++ [cat2], Node.dir)] (src ++ [cat2, n2]).dropLast = true := by
      rw [hdrop2]
      simp [isDirAt, fsLookup, hn2c2, hc12]
    have hmv2 := fsMove_plain _ (src ++ [n2]) (src ++ [cat2, n2]) _ hl2'' huniq2 hb2 hbd2
    have hcat2l' : categorize_file env [(src, Node.dir), (src ++ [n2], Node.file c2),
        (src ++ [cat1], Node.dir), (src ++ [cat1, n1], Node.file c1)] reg
        (src ++ [n2]) = Except.ok cat2 := hcat2l
    have hstep2f : orgStep env reg false src
        { fs := [(src, Node.dir), (src ++ [n2], Node.file c2), (src ++ [cat1], Node.dir),
            (src ++ [cat1, n1], Node.file c1)]
          log := [(src ++ [cat1, n1], src ++ [n1])]
          seen := []
          cats := [cat1]
          report := [RLine.moved n1 cat1] } n2 =
        ({ fs := (fsEraseAll [(src, Node.dir), (src ++ [n2], Node.file c2),
              (src ++ [cat1], Node.dir), (src ++ [cat1, n1], Node.file c1),
              (src ++ [cat2], Node.dir)]
              (src ++ [n2])).filter (fun e => e.1 ≠ src ++ [cat2, n2]) ++
            [(src ++ [cat2, n2], Node.file c2)]
           log := [(src ++ [cat1, n1], src ++ [n1]), (src ++ [cat2, n2], src ++ [n2])]
           seen := []
           cats := [cat1, cat2]
           report := [RLine.moved n1 cat1, RLine.moved n2 cat2] }, false) := by
      rw [orgStep_false_eq,
        orgStepAfterHash_okC env reg false src _ _ _ _ _ n2 none cat2 (hcondf none []) hcat2l',
        orgStepMove_movedC env false src _ _ _ _ _ n2 none cat2 _ _ hmk2 (hm _ _) hmv2]
      simp [logInsert, catsAfter, hns, hc12, hc21]
    have hloopF : orgLoop env reg false src [n1, n2]
        { fs := [(src, Node.dir), (src ++ [n1], Node.file c1),
            (src ++ [n2], Node.file c2)]
          log := [], seen := [], cats := [], report := [] } =
        ({ fs := (fsEraseAll [(src, Node.dir), (src ++ [n2], Node.file c2),
              (src ++ [cat1], Node.dir), (src ++ [cat1, n1], Node.file c1),
              (src ++ [cat2], Node.dir)]
              (src ++ [n2])).filter (fun e => e.1 ≠ src ++ [cat2, n2]) ++
            [(src ++ [cat2, n2], Node.file c2)]
           log := [(src ++ [cat1, n1], src ++ [n1]), (src ++ [cat2, n2], src ++ [n2])]
           seen := []
           cats := [cat1, cat2]
           report := [RLine.moved n1 cat1, RLine.moved n2 cat2] }, false) := by
      rw [orgLoop_cons_false env reg false src _ _ n1 [n2] hstep1f,
        orgLoop_cons_false env reg false src _ _ n2 [] hstep2f, orgLoop_nil]
    have hrunF : orgRun env reg false src [(n1, c1), (n2, c2)] =
        { world := ⟨(fsEraseAll [(src, Node.dir), (src ++ [n2], Node.file c2),
              (src ++ [cat1], Node.dir), (src ++ [cat1, n1], Node.file c1),
              (src ++ [cat2], Node.dir)]
              (src ++ [n2])).filter (fun e => e.1 ≠ src ++ [cat2, n2]) ++
            [(src ++ [cat2, n2], Node.file c2)],
            some (Except.ok [(src ++ [cat1, n1], src ++ [n1]),
              (src ++ [cat2, n2], src ++ [n2])])⟩
          log := [(src ++ [cat1, n1], src ++ [n1]), (src ++ [cat2, n2], src ++ [n2])]
          cats := [cat1, cat2]
          report := [RLine.moved n1 cat1, RLine.moved n2 cat2]
          outcome := Outcome.done } := by
      rw [orgRun_eq,
        show ([(n1, c1), (n2, c2)] : List (String × String)).map Prod.fst = [n1, n2]
          from rfl, hfresh, hloopF]
    rw [hrunT, hrunF]
    exact ⟨⟨rfl, rfl, rfl, by simp [fsLookup]⟩, rfl, rfl, rfl⟩
/-! ## C10: per-file atomicity on move failure -/

theorem orgStepMove_moveRaiseC (env : Env) (sd : Bool) (src : FPath) (fs : FS)
    (lg : MoveLog) (sn : List (String × FPath)) (cts : List String)
    (rp : List RLine) (n : String) (fh : Option String) (cat : String) (fs1 : FS)
    (hmk : fsMkdir fs (src ++ [cat]) = some fs1)
    (hmf : env.moveFails (src ++ [n]) (src ++ [cat, n]) = false)
    (hmv : fsMove fs1 (src ++ [n]) (src ++ [cat, n]) = none) :
    orgStepMove env sd src ⟨fs, lg, sn, cts, rp⟩ n fh cat =
      (⟨fs1, lg, sn, catsAfter cts cat, rp ++ [RLine.moveError n]⟩, false) :=
  orgStepMove_moveRaise env sd src ⟨fs, lg, sn, cts, rp⟩ n fh cat fs1 hmk hmf hmv

/-- C10: a file whose move raises leaves the in-memory transaction log and
the seen-hash dict exactly as they were (no target→original entry, no
remembered hash), and the step does not abort the run; moreover — second
conjunct, on a two-file deduplicating run whose first move raises — a
later file with identical content is still attempted (classified and
moved) rather than skipped as a duplicate. -/
theorem C10_move_failure_atomicity :
    (∀ (env : Env) (sd : Bool) (src : FPath) (fs : FS) (lg : MoveLog)
       (sn : List (String × FPath)) (cts : List String) (rp : List RLine)
       (n : String) (fh : Option String) (cat : String) (fs1 : FS),
      fsMkdir fs (src ++ [cat]) = some fs1 →
      (env.moveFails (src ++ [n]) (src ++ [cat, n]) = true ∨
        fsMove fs1 (src ++ [n]) (src ++ [cat, n]) = none) →
      (orgStepMove env sd src ⟨fs, lg, sn, cts, rp⟩ n fh cat).1.log = lg ∧
      (orgStepMove env sd src ⟨fs, lg, sn, cts, rp⟩ n fh cat).1.seen = sn ∧
      (orgStepMove env sd src ⟨fs, lg, sn, cts, rp⟩ n fh cat).2 = false)
    ∧ (∀ (env : Env) (reg : Registry) (src : FPath) (n1 n2 c1 c2 cat1 cat2 : String),
      n1 ≠ n2 →
      (∀ p, env.readFails p = false) →
      env.moveFails (src ++ [n1]) (src ++ [cat1, n1]) = true →
      env.moveFails (src ++ [n2]) (src ++ [cat2, n2]) = false →
      env.md5 c2 = env.md5 c1 →
      env.md5 c1 ≠ "" →
      categorize_file env (freshFS src [(n1, c1), (n2, c2)]) reg (src ++ [n1]) =
        Except.ok cat1 →
      categorize_file env (freshFS src [(n1, c1), (n2, c2)]) reg (src ++ [n2]) =
        Except.ok cat2 →
      cat1 ≠ n1 → cat1 ≠ n2 → cat2 ≠ n1 → cat2 ≠ n2 →
      (orgRun env reg true src [(n1, c1), (n2, c2)]).report =
        [RLine.moveError n1, RLine.moved n2 cat2] ∧
      (orgRun env reg true src [(n1, c1), (n2, c2)]).log =
        [(src ++ [cat2, n2], src ++ [n2])] ∧
      (∀ t, (t, src ++ [n1]) ∉ (orgRun env reg true src [(n1, c1), (n2, c2)]).log)) := by
  constructor
  · intro env sd src fs lg sn cts rp n fh cat fs1 hmk hfail
    rcases hfail with hmf | hmv
    · rw [orgStepMove_moveFailC env sd src fs lg sn cts rp n fh cat fs1 hmk hmf]
      exact ⟨rfl, rfl, rfl⟩
    · rcases hmf : env.moveFails (src ++ [n]) (src ++ [cat, n]) with _ | _
      · rw [orgStepMove_moveRaiseC env sd src fs lg sn cts rp n fh cat fs1 hmk hmf hmv]
        exact ⟨rfl, rfl, rfl⟩
      · rw [orgStepMove_moveFailC env sd src fs lg sn cts rp n fh cat fs1 hmk hmf]
        exact ⟨rfl, rfl, rfl⟩
  · intro env reg src n1 n2 c1 c2 cat1 cat2 hns hr hm1 hm2 hh hh0 hcat1 hcat2
      hc1n1 hc1n2 hc2n1 hc2n2
    have hsn : n2 ≠ n1 := Ne.symm hns
    have hn1c1 : n1 ≠ cat1 := Ne.symm hc1n1
    have hn2c1 : n2 ≠ cat1 := Ne.symm hc1n2
    have hn1c2 : n1 ≠ cat2 := Ne.symm hc2n1
    have hn2c2 : n2 ≠ cat2 := Ne.symm hc2n2
    have hfresh : freshFS src [(n1, c1), (n2, c2)] =
        [(src, Node.dir), (src ++ [n1], Node.file c1), (src ++ [n2], Node.file c2)] := rfl
    have hl1 : fsLookup [(src, Node.dir), (src ++ [n1], Node.file c1),
        (src ++ [n2], Node.file c2)] (src ++ [n1]) = some (Node.file c1) := by
      simp [fsLookup]
    have hl2f : fsLookup [(src, Node.dir), (src ++ [n1], Node.file c1),
        (src ++ [n2], Node.file c2)] (src ++ [n2]) = some (Node.file c2) := by
      simp [fsLookup, hns]
    have hlc1 : fsLookup [(src, Node.dir), (src ++ [n1], Node.file c1),
        (src ++ [n2], Node.file c2)] (src ++ [cat1]) = none := by
      simp [fsLookup, hn1c1, hn2c1]
    have htr : hashTruthy (some (env.md5 c1)) = true := by
      simp [hashTruthy, hh0]
    have hmk1 : fsMkdir [(src, Node.dir), (src ++ [n1], Node.file c1),
        (src ++ [n2], Node.file c2)] (src ++ [cat1]) =
        some [(src, Node.dir), (src ++ [n1], Node.file c1), (src ++ [n2], Node.file c2),
          (src ++ [cat1], Node.dir)] := by
      rw [fsMkdir_new _ _ hlc1]
      rfl
    have hgf1 : get_file_hash env [(src, Node.dir), (src ++ [n1], Node.file c1),
        (src ++ [n2], Node.file c2)] (src ++ [n1]) = some (env.md5 c1) :=
      get_file_hash_of_file env _ _ c1 (hr _) hl1
    have hcat1l : categorize_file env [(src, Node.dir), (src ++ [n1], Node.file c1),
        (src ++ [n2], Node.file c2)] reg (src ++ [n1]) = Except.ok cat1 := by
      rw [← hfresh]
      exact hcat1
    have hcond1t : (true && hashTruthy (some (env.md5 c1)) &&
        seenHas ([] : List (String × FPath)) (some (env.md5 c1))) = false := by
      simp [seenHas]
    have hstep1 : orgStep env reg true src
        { fs := [(src, Node.dir), (src ++ [n1], Node.file c1),
            (src ++ [n2], Node.file c2)]
          log := [], seen := [], cats := [], report := [] } n1 =
        ({ fs := [(src, Node.dir), (src ++ [n1], Node.file c1),
              (src ++ [n2], Node.file c2), (src ++ [cat1], Node.dir)]
           log := [], seen := [], cats := [cat1]
           report := [RLine.moveError n1] }, false) := by
      rw [orgStep_true_eq, hgf1,
        orgStepAfterHash_okC env reg true src _ _ _ _ _ n1 _ cat1 hcond1t hcat1l,
        orgStepMove_moveFailC env true src _ _ _ _ _ n1 _ cat1 _ hmk1 hm1]
      simp [catsAfter]
    have hl2' : fsLookup [(src, Node.dir), (src ++ [n1], Node.file c1),
        (src ++ [n2], Node.file c2), (src ++ [cat1], Node.dir)] (src ++ [n2]) =
        some (Node.file c2) := by
      simp [fsLookup, hns]
    have hgf2 : get_file_hash env [(src, Node.dir), (src ++ [n1], Node.file c1),
        (src ++ [n2], Node.file c2), (src ++ [cat1], Node.dir)] (src ++ [n2]) =
        some (env.md5 c1) := by
      rw [get_file_hash_of_file env _ _ c2 (hr _) hl2', hh]
    have hcat2l : categorize_file env [(src, Node.dir), (src ++ [n1], Node.file c1),
        (src ++ [n2], Node.file c2), (src ++ [cat1], Node.dir)] reg (src ++ [n2]) =
        Except.ok cat2 := by
      rw [categorize_congr env reg (src ++ [n2]) _ (freshFS src [(n1, c1), (n2, c2)])
        (by rw [hl2', hfresh, hl2f]), hcat2]
    have hdrop2 : (src ++ [cat2, n2]).dropLast = src ++ [cat2] := by
      have h : src ++ [cat2, n2] = (src ++ [cat2]) ++ [n2] := by simp
      rw [h, List.dropLast_concat]
    by_cases hc21 : cat2 = cat1
    · subst hc21
      have hmk2 : fsMkdir [(src, Node.dir), (src ++ [n1], Node.file c1),
          (src ++ [n2], Node.file c2), (src ++ [cat2], Node.dir)] (src ++ [cat2]) =
          some [(src, Node.dir), (src ++ [n1], Node.file c1),
            (src ++ [n2], Node.file c2), (src ++ [cat2], Node.dir)] :=
        fsMkdir_dir _ _ (by simp [fsLookup, hn1c2, hn2c2])
      have huniq2 : ([(src, Node.dir), (src ++ [n1], Node.file c1),
          (src ++ [n2], Node.file c2), (src ++ [cat2], Node.dir)] : FS).filter
          (fun e => pathLe (src ++ [n2]) e.1) = [(src ++ [n2], Node.file c2)] := by
        simp [pathLe_snoc_self, pathLe_snoc_snoc, pathLe_refl, hsn, hn2c2]
      have hb2 : isDirAt [(src, Node.dir), (src ++ [n1], Node.file c1),
          (src ++ [n2], Node.file c2), (src ++ [cat2], Node.dir)]
          (src ++ [cat2, n2]) = false := by
        simp [isDirAt, fsLookup]
      have hbd2 : isDirAt [(src, Node.dir), (src ++ [n1], Node.file c1),
          (src ++ [n2], Node.file c2), (src ++ [cat2], Node.dir)]
          (src ++ [cat2, n2]).dropLast = true := by
        rw [hdrop2]
        simp [isDirAt, fsLookup, hn1c2, hn2c2]
      have hmv2 := fsMove_plain _ (src ++ [n2]) (src ++ [cat2, n2]) _ hl2' huniq2 hb2 hbd2
      have hstep2 : orgStep env reg true src
          { fs := [(src, Node.dir), (src ++ [n1], Node.file c1),
              (src ++ [n2], Node.file c2), (src ++ [cat2], Node.dir)]
            log := [], seen := [], cats := [cat2]
            report := [RLine.moveError n1] } n2 =
          ({ fs := (fsEraseAll [(src, Node.dir), (src ++ [n1], Node.file c1),
                (src ++ [n2], Node.file c2), (src ++ [cat2], Node.dir)]
                (src ++ [n2])).filter (fun e => e.1 ≠ src ++ [cat2, n2]) ++
              [(src ++ [cat2, n2], Node.file c2)]
             log := [(src ++ [cat2, n2], src ++ [n2])]
             seen := [(env.md5 c1, src ++ [cat2, n2])]
             cats := [cat2]
             report := [RLine.moveError n1, RLine.moved n2 cat2] }, false) := by
        rw [orgStep_true_eq, hgf2,
          orgStepAfterHash_okC env reg true src _ _ _ _ _ n2 _ cat2 hcond1t hcat2l,
          orgStepMove_movedC env true src _ _ _ _ _ n2 _ cat2 _ _ hmk2 hm2 hmv2]
        simp [htr, logInsert, seenInsert, catsAfter]
      have hloop := orgLoop_cons_false env reg true src _ _ n1 [n2] hstep1
      rw [orgLoop_cons_false env reg true src _ _ n2 [] hstep2, orgLoop_nil] at hloop
      have hrun : orgRun env reg true src [(n1, c1), (n2, c2)] =
          { world := ⟨(fsEraseAll [(src, Node.dir), (src ++ [n1], Node.file c1),
                (src ++ [n2], Node.file c2), (src ++ [cat2], Node.dir)]
                (src ++ [n2])).filter (fun e => e.1 ≠ src ++ [cat2, n2]) ++
              [(src ++ [cat2, n2], Node.file c2)],
              some (Except.ok [(src ++ [cat2, n2], src ++ [n2])])⟩
            log := [(src ++ [cat2, n2], src ++ [n2])]
            cats := [cat2]
            report := [RLine.moveError n1, RLine.moved n2 cat2]
            outcome := Outcome.done } := by
        rw [orgRun_eq,
          show ([(n1, c1), (n2, c2)] : List (String × String)).map Prod.fst = [n1, n2]
            from rfl, hfresh, hloop]
      rw [hrun]
      refine ⟨rfl, rfl, ?_⟩
      intro t ht
      simp [hns] at ht
    · have hc12 : cat1 ≠ cat2 := fun h => hc21 h.symm
      have hlc2 : fsLookup [(src, Node.dir), (src ++ [n1], Node.file c1),
          (src ++ [n2], Node.file c2), (src ++ [cat1], Node.dir)] (src ++ [cat2]) =
          none := by
        simp [fsLookup, hn1c2, hn2c2, hc12]
      have hmk2 : fsMkdir [(src, Node.dir), (src ++ [n1], Node.file c1),
          (src ++ [n2], Node.file c2), (src ++ [cat1], Node.dir)] (src ++ [cat2]) =
          some [(src, Node.dir), (src ++ [n1], Node.file c1),
            (src ++ [n2], Node.file c2), (src ++ [cat1], Node.dir),
            (src ++ [cat2], Node.dir)] := by
        rw [fsMkdir_new _ _ hlc2]
        rfl
      have hl2'' : fsLookup [(src, Node.dir), (src ++ [n1], Node.file c1),
          (src ++ [n2], Node.file c2), (src ++ [cat1], Node.dir),
          (src ++ [cat2], Node.dir)] (src ++ [n2]) = some (Node.file c2) := by
        simp [fsLookup, hns]
      have huniq2 : ([(src, Node.dir), (src ++ [n1], Node.file c1),
          (src ++ [n2], Node.file c2), (src ++ [cat1], Node.dir),
          (src ++ [cat2], Node.dir)] : FS).filter
          (fun e => pathLe (src ++ [n2]) e.1) = [(src ++ [n2], Node.file c2)] := by
        simp [pathLe_snoc_self, pathLe_snoc_snoc, pathLe_refl, hsn, hn2c1, hn2c2]
      have hb2 : isDirAt [(src, Node.dir), (src ++ [n1], Node.file c1),
          (src ++ [n2], Node.file c2), (src ++ [cat1], Node.dir),
          (src ++ [cat2], Node.dir)] (src ++ [cat2, n2]) = false := by
        simp [isDirAt, fsLookup]
      have hbd2 : isDirAt [(src, Node.dir), (src ++ [n1], Node.file c1),
          (src ++ [n2], Node.file c2), (src ++ [cat1], Node.dir),
          (src ++ [cat2], Node.dir)] (src ++ [cat2, n2]).dropLast = true := by
        rw [hdrop2]
        simp [isDirAt, fsLookup, hn1c2, hn2c2, hc12]
      have hmv2 := fsMove_plain _ (src ++ [n2]) (src ++ [cat2, n2]) _ hl2'' huniq2 hb2 hbd2
      have hcat2l' : categorize_file env [(src, Node.dir), (src ++ [n1], Node.file c1),
          (src ++ [n2], Node.file c2), (src ++ [cat1], Node.dir)] reg (src ++ [n2]) =
          Except.ok cat2 := hcat2l
      have hstep2 : orgStep env reg true src
          { fs := [(src, Node.dir), (src ++ [n1], Node.file c1),
              (src ++ [n2], Node.file c2), (src ++ [cat1], Node.dir)]
            log := [], seen := [], cats := [cat1]
            report := [RLine.moveError n1] } n2 =
          ({ fs := (fsEraseAll [(src, Node.dir), (src ++ [n1], Node.file c1),
                (src ++ [n2], Node.file c2), (src ++ [cat1], Node.dir),
                (src ++ [cat2], Node.dir)]
                (src ++ [n2])).filter (fun e => e.1 ≠ src ++ [cat2, n2]) ++
              [(src ++ [cat2, n2], Node.file c2)]
             log := [(src ++ [cat2, n2], src ++ [n2])]
             seen := [(env.md5 c1, src ++ [cat2, n2])]
             cats := [cat1, cat2]
             report := [RLine.moveError n1, RLine.moved n2 cat2] }, false) := by
        rw [orgStep_true_eq, hgf2,
          orgStepAfterHash_okC env reg true src _ _ _ _ _ n2 _ cat2 hcond1t hcat2l',
          orgStepMove_movedC env true src _ _ _ _ _ n2 _ cat2 _ _ hmk2 hm2 hmv2]
        simp [htr, logInsert, seenInsert, catsAfter, hc21]
      have hloop := orgLoop_cons_false env reg true src _ _ n1 [n2] hstep1
      rw [orgLoop_cons_false env reg true src _ _ n2 [] hstep2, orgLoop_nil] at hloop
      have hrun : orgRun env reg true src [(n1, c1), (n2, c2)] =
          { world := ⟨(fsEraseAll [(src, Node.dir), (src ++ [n1], Node.file c1),
                (src ++ [n2], Node.file c2), (src ++ [cat1], Node.dir),
                (src ++ [cat2], Node.dir)]
                (src ++ [n2])).filter (fun e => e.1 ≠ src ++ [cat2, n2]) ++
              [(src ++ [cat2, n2], Node.file c2)],
              some (Except.ok [(src ++ [cat2, n2], src ++ [n2])])⟩
            log := [(src ++ [cat2, n2], src ++ [n2])]
            cats := [cat1, cat2]
            report := [RLine.moveError n1, RLine.moved n2 cat2]
            outcome := Outcome.done } := by
        rw [orgRun_eq,
          show ([(n1, c1), (n2, c2)] : List (String × String)).map Prod.fst = [n1, n2]
            from rfl, hfresh, hloop]
      rw [hrun]
      refine ⟨rfl, rfl, ?_⟩
      intro t ht
      simp [hns] at ht

/-- Environment for the C5 witness: identical contents share a hash, all
I/O succeeds, the sniff yields no MIME match so the `txt` extension rules. -/
def c5wEnv : Env :=
  { md5 := fun c => String.append "H" c
    readFails := fun _ => false
    moveFails := fun _ _ => false
    sniff := fun _ => Except.ok "application/x-unknown"
    pdfRaw := fun _ => Except.ok ""
    tokTag := fun _ => Except.ok [] }

theorem C5_duplicate_skip_witness :
    ((orgRun c5wEnv CATEGORIES true ["s"] [("a.txt", "dup"), ("b.txt", "dup")]).outcome =
       Outcome.done ∧
     (orgRun c5wEnv CATEGORIES true ["s"] [("a.txt", "dup"), ("b.txt", "dup")]).report =
       [RLine.moved "a.txt" "Documents", RLine.skippedDup "b.txt"] ∧
     (orgRun c5wEnv CATEGORIES true ["s"] [("a.txt", "dup"), ("b.txt", "dup")]).log =
       [(["s"] ++ ["Documents", "a.txt"], ["s"] ++ ["a.txt"])] ∧
     fsLookup (orgRun c5wEnv CATEGORIES true ["s"]
         [("a.txt", "dup"), ("b.txt", "dup")]).world.fs
       (["s"] ++ ["b.txt"]) = some (Node.file "dup"))
    ∧ ((orgRun c5wEnv CATEGORIES false ["s"] [("a.txt", "dup"), ("b.txt", "dup")]).outcome =
         Outcome.done ∧
       (orgRun c5wEnv CATEGORIES false ["s"] [("a.txt", "dup"), ("b.txt", "dup")]).report =
         [RLine.moved "a.txt" "Documents", RLine.moved "b.txt" "Documents"] ∧
       (orgRun c5wEnv CATEGORIES false ["s"] [("a.txt", "dup"), ("b.txt", "dup")]).log =
         [(["s"] ++ ["Documents", "a.txt"], ["s"] ++ ["a.txt"]),
          (["s"] ++ ["Documents", "b.txt"], ["s"] ++ ["b.txt"])]) :=
  C5_duplicate_skip c5wEnv CATEGORIES ["s"] "a.txt" "b.txt" "dup" "dup"
    "Documents" "Documents" (by decide) (fun _ => rfl) (fun _ _ => rfl) rfl
    (by decide) rfl rfl (by decide) (by decide) (by decide)

/-- Environment for the C10 witness: the move of `a.txt` raises, the rest
succeeds. -/
def c10wEnv : Env :=
  { md5 := fun c => String.append "H" c
    readFails := fun _ => false
    moveFails := fun a _ => a == ["s", "a.txt"]
    sniff := fun _ => Except.ok "application/x-unknown"
    pdfRaw := fun _ => Except.ok ""
    tokTag := fun _ => Except.ok [] }

theorem C10_move_failure_atomicity_witness :
    ((orgStepMove c10wEnv true ["s"]
        ⟨[(["s"], Node.dir), (["s", "a.txt"], Node.file "x")], [], [], [], []⟩
        "a.txt" none "Documents").1.log = [] ∧
     (orgStepMove c10wEnv true ["s"]
        ⟨[(["s"], Node.dir), (["s", "a.txt"], Node.file "x")], [], [], [], []⟩
        "a.txt" none "Documents").1.seen = [] ∧
     (orgStepMove c10wEnv true ["s"]
        ⟨[(["s"], Node.dir), (["s", "a.txt"], Node.file "x")], [], [], [], []⟩
        "a.txt" none "Documents").2 = false)
    ∧ ((orgRun c10wEnv CATEGORIES true ["s"] [("a.txt", "dup"), ("b.txt", "dup")]).report =
         [RLine.moveError "a.txt", RLine.moved "b.txt" "Documents"] ∧
       (orgRun c10wEnv CATEGORIES true ["s"] [("a.txt", "dup"), ("b.txt", "dup")]).log =
         [(["s"] ++ ["Documents", "b.txt"], ["s"] ++ ["b.txt"])] ∧
       (∀ t, (t, ["s"] ++ ["a.txt"]) ∉
         (orgRun c10wEnv CATEGORIES true ["s"] [("a.txt", "dup"), ("b.txt", "dup")]).log)) :=
  ⟨C10_move_failure_atomicity.1 c10wEnv true ["s"]
      [(["s"], Node.dir), (["s", "a.txt"], Node.file "x")] [] [] [] [] "a.txt" none
      "Documents"
      [(["s"], Node.dir), (["s", "a.txt"], Node.file "x"), (["s", "Documents"], Node.dir)]
      (by decide) (Or.inl (by decide)),
   C10_move_failure_atomicity.2 c10wEnv CATEGORIES ["s"] "a.txt" "b.txt" "dup" "dup"
      "Documents" "Documents" (by decide) (fun _ => rfl) (by decide) (by decide) rfl
      (by decide) rfl rfl (by decide) (by decide) (by decide) (by decide)⟩


/-! ## C9: frame of an organize run over subdirectories -/

theorem pathLe_exists_append {a p : FPath} (h : pathLe a p = true) :
    ∃ rest, p = a ++ rest := by
  induction a generalizing p with
  | nil => exact ⟨p, rfl⟩
  | cons x xs ih =>
    cases p with
    | nil => cases h
    | cons y ys =>
      simp only [pathLe, Bool.and_eq_true, decide_eq_true_eq] at h
      obtain ⟨rest, hrest⟩ := ih h.2
      exact ⟨rest, by rw [h.1, hrest]; rfl⟩

theorem eq_snoc_of_le_len {p q : FPath} (h : pathLe p q = true)
    (hlen : q.length = p.length + 1) : q = p ++ [pbase q] := by
  obtain ⟨rest, hrest⟩ := pathLe_exists_append h
  subst hrest
  cases rest with
  | nil =>
    simp only [List.append_nil, List.length_nil] at hlen
    omega
  | cons x xs =>
    cases xs with
    | nil => rw [pbase_snoc]
    | cons y ys =>
      simp only [List.length_append, List.length_cons] at hlen
      omega

theorem fsLookup_of_all_ne (l : FS) (p : FPath) (h : ∀ e ∈ l, e.1 ≠ p) :
    fsLookup l p = none := by
  induction l with
  | nil => rfl
  | cons e l ih =>
    rcases e with ⟨q, nd⟩
    simp only [fsLookup]
    rw [if_neg (h (q, nd) (List.mem_cons_self _ _))]
    exact ih (fun x hx => h x (List.mem_cons_of_mem _ hx))

theorem fsMkdir_lookup_ne (fs fs1 : FS) (q : FPath)
    (h : fsMkdir fs q = some fs1) (p : FPath) (hne : p ≠ q) :
    fsLookup fs1 p = fsLookup fs p := by
  unfold fsMkdir at h
  rcases hq : fsLookup fs q with _ | nd
  · rw [hq] at h
    injection h with h
    subst h
    rw [fsLookup_snoc]
    cases hfp : fsLookup fs p with
    | some m => rfl
    | none => rw [if_neg (fun hh => hne hh.symm)]
  · rw [hq] at h
    cases nd with
    | file c => cases h
    | dir =>
      injection h with h
      subst h
      rfl

/-- Every successful move builds the same list shape, for a destination
extending `b` (either `b` itself or `b/basename a`). -/
theorem fsMove_some_shape (fs : FS) (a b : FPath) (fs' : FS)
    (hmv : fsMove fs a b = some fs') :
    ∃ dst, pathLe b dst = true ∧
      fs' = (fsEraseAll fs a).filter (fun e => e.1 ≠ dst) ++
        (fs.filter (fun e => pathLe a e.1)).map
          (fun e => (dst ++ e.1.drop a.length, e.2)) := by
  unfold fsMove at hmv
  rcases hla : fsLookup fs a with _ | nd
  · rw [hla] at hmv
    cases hmv
  · rw [hla] at hmv
    have hmv2 : (if (isDirAt fs b &&
          (fsLookup fs (if isDirAt fs b then b ++ [pbase a] else b)).isSome) then (none : Option FS)
        else if isDirAt fs (if isDirAt fs b then b ++ [pbase a] else b) then none
        else if ! isDirAt fs (List.dropLast (if isDirAt fs b then b ++ [pbase a] else b)) then none
        else some ((fsEraseAll fs a).filter
            (fun e => e.1 ≠ (if isDirAt fs b then b ++ [pbase a] else b)) ++
          (fs.filter (fun e => pathLe a e.1)).map
            (fun e => ((if isDirAt fs b then b ++ [pbase a] else b) ++ e.1.drop a.length, e.2)))) =
        some fs' := hmv
    have hbd : pathLe b (if isDirAt fs b then b ++ [pbase a] else b) = true := by
      split
      · exact pathLe_append_right b [pbase a]
      · exact pathLe_refl b
    generalize hd : (if isDirAt fs b then b ++ [pbase a] else b) = dst at hmv2 hbd
    split at hmv2
    · cases hmv2
    · split at hmv2
      · cases hmv2
      · split at hmv2
        · cases hmv2
        · injection hmv2 with hmv2
          subst hmv2
          exact ⟨dst, hbd, rfl⟩

theorem fsMove_lookup_outside (fs : FS) (a b : FPath) (fs' : FS)
    (hmv : fsMove fs a b = some fs') (p : FPath)
    (hpa : pathLe a p = false) (hpb : pathLe b p = false) :
    fsLookup fs' p = fsLookup fs p := by
  obtain ⟨dst, hbd, hfs⟩ := fsMove_some_shape fs a b fs' hmv
  have hpd : pathLe dst p = false := by
    cases hq : pathLe dst p with
    | false => rfl
    | true =>
      rw [pathLe_trans hbd hq] at hpb
      cases hpb
  subst hfs
  rw [fsLookup_append]
  have hkept : fsLookup ((fsEraseAll fs a).filter (fun e => e.1 ≠ dst)) p =
      fsLookup fs p := by
    rw [fsLookup_filter_keep _ _ _ (fun nd2 => by
      simp only [decide_eq_true_eq]
      intro hpd2
      have hpd3 : p = dst := hpd2
      rw [hpd3, pathLe_refl] at hpd
      cases hpd)]
    unfold fsEraseAll
    exact fsLookup_filter_keep _ _ _ (fun nd2 => by simp [hpa])
  rw [hkept]
  cases hfp : fsLookup fs p with
  | some m => rfl
  | none =>
    rw [fsLookup_of_all_ne]
    intro e he hep
    rcases List.mem_map.mp he with ⟨e0, he0, hfe⟩
    have he1 : e.1 = dst ++ e0.1.drop a.length := by rw [← hfe]
    have hble : pathLe dst p = true := by
      rw [← hep, he1]
      exact pathLe_append_right _ _
    rw [hble] at hpd
    cases hpd

theorem mem_catsAfter_self (cts : List String) (cat : String) :
    cat ∈ catsAfter cts cat := by
  unfold catsAfter
  split
  · next hc => exact mem_of_contains_true hc
  · simp

theorem mem_catsAfter_of_mem (cts : List String) (cat x : String) (h : x ∈ cts) :
    x ∈ catsAfter cts cat := by
  unfold catsAfter
  split
  · exact h
  · exact List.mem_append_left _ h

/-- Frame of one organize step: the category-folder bookkeeping only grows,
and any path whose lookup changes lies under `src/x` for `x` the processed
file's name or one of the categories ensured so far. -/
theorem orgStep_frame (env : Env) (reg : Registry) (sd : Bool) (src : FPath)
    (st st' : OrgSt) (n : String) (ab : Bool)
    (h : orgStep env reg sd src st n = (st', ab)) :
    (∀ x ∈ st.cats, x ∈ st'.cats) ∧
    ∀ p, fsLookup st'.fs p ≠ fsLookup st.fs p →
      ∃ x rest, p = src ++ x :: rest ∧ (x = n ∨ x ∈ st'.cats) := by
  unfold orgStep at h
  rcases hcond : (sd && hashTruthy (if sd then get_file_hash env st.fs (src ++ [n])
      else none) && seenHas st.seen (if sd then get_file_hash env st.fs (src ++ [n])
      else none)) with _ | _
  · rcases hcat : categorize_file env st.fs reg (src ++ [n]) with e | cat
    · rw [orgStepAfterHash_abort env reg sd src st n _ e hcond hcat] at h
      injection h with h1 h2
      subst h1 h2
      exact ⟨fun x hx => hx, fun p hp => absurd rfl hp⟩
    · rw [orgStepAfterHash_ok env reg sd src st n _ cat hcond hcat] at h
      rcases hmk : fsMkdir st.fs (src ++ [cat]) with _ | fs1
      · rw [orgStepMove_mkdirRaise env sd src st n _ cat hmk] at h
        injection h with h1 h2
        subst h1 h2
        exact ⟨fun x hx => hx, fun p hp => absurd rfl hp⟩
      · rcases hmf : env.moveFails (src ++ [n]) (src ++ [cat, n]) with _ | _
        · rcases hmv : fsMove fs1 (src ++ [n]) (src ++ [cat, n]) with _ | fs2
          · rw [orgStepMove_moveRaise env sd src st n _ cat fs1 hmk hmf hmv] at h
            injection h with h1 h2
            subst h1 h2
            refine ⟨fun x hx => mem_catsAfter_of_mem _ _ _ hx, fun p hp => ?_⟩
            by_cases hpc : p = src ++ [cat]
            · exact ⟨cat, [], hpc, Or.inr (mem_catsAfter_self _ _)⟩
            · exact absurd (fsMkdir_lookup_ne st.fs fs1 _ hmk p hpc) hp
          · rw [orgStepMove_moved env sd src st n _ cat fs1 fs2 hmk hmf hmv] at h
            injection h with h1 h2
            subst h1 h2
            refine ⟨fun x hx => mem_catsAfter_of_mem _ _ _ hx, fun p hp => ?_⟩
            by_cases hchg : fsLookup fs2 p = fsLookup fs1 p
            · by_cases hpc : p = src ++ [cat]
              · exact ⟨cat, [], hpc, Or.inr (mem_catsAfter_self _ _)⟩
              · exact absurd
                  (hchg.trans (fsMkdir_lookup_ne st.fs fs1 _ hmk p hpc)) hp
            · rcases hpa : pathLe (src ++ [n]) p with _ | _
              · rcases hpb : pathLe (src ++ [cat, n]) p with _ | _
                · exact absurd (fsMove_lookup_outside fs1 _ _ fs2 hmv p hpa hpb) hchg
                · obtain ⟨rest, hrest⟩ := pathLe_exists_append hpb
                  refine ⟨cat, n :: rest, ?_, Or.inr (mem_catsAfter_self _ _)⟩
                  rw [hrest]
                  simp
              · obtain ⟨rest, hrest⟩ := pathLe_exists_append hpa
                refine ⟨n, rest, ?_, Or.inl rfl⟩
                rw [hrest]
                simp
        · rw [orgStepMove_moveFail env sd src st n _ cat fs1 hmk hmf] at h
          injection h with h1 h2
          subst h1 h2
          refine ⟨fun x hx => mem_catsAfter_of_mem _ _ _ hx, fun p hp => ?_⟩
          by_cases hpc : p = src ++ [cat]
          · exact ⟨cat, [], hpc, Or.inr (mem_catsAfter_self _ _)⟩
          · exact absurd (fsMkdir_lookup_ne st.fs fs1 _ hmk p hpc) hp
  · rw [orgStepAfterHash_skip env reg sd src st n _ hcond] at h
    injection h with h1 h2
    subst h1 h2
    exact ⟨fun x hx => hx, fun p hp => absurd rfl hp⟩

/-- Frame of the organize loop: any path whose lookup changes lies under
`src/x` for `x` an enumerated name or a category the run has ensured. -/
theorem orgLoop_frame (env : Env) (reg : Registry) (sd : Bool) (src : FPath) :
    ∀ (ns : List String) (st st' : OrgSt) (ab : Bool),
      orgLoop env reg sd src ns st = (st', ab) →
      (∀ x ∈ st.cats, x ∈ st'.cats) ∧
      ∀ p, fsLookup st'.fs p ≠ fsLookup st.fs p →
        ∃ x rest, p = src ++ x :: rest ∧ (x ∈ ns ∨ x ∈ st'.cats) := by
  intro ns
  induction ns with
  | nil =>
    intro st st' ab h
    rw [orgLoop_nil] at h
    injection h with h1 h2
    subst h1 h2
    exact ⟨fun x hx => hx, fun p hp => absurd rfl hp⟩
  | cons n ns ih =>
    intro st st' ab h
    rcases hstep : orgStep env reg sd src st n with ⟨st1, ab1⟩
    obtain ⟨hmono1, hframe1⟩ := orgStep_frame env reg sd src st st1 n ab1 hstep
    cases ab1 with
    | true =>
      rw [orgLoop, hstep] at h
      injection h with h1 h2
      subst h1 h2
      refine ⟨hmono1, fun p hp => ?_⟩
      obtain ⟨x, rest, hx, hor⟩ := hframe1 p hp
      refine ⟨x, rest, hx, ?_⟩
      rcases hor with he | hm
      · exact Or.inl (by rw [he]; exact List.mem_cons_self _ _)
      · exact Or.inr hm
    | false =>
      rw [orgLoop, hstep] at h
      obtain ⟨hmono2, hframe2⟩ := ih st1 st' ab h
      refine ⟨fun x hx => hmono2 x (hmono1 x hx), fun p hp => ?_⟩
      by_cases hchg : fsLookup st'.fs p = fsLookup st1.fs p
      · obtain ⟨x, rest, hx, hor⟩ := hframe1 p (fun he => hp (hchg.trans he))
        refine ⟨x, rest, hx, ?_⟩
        rcases hor with he | hm
        · exact Or.inl (by rw [he]; exact List.mem_cons_self _ _)
        · exact Or.inr (hmono2 x hm)
      · obtain ⟨x, rest, hx, hor⟩ := hframe2 p hchg
        exact ⟨x, rest, hx, hor.imp (List.mem_cons_of_mem _) id⟩

/-- Only regular-file children of `src` are enumerated: every enumerated
name carries a regular-file entry immediately below `src`. -/
theorem iterdirFiles_are_files (fs : FS) (src : FPath) :
    ∀ n ∈ iterdirFiles fs src, ∃ c, (src ++ [n], Node.file c) ∈ fs := by
  intro n hn
  unfold iterdirFiles childEntries at hn
  rcases List.mem_filterMap.mp hn with ⟨en, hmem, hnd⟩
  rcases List.mem_filterMap.mp hmem with ⟨e, he, hcond⟩
  rcases e with ⟨p0, n0⟩
  split at hcond
  · next hc =>
    injection hcond with hcond
    subst hcond
    simp only [Bool.and_eq_true, decide_eq_true_eq] at hc
    rcases n0 with c | _
    · injection hnd with hnd
      subst hnd
      have he1 : p0 = src ++ [pbase p0] := eq_snoc_of_le_len hc.1 hc.2
      exact ⟨c, by rw [← he1]; exact he⟩
    · cases hnd
  · cases hcond

/-- Environment for the C9 counterexample: the single file sniffs as a
PDF. -/
def c9cEnv : Env :=
  { md5 := fun _ => "h"
    readFails := fun _ => false
    moveFails := fun _ _ => false
    sniff := fun _ => Except.ok "application/pdf"
    pdfRaw := fun _ => Except.ok ""
    tokTag := fun _ => Except.ok [] }

def c9cfs : FS :=
  [(["s"], Node.dir), (["s", "Documents"], Node.dir),
   (["s", "a.pdf"], Node.file "P")]

/-- C9 counterexample: a pre-existing subdirectory of `source_dir` named
like an assigned category is *not* unchanged by the run — the moved file
lands inside it. -/
theorem C9_counterexample :
    fsLookup c9cfs ["s", "Documents"] = some Node.dir ∧
    fsLookup c9cfs ["s", "Documents", "a.pdf"] = none ∧
    fsLookup (organize_files c9cEnv CATEGORIES false ["s"]
        { fs := c9cfs, persisted := none } []).world.fs
      ["s", "Documents", "a.pdf"] = some (Node.file "P") := by
  decide

/-- C9 amended: the run enumerates only the immediate regular-file entries
of `source_dir`, and a pre-existing subdirectory whose name is neither an
enumerated file name nor one of the category folders the run ensured is —
together with everything inside it — unchanged.  (A subdirectory named
like an assigned category does change: moved files land inside it.) -/
theorem C9_subdir_frame_amended (env : Env) (reg : Registry) (skipDup : Bool)
    (src : FPath) (w : World) (ml : MoveLog) (d : String) :
    (∀ n ∈ iterdirFiles w.fs src, ∃ c, (src ++ [n], Node.file c) ∈ w.fs)
    ∧ (d ∉ iterdirFiles w.fs src →
       d ∉ (organize_files env reg skipDup src w ml).cats →
       ∀ rest, fsLookup (organize_files env reg skipDup src w ml).world.fs
           (src ++ d :: rest) = fsLookup w.fs (src ++ d :: rest)) := by
  refine ⟨iterdirFiles_are_files w.fs src, ?_⟩
  intro hd hdc rest
  rcases hl : fsLookup w.fs src with _ | nd
  · rw [organize_files_eq_missing env reg skipDup src w ml hl]
  · cases nd with
    | file c =>
      rw [organize_files_eq_file env reg skipDup src w ml c hl]
    | dir =>
      rw [organize_files_eq_dir env reg skipDup src w ml hl] at hdc ⊢
      rcases hloop : orgLoop env reg skipDup src (iterdirFiles w.fs src)
          { fs := w.fs, log := ml, seen := [], cats := [], report := [] } with ⟨st, b⟩
      rw [hloop] at hdc
      obtain ⟨-, hframe⟩ := orgLoop_frame env reg skipDup src
        (iterdirFiles w.fs src) _ st b hloop
      cases b with
      | true =>
        have hdc2 : d ∉ st.cats := hdc
        show fsLookup st.fs (src ++ d :: rest) = fsLookup w.fs (src ++ d :: rest)
        by_contra hne
        obtain ⟨x, rest2, hx, hor⟩ := hframe (src ++ d :: rest) hne
        obtain ⟨hxd, -⟩ : d = x ∧ rest = rest2 := by simpa using hx
        rcases hor with hin | hin
        · rw [← hxd] at hin
          exact hd hin
        · rw [← hxd] at hin
          exact hdc2 hin
      | false =>
        have hdc2 : d ∉ st.cats := hdc
        show fsLookup st.fs (src ++ d :: rest) = fsLookup w.fs (src ++ d :: rest)
        by_contra hne
        obtain ⟨x, rest2, hx, hor⟩ := hframe (src ++ d :: rest) hne
        obtain ⟨hxd, -⟩ : d = x ∧ rest = rest2 := by simpa using hx
        rcases hor with hin | hin
        · rw [← hxd] at hin
          exact hd hin
        · rw [← hxd] at hin
          exact hdc2 hin

/-- Environment for the C9 witness: everything succeeds, text files. -/
def c9wEnv : Env :=
  { md5 := fun _ => "h"
    readFails := fun _ => false
    moveFails := fun _ _ => false
    sniff := fun _ => Except.ok "text/plain"
    pdfRaw := fun _ => Except.ok ""
    tokTag := fun _ => Except.ok [] }

def c9wfs : FS :=
  [(["s"], Node.dir), (["s", "Stuff"], Node.dir),
   (["s", "Stuff", "x.txt"], Node.file "Z"), (["s", "a.txt"], Node.file "x")]

theorem C9_subdir_frame_amended_witness :
    "Stuff" ∉ iterdirFiles c9wfs ["s"] ∧
    "Stuff" ∉ (organize_files c9wEnv CATEGORIES false ["s"]
        { fs := c9wfs, persisted := none } []).cats ∧
    fsLookup (organize_files c9wEnv CATEGORIES false ["s"]
        { fs := c9wfs, persisted := none } []).world.fs
      (["s"] ++ "Stuff" :: ["x.txt"]) =
      fsLookup c9wfs (["s"] ++ "Stuff" :: ["x.txt"]) :=
  ⟨by decide, by decide,
    (C9_subdir_frame_amended c9wEnv CATEGORIES false ["s"]
        { fs := c9wfs, persisted := none } [] "Stuff").2
      (by decide) (by decide) ["x.txt"]⟩

/-! ## C1: the organize/restore round trip -/

theorem pathLe_false_of_lt {a b : FPath} (h : b.length < a.length) :
    pathLe a b = false := by
  cases hq : pathLe a b with
  | false => rfl
  | true => exact absurd (pathLe_length hq) (by omega)

theorem pathLe_false_of_ne_len {a b : FPath} (hlen : b.length ≤ a.length)
    (hne : a ≠ b) : pathLe a b = false := by
  cases hq : pathLe a b with
  | false => rfl
  | true => exact absurd (pathLe_antisymm hq hlen) hne

theorem lookup_none_forall {fs : FS} {p : FPath} (h : fsLookup fs p = none) :
    ∀ e ∈ fs, e.1 ≠ p := by
  induction fs with
  | nil => intro e he; cases he
  | cons e0 fs ih =>
    intro e he
    rcases e0 with ⟨q, nd⟩
    simp only [fsLookup] at h
    by_cases hq : q = p
    · rw [if_pos hq] at h
      cases h
    · rw [if_neg hq] at h
      rcases List.mem_cons.mp he with he0 | hm
      · rw [he0]
        exact hq
      · exact ih h e hm

theorem isDirAt_congr {fs fs' : FS} {p : FPath}
    (h : fsLookup fs' p = fsLookup fs p) : isDirAt fs' p = isDirAt fs p := by
  unfold isDirAt
  rw [h]

theorem isDirAt_of_none {fs : FS} {p : FPath} (h : fsLookup fs p = none) :
    isDirAt fs p = false := by
  unfold isDirAt
  rw [h]

theorem isDirAt_of_dir {fs : FS} {p : FPath} (h : fsLookup fs p = some Node.dir) :
    isDirAt fs p = true := by
  unfold isDirAt
  rw [h]

theorem filter_pathLe_singleton (fs : FS) (a : FPath) (nd : Node)
    (hnk : fs.Pairwise (fun e1 e2 => e1.1 ≠ e2.1))
    (ha : fsLookup fs a = some nd)
    (hno : ∀ e ∈ fs, pathLe a e.1 = true → e.1 = a) :
    fs.filter (fun e => pathLe a e.1) = [(a, nd)] := by
  induction fs with
  | nil => cases ha
  | cons e0 fs ih =>
    rcases e0 with ⟨q, m⟩
    simp only [fsLookup] at ha
    rcases List.pairwise_cons.mp hnk with ⟨hq1, hq2⟩
    by_cases hq : q = a
    · subst hq
      rw [if_pos rfl] at ha
      injection ha with ha
      subst ha
      rw [List.filter_cons_of_pos (by simpa using pathLe_refl q)]
      have hrest : fs.filter (fun e => pathLe q e.1) = [] := by
        apply List.filter_eq_nil_iff.mpr
        intro e he
        simp only [Bool.not_eq_true]
        cases hp : pathLe q e.1 with
        | false => rfl
        | true =>
          exact absurd (hno e (List.mem_cons_of_mem _ he) hp).symm (hq1 e he)
      rw [hrest]
    · rw [if_neg hq] at ha
      have hf : pathLe a q = false := by
        cases hp : pathLe a q with
        | false => rfl
        | true => exact absurd (hno (q, m) (List.mem_cons_self _ _) hp) hq
      rw [List.filter_cons_of_neg (by simp [hf])]
      exact ih hq2 ha (fun e he hle => hno e (List.mem_cons_of_mem _ he) hle)

theorem freshFS_lookup_child (src : FPath) (cs : List (String × String))
    (hnd : (cs.map Prod.fst).Nodup) (nc : String × String) (h : nc ∈ cs) :
    fsLookup (freshFS src cs) (src ++ [nc.1]) = some (Node.file nc.2) := by
  unfold freshFS
  simp only [fsLookup]
  rw [if_neg (path_ne_of_length (by simp))]
  induction cs with
  | nil => cases h
  | cons c0 cs ih =>
    simp only [List.map_cons, List.nodup_cons] at hnd
    rcases List.mem_cons.mp h with he0 | hm
    · rw [he0]
      simp [fsLookup]
    · simp only [List.map_cons, fsLookup]
      rw [if_neg (fun hc => hnd.1 (by
        have : c0.1 = nc.1 := by simpa using hc
        rw [this]
        exact List.mem_map_of_mem Prod.fst hm))]
      exact ih hnd.2 hm

theorem freshFS_nodupkeys (src : FPath) (cs : List (String × String))
    (hnd : (cs.map Prod.fst).Nodup) :
    (freshFS src cs).Pairwise (fun e1 e2 => e1.1 ≠ e2.1) := by
  unfold freshFS
  refine List.pairwise_cons.mpr ⟨?_, ?_⟩
  · intro e he
    rcases List.mem_map.mp he with ⟨nc, hnc, hfe⟩
    rw [← hfe]
    exact path_ne_of_length (by simp)
  · rw [List.pairwise_map]
    exact ((List.pairwise_map).mp hnd).imp
      (fun hab hc => hab (by simpa using hc))

theorem any_beq_false {l : MoveLog} {k : FPath} (h : ∀ e ∈ l, e.1 ≠ k) :
    l.any (fun e => e.1 == k) = false := by
  cases hq : l.any (fun e => e.1 == k) with
  | false => rfl
  | true =>
    rcases List.any_eq_true.mp hq with ⟨e, he, hbe⟩
    exact absurd (by simpa using hbe) (h e he)

theorem logInsert_fresh (l : MoveLog) (k v : FPath)
    (h : ∀ e ∈ l, e.1 ≠ k) : logInsert l k v = l ++ [(k, v)] := by
  unfold logInsert
  rw [any_beq_false h]
  rfl

theorem restLoop_cons (env : Env) (e : FPath × FPath) (es : MoveLog) (fs : FS)
    (rep : List RLine) :
    restLoop env (e :: es) fs rep =
      restLoop env es (restStep env fs e).1 (rep ++ [(restStep env fs e).2]) := rfl

theorem restStep_notFound (env : Env) (fs : FS) (e : FPath × FPath)
    (h : fsLookup fs e.1 = none) :
    restStep env fs e = (fs, RLine.notFound (pbase e.1)) := by
  unfold restStep
  rw [h]
  rfl

theorem restStep_fail (env : Env) (fs : FS) (e : FPath × FPath) (nd : Node)
    (h : fsLookup fs e.1 = some nd) (hmf : env.moveFails e.1 e.2 = true) :
    restStep env fs e = (fs, RLine.restoreError (pbase e.1)) := by
  unfold restStep
  rw [h, hmf]
  rfl

theorem restStep_raise (env : Env) (fs : FS) (e : FPath × FPath) (nd : Node)
    (h : fsLookup fs e.1 = some nd) (hmf : env.moveFails e.1 e.2 = false)
    (hmv : fsMove fs e.1 e.2 = none) :
    restStep env fs e = (fs, RLine.restoreError (pbase e.1)) := by
  unfold restStep
  rw [h, hmf, hmv]
  rfl

theorem restStep_ok (env : Env) (fs : FS) (e : FPath × FPath) (nd : Node) (fs' : FS)
    (h : fsLookup fs e.1 = some nd) (hmf : env.moveFails e.1 e.2 = false)
    (hmv : fsMove fs e.1 e.2 = some fs') :
    restStep env fs e = (fs', RLine.restored (pbase e.1)) := by
  unfold restStep
  rw [h, hmf, hmv]
  rfl

theorem restStep_lookup_frame (env : Env) (fs : FS) (e : FPath × FPath) (p : FPath)
    (h1 : pathLe e.1 p = false) (h2 : pathLe e.2 p = false) :
    fsLookup (restStep env fs e).1 p = fsLookup fs p := by
  rcases hl : fsLookup fs e.1 with _ | nd
  · rw [restStep_notFound env fs e hl]
  · rcases hmf : env.moveFails e.1 e.2 with _ | _
    · rcases hmv : fsMove fs e.1 e.2 with _ | fs'
      · rw [restStep_raise env fs e nd hl hmf hmv]
      · rw [restStep_ok env fs e nd fs' hl hmf hmv]
        exact fsMove_lookup_outside fs e.1 e.2 fs' hmv p h1 h2
    · rw [restStep_fail env fs e nd hl hmf]

theorem restLoop_lookup_frame (env : Env) :
    ∀ (es : MoveLog) (fs : FS) (rep : List RLine) (p : FPath),
      (∀ e ∈ es, pathLe e.1 p = false ∧ pathLe e.2 p = false) →
      fsLookup (restLoop env es fs rep).1 p = fsLookup fs p := by
  intro es
  induction es with
  | nil => intro fs rep p _; rfl
  | cons e es ih =>
    intro fs rep p h
    rw [restLoop_cons]
    rw [ih _ _ p (fun e2 he2 => h e2 (List.mem_cons_of_mem _ he2))]
    exact restStep_lookup_frame env fs e p (h e (List.mem_cons_self _ _)).1
      (h e (List.mem_cons_self _ _)).2

/-- Shape of a log entry at restore time: a recorded move of `src/n` into
`src/cat/n`, whose target still holds a file. -/
def RestEntryOK (src : FPath) (names cats : List String) (fs : FS)
    (en : FPath × FPath) : Prop :=
  ∃ cat n c, cat ∈ cats ∧ n ∈ names ∧ en.1 = src ++ [cat, n] ∧
    en.2 = src ++ [n] ∧ fsLookup fs en.1 = some (Node.file c)

/-- Invariant carried through the restore loop over the remaining
entries. -/
def RestInv (src : FPath) (names cats : List String) (fs : FS)
    (es : MoveLog) : Prop :=
  fsLookup fs src = some Node.dir ∧
  (∀ e ∈ fs, e.1.length ≤ src.length + 2) ∧
  fs.Pairwise (fun e1 e2 => e1.1 ≠ e2.1) ∧
  (∀ cat ∈ cats, ∀ n ∈ names, cat ≠ n) ∧
  (es.map Prod.fst).Nodup ∧
  (es.map Prod.snd).Nodup ∧
  (∀ en ∈ es, RestEntryOK src names cats fs en) ∧
  (∀ en ∈ es, isDirAt fs en.2 = false)

theorem RestInv_tail (src : FPath) (names cats : List String) (fs : FS)
    (en : FPath × FPath) (es : MoveLog)
    (hinv : RestInv src names cats fs (en :: es)) :
    RestInv src names cats fs es := by
  obtain ⟨hsrc, hlen, hnk, hdisj, hnd1, hnd2, hok, hnd3⟩ := hinv
  simp only [List.map_cons, List.nodup_cons] at hnd1 hnd2
  exact ⟨hsrc, hlen, hnk, hdisj, hnd1.2, hnd2.2,
    fun e he => hok e (List.mem_cons_of_mem _ he),
    fun e he => hnd3 e (List.mem_cons_of_mem _ he)⟩

theorem restStep_inv_ok (env : Env) (src : FPath) (names cats : List String)
    (fs : FS) (t0 o0 : FPath) (es : MoveLog)
    (hinv : RestInv src names cats fs ((t0, o0) :: es))
    (hmf : env.moveFails t0 o0 = false) :
    ∃ c, fsLookup fs t0 = some (Node.file c) ∧
      restStep env fs (t0, o0) =
        ((fsEraseAll fs t0).filter (fun e => e.1 ≠ o0) ++ [(o0, Node.file c)],
         RLine.restored (pbase t0)) := by
  obtain ⟨hsrc, hlen, hnk, hdisj, hnd1, hnd2, hok, hnd3⟩ := hinv
  obtain ⟨cat, n, c, hcat, hn, ht, ho, hlk⟩ := hok (t0, o0) (List.mem_cons_self _ _)
  simp only at ht ho hlk
  refine ⟨c, hlk, ?_⟩
  have hbd : isDirAt fs (List.dropLast o0) = true := by
    rw [ho, List.dropLast_concat]
    exact isDirAt_of_dir hsrc
  have hb : isDirAt fs o0 = false := hnd3 (t0, o0) (List.mem_cons_self _ _)
  have hlt : t0.length = src.length + 2 := by rw [ht]; simp
  have huniq : fs.filter (fun e => pathLe t0 e.1) = [(t0, Node.file c)] := by
    apply filter_pathLe_singleton fs t0 _ hnk hlk
    intro e he hp
    have h1 : t0.length ≤ e.1.length := pathLe_length hp
    have h2 : e.1.length ≤ src.length + 2 := hlen e he
    exact (pathLe_antisymm hp (by omega)).symm
  have hmv := fsMove_plain fs t0 o0 (Node.file c) hlk huniq hb hbd
  exact restStep_ok env fs (t0, o0) (Node.file c) _ hlk hmf hmv

theorem restStep_inv_pres (env : Env) (src : FPath) (names cats : List String)
    (fs : FS) (t0 o0 : FPath) (es : MoveLog)
    (hinv : RestInv src names cats fs ((t0, o0) :: es)) :
    RestInv src names cats (restStep env fs (t0, o0)).1 es := by
  rcases hl : fsLookup fs t0 with _ | nd
  · rw [restStep_notFound env fs (t0, o0) hl]
    exact RestInv_tail src names cats fs (t0, o0) es hinv
  · rcases hmf : env.moveFails t0 o0 with _ | _
    · obtain ⟨c, hlk, hstep⟩ := restStep_inv_ok env src names cats fs t0 o0 es hinv hmf
      rw [hstep]
      show RestInv src names cats
        ((fsEraseAll fs t0).filter (fun e => e.1 ≠ o0) ++ [(o0, Node.file c)]) es
      obtain ⟨hsrc, hlen, hnk, hdisj, hnd1, hnd2, hok, hnd3⟩ := hinv
      simp only [List.map_cons, List.nodup_cons] at hnd1 hnd2
      obtain ⟨cat, n, c2, hcat, hn, ht, ho, hlk2⟩ := hok (t0, o0) (List.mem_cons_self _ _)
      simp only at ht ho hlk2
      have hlt : t0.length = src.length + 2 := by rw [ht]; simp
      have hlo : o0.length = src.length + 1 := by rw [ho]; simp
      have hpt : ∀ q, fsLookup
          ((fsEraseAll fs t0).filter (fun e => e.1 ≠ o0) ++ [(o0, Node.file c)]) q =
          (if q = o0 then some (Node.file c)
           else if pathLe t0 q = true then none else fsLookup fs q) :=
        fun q => fsMove_plain_lookup fs t0 o0 (Node.file c) q
      refine ⟨?_, ?_, ?_, hdisj, hnd1.2, hnd2.2, ?_, ?_⟩
      · rw [hpt src, if_neg (fun hc => by
            have := congrArg List.length hc
            omega),
          if_neg (by simp [pathLe_false_of_lt (show src.length < t0.length by omega)])]
        exact hsrc
      · intro e he
        rcases List.mem_append.mp he with hk | hb2
        · exact hlen e (List.mem_of_mem_filter (List.mem_of_mem_filter hk))
        · have he2 : e = (o0, Node.file c) := by simpa using hb2
          rw [he2]
          simp only
          omega
      · apply List.pairwise_append.mpr
        refine ⟨List.Pairwise.filter _ (List.Pairwise.filter _ hnk),
          List.pairwise_singleton _ _, ?_⟩
        intro a ha b hb
        have hb2 : b = (o0, Node.file c) := by simpa using hb
        have := (List.mem_filter.mp ha).2
        rw [hb2]
        simpa using this
      · intro e he
        obtain ⟨cat', n', c', hcat', hn', ht', ho', hlk'⟩ :=
          hok e (List.mem_cons_of_mem _ he)
        refine ⟨cat', n', c', hcat', hn', ht', ho', ?_⟩
        rw [hpt e.1,
          if_neg (path_ne_of_length (by
            rw [ht', hlo]
            simp only [List.length_append, List.length_cons, List.length_nil]
            omega)),
          if_neg (by
            have hne : t0 ≠ e.1 := by
              intro hc
              apply hnd1.1
              rw [hc]
              exact List.mem_map_of_mem Prod.fst he
            have hlen2 : e.1.length ≤ t0.length := by
              rw [ht', hlt]
              simp only [List.length_append, List.length_cons, List.length_nil]
              omega
            simp [pathLe_false_of_ne_len hlen2 hne])]
        exact hlk'
      · intro e he
        obtain ⟨cat', n', c', hcat', hn', ht', ho', hlk'⟩ :=
          hok e (List.mem_cons_of_mem _ he)
        have hpr : fsLookup
            ((fsEraseAll fs t0).filter (fun e => e.1 ≠ o0) ++ [(o0, Node.file c)]) e.2 =
            fsLookup fs e.2 := by
          rw [hpt e.2,
            if_neg (fun hc => hnd2.1 (by
              rw [← hc]
              exact List.mem_map_of_mem Prod.snd he)),
            if_neg (by
              have hlen2 : e.2.length < t0.length := by
                rw [ho', hlt]
                simp only [List.length_append, List.length_cons, List.length_nil]
                omega
              simp [pathLe_false_of_lt hlen2])]
        rw [isDirAt_congr hpr]
        exact hnd3 e (List.mem_cons_of_mem _ he)
    · rw [restStep_fail env fs (t0, o0) nd hl hmf]
      exact RestInv_tail src names cats fs (t0, o0) es hinv

theorem restLoop_restores (env : Env) (src : FPath) (names cats : List String) :
    ∀ (es : MoveLog) (fs : FS) (rep : List RLine) (t o : FPath),
      RestInv src names cats fs es → (t, o) ∈ es → env.moveFails t o = false →
      fsLookup (restLoop env es fs rep).1 o = fsLookup fs t := by
  intro es
  induction es with
  | nil =>
    intro fs rep t o _ hm _
    cases hm
  | cons en es ih =>
    intro fs rep t o hinv hm hmf
    rcases en with ⟨t1, o1⟩
    rw [restLoop_cons]
    rcases List.mem_cons.mp hm with he | hm2
    · have he1 : t1 = t ∧ o1 = o := by
        have := he.symm
        simp only [Prod.mk.injEq] at this
        exact this
      rcases he1 with ⟨rfl, rfl⟩
      obtain ⟨c, hlk, hstep⟩ := restStep_inv_ok env src names cats fs t1 o1 es hinv hmf
      obtain ⟨hsrc, hlen, hnk, hdisj, hnd1, hnd2, hok, hnd3⟩ := hinv
      simp only [List.map_cons, List.nodup_cons] at hnd1 hnd2
      obtain ⟨cat, n, c2, hcat, hn, ht, ho, hlk2⟩ := hok (t1, o1) (List.mem_cons_self _ _)
      simp only at ht ho hlk2
      rw [hstep]
      rw [restLoop_lookup_frame env es _ _ o1 (fun e he => by
        obtain ⟨cat', n', c', hcat', hn', ht', ho', hlk'⟩ :=
          hok e (List.mem_cons_of_mem _ he)
        constructor
        · have hlen2 : o1.length < e.1.length := by
            rw [ho, ht']
            simp only [List.length_append, List.length_cons, List.length_nil]
            omega
          exact pathLe_false_of_lt hlen2
        · have hne : e.2 ≠ o1 := by
            intro hc
            apply hnd2.1
            rw [← hc]
            exact List.mem_map_of_mem Prod.snd he
          have hlen2 : o1.length ≤ e.2.length := by
            rw [ho, ho']
            simp only [List.length_append, List.length_cons, List.length_nil]
            omega
          exact pathLe_false_of_ne_len hlen2 hne)]
      show fsLookup ((fsEraseAll fs t1).filter (fun e => e.1 ≠ o1) ++
        [(o1, Node.file c)]) o1 = fsLookup fs t1
      rw [fsMove_plain_lookup fs t1 o1 (Node.file c) o1, if_pos rfl, hlk]
    · have hinv2 := restStep_inv_pres env src names cats fs t1 o1 es hinv
      rw [ih _ _ t o hinv2 hm2 hmf]
      obtain ⟨hsrc, hlen, hnk, hdisj, hnd1, hnd2, hok, hnd3⟩ := hinv
      simp only [List.map_cons, List.nodup_cons] at hnd1 hnd2
      obtain ⟨cat, n, c2, hcat, hn, ht, ho, hlk2⟩ := hok (t1, o1) (List.mem_cons_self _ _)
      simp only at ht ho hlk2
      obtain ⟨cat', n', c', hcat', hn', ht', ho', hlk'⟩ := hok (t, o) (List.mem_cons_of_mem _ hm2)
      simp only at ht' ho' hlk'
      apply restStep_lookup_frame
      · have hne : t1 ≠ t := by
          intro hc
          apply hnd1.1
          rw [hc]
          exact List.mem_map_of_mem Prod.fst hm2
        have hlen2 : t.length ≤ t1.length := by
          rw [ht, ht']
          simp only [List.length_append, List.length_cons, List.length_nil]
          omega
        exact pathLe_false_of_ne_len hlen2 hne
      · show pathLe o1 t = false
        rw [ho, ht', pathLe_snoc_pair]
        simp only [decide_eq_false_iff_not]
        exact fun hc => hdisj cat' hcat' n hn hc.symm

theorem mem_catsAfter_elim {cts : List String} {cat x : String}
    (h : x ∈ catsAfter cts cat) : x ∈ cts ∨ x = cat := by
  unfold catsAfter at h
  split at h
  · exact Or.inl h
  · rcases List.mem_append.mp h with h1 | h2
    · exact Or.inl h1
    · exact Or.inr (by simpa using h2)

/-- Invariant carried through the organize loop on a fresh run: the
filesystem and the transaction log stay in lock step over the remaining
children. -/
def OrgInv (src : FPath) (cs : List (String × String)) (st : OrgSt)
    (rem : List (String × String)) : Prop :=
  fsLookup st.fs src = some Node.dir ∧
  st.fs.Pairwise (fun e1 e2 => e1.1 ≠ e2.1) ∧
  (∀ e ∈ st.fs, e.1 = src ∨ (∃ x, e.1 = src ++ [x]) ∨ ∃ en ∈ st.log, e.1 = en.1) ∧
  (∀ nc ∈ rem, fsLookup st.fs (src ++ [nc.1]) = some (Node.file nc.2)) ∧
  (∀ en ∈ st.log, ∃ cat n c, cat ∈ st.cats ∧ (n, c) ∈ cs ∧
      en.1 = src ++ [cat, n] ∧ en.2 = src ++ [n] ∧
      fsLookup st.fs en.1 = some (Node.file c)) ∧
  (∀ en ∈ st.log, fsLookup st.fs en.2 = none) ∧
  (∀ cat ∈ st.cats, fsLookup st.fs (src ++ [cat]) = some Node.dir) ∧
  (st.log.map Prod.fst).Nodup ∧
  (st.log.map Prod.snd).Nodup ∧
  (∀ en ∈ st.log, pbase en.2 ∉ rem.map Prod.fst)

/-- The invariant after a step that ensured the category folder but did
not move the file (a caught failed move). -/
theorem fs1_inv (src : FPath) (cs : List (String × String)) (st : OrgSt)
    (nc : String × String) (rem : List (String × String)) (cat : String)
    (fs1 : FS) (sn : List (String × FPath)) (rp : List RLine)
    (hother : ∀ p, p ≠ src ++ [cat] → fsLookup fs1 p = fsLookup st.fs p)
    (hq : fsLookup fs1 (src ++ [cat]) = some Node.dir)
    (hnk1 : fs1.Pairwise (fun e1 e2 => e1.1 ≠ e2.1))
    (hcls1 : ∀ e ∈ fs1, e.1 = src ∨ (∃ x, e.1 = src ++ [x]) ∨ ∃ en ∈ st.log, e.1 = en.1)
    (hinv : OrgInv src cs st (nc :: rem))
    (hsub : ∀ mc ∈ nc :: rem, mc ∈ cs)
    (hdisjcat : ∀ mc ∈ cs, cat ≠ mc.1) :
    OrgInv src cs ⟨fs1, st.log, sn, catsAfter st.cats cat, rp⟩ rem := by
  obtain ⟨hsrc, hnk, hcls, hremL, hlog, hvac, hcats, hndf, hnds, hnames⟩ := hinv
  refine ⟨?_, hnk1, hcls1, ?_, ?_, ?_, ?_, hndf, hnds, ?_⟩
  · exact (hother src (path_ne_of_length (by simp))).trans hsrc
  · intro nc2 hnc2
    refine (hother _ (fun hc => hdisjcat nc2 (hsub nc2 (List.mem_cons_of_mem _ hnc2))
      (show nc2.1 = cat by simpa using hc).symm)).trans
      (hremL nc2 (List.mem_cons_of_mem _ hnc2))
  · intro en hen
    obtain ⟨cat2, n2, c2, hc2, hm2, ht2, ho2, hl2⟩ := hlog en hen
    exact ⟨cat2, n2, c2, mem_catsAfter_of_mem _ _ _ hc2, hm2, ht2, ho2,
      (hother _ (by rw [ht2]; exact path_ne_of_length (by simp))).trans hl2⟩
  · intro en hen
    obtain ⟨cat2, n2, c2, hc2, hm2, ht2, ho2, hl2⟩ := hlog en hen
    refine (hother _ (by
      rw [ho2]
      exact fun hc => hdisjcat (n2, c2) hm2
        (show n2 = cat by simpa using hc).symm)).trans (hvac en hen)
  · intro c2 hc2
    rcases mem_catsAfter_elim hc2 with hold | hceq
    · by_cases hcc : c2 = cat
      · rw [hcc]
        exact hq
      · exact (hother _ (fun hc => hcc (by simpa using hc))).trans (hcats c2 hold)
    · rw [hceq]
      exact hq
  · intro en hen hc
    exact hnames en hen (by rw [List.map_cons]; exact List.mem_cons_of_mem _ hc)

/-- Invariant preservation through one move attempt (the category folder
was ensured, the move either succeeds or is caught). -/
theorem orgMove_inv (env : Env) (sd : Bool) (fh : Option String) (src : FPath)
    (cs : List (String × String))
    (st st1 : OrgSt) (nc : String × String) (rem : List (String × String))
    (cat : String) (fs1 : FS)
    (hmk : fsMkdir st.fs (src ++ [cat]) = some fs1)
    (hq : fsLookup fs1 (src ++ [cat]) = some Node.dir)
    (hnk1 : fs1.Pairwise (fun e1 e2 => e1.1 ≠ e2.1))
    (hcls1 : ∀ e ∈ fs1, e.1 = src ∨ (∃ x, e.1 = src ++ [x]) ∨ ∃ en ∈ st.log, e.1 = en.1)
    (hstep : orgStepMove env sd src st nc.1 fh cat = (st1, false))
    (hinv : OrgInv src cs st (nc :: rem))
    (hsub : ∀ mc ∈ nc :: rem, mc ∈ cs)
    (hnd : ((nc :: rem).map Prod.fst).Nodup)
    (hdisj1 : ∀ c2 ∈ st1.cats, ∀ mc ∈ cs, c2 ≠ mc.1) :
    OrgInv src cs st1 rem := by
  have hother := fsMkdir_lookup_ne st.fs fs1 (src ++ [cat]) hmk
  rcases hmf : env.moveFails (src ++ [nc.1]) (src ++ [cat, nc.1]) with _ | _
  · rcases hmv0 : fsMove fs1 (src ++ [nc.1]) (src ++ [cat, nc.1]) with _ | fs2
    · rw [orgStepMove_moveRaise env sd src st nc.1 fh cat fs1 hmk hmf hmv0] at hstep
      injection hstep with h1 h2
      subst h1
      exact fs1_inv src cs st nc rem cat fs1 _ _ hother hq hnk1 hcls1 hinv hsub
        (fun mc hmc => hdisj1 cat (mem_catsAfter_self _ _) mc hmc)
    · rw [orgStepMove_moved env sd src st nc.1 fh cat fs1 fs2 hmk hmf hmv0] at hstep
      injection hstep with h1 h2
      subst h1
      have hdisjcat : ∀ mc ∈ cs, cat ≠ mc.1 :=
        fun mc hmc => hdisj1 cat (mem_catsAfter_self _ _) mc hmc
      have hdisjold : ∀ c2 ∈ st.cats, ∀ mc ∈ cs, c2 ≠ mc.1 :=
        fun c2 hc2 mc hmc => hdisj1 c2 (mem_catsAfter_of_mem _ _ _ hc2) mc hmc
      have hinv2 := hinv
      obtain ⟨hsrc, hnk, hcls, hremL, hlog, hvac, hcats, hndf, hnds, hnames⟩ := hinv2
      simp only [List.map_cons, List.nodup_cons] at hnd
      have hqa : src ++ [nc.1] ≠ src ++ [cat] := fun hc =>
        hdisjcat nc (hsub nc (List.mem_cons_self _ _))
          (show nc.1 = cat by simpa using hc).symm
      have ha : fsLookup fs1 (src ++ [nc.1]) = some (Node.file nc.2) :=
        (hother _ hqa).trans (hremL nc (List.mem_cons_self _ _))
      have hbnone0 : fsLookup st.fs (src ++ [cat, nc.1]) = none := by
        apply fsLookup_of_all_ne
        intro e he hc
        rcases hcls e he with h1 | ⟨x, h2⟩ | ⟨en, hen, h3⟩
        · rw [h1] at hc
          exact path_ne_of_length (by simp) hc
        · rw [h2] at hc
          exact path_ne_of_length (by simp) hc
        · obtain ⟨cat2, n2, c2, hc2, hm2, ht2, ho2, hl2⟩ := hlog en hen
          rw [h3, ht2] at hc
          have hcc : cat2 = cat ∧ n2 = nc.1 := by simpa using hc
          apply hnames en hen
          rw [ho2, List.map_cons, pbase_snoc, hcc.2]
          exact List.mem_cons_self _ _
      have hbnone : fsLookup fs1 (src ++ [cat, nc.1]) = none :=
        (hother _ (path_ne_of_length (by simp))).trans hbnone0
      have hb : isDirAt fs1 (src ++ [cat, nc.1]) = false := isDirAt_of_none hbnone
      have hbd : isDirAt fs1 (List.dropLast (src ++ [cat, nc.1])) = true := by
        have hsplit : src ++ [cat, nc.1] = (src ++ [cat]) ++ [nc.1] := by simp
        rw [hsplit, List.dropLast_concat]
        exact isDirAt_of_dir hq
      have huniq : fs1.filter (fun e => pathLe (src ++ [nc.1]) e.1) =
          [(src ++ [nc.1], Node.file nc.2)] := by
        apply filter_pathLe_singleton fs1 _ _ hnk1 ha
        intro e he hp
        rcases hcls1 e he with h1 | ⟨x, h2⟩ | ⟨en, hen, h3⟩
        · rw [h1, pathLe_snoc_self] at hp
          cases hp
        · rw [h2, pathLe_snoc_snoc] at hp
          simp only [decide_eq_true_eq] at hp
          rw [h2, ← hp]
        · obtain ⟨cat2, n2, c2, hc2, hm2, ht2, ho2, hl2⟩ := hlog en hen
          rw [h3, ht2, pathLe_snoc_pair] at hp
          simp only [decide_eq_true_eq] at hp
          exact absurd hp.symm
            (hdisjold cat2 hc2 nc (hsub nc (List.mem_cons_self _ _)))
      have hplain := fsMove_plain fs1 (src ++ [nc.1]) (src ++ [cat, nc.1])
        (Node.file nc.2) ha huniq hb hbd
      rw [hmv0] at hplain
      injection hplain with hfs2
      subst hfs2
      have hbfresh : ∀ e ∈ st.log, e.1 ≠ src ++ [cat, nc.1] := by
        intro e he hc
        obtain ⟨cat2, n2, c2, hc2, hm2, ht2, ho2, hl2⟩ := hlog e he
        rw [ht2] at hc
        have hcc : cat2 = cat ∧ n2 = nc.1 := by simpa using hc
        apply hnames e he
        rw [ho2, List.map_cons, pbase_snoc, hcc.2]
        exact List.mem_cons_self _ _
      have hafresh : ∀ e ∈ st.log, e.2 ≠ src ++ [nc.1] := by
        intro e he hc
        apply hnames e he
        rw [List.map_cons, hc, pbase_snoc]
        exact List.mem_cons_self _ _
      rw [logInsert_fresh st.log _ _ hbfresh]
      have hpt : ∀ q2, fsLookup ((fsEraseAll fs1 (src ++ [nc.1])).filter
          (fun e => e.1 ≠ src ++ [cat, nc.1]) ++
            [(src ++ [cat, nc.1], Node.file nc.2)]) q2 =
          (if q2 = src ++ [cat, nc.1] then some (Node.file nc.2)
           else if pathLe (src ++ [nc.1]) q2 = true then none
           else fsLookup fs1 q2) :=
        fun q2 => fsMove_plain_lookup fs1 _ _ _ q2
      refine ⟨?_, ?_, ?_, ?_, ?_, ?_, ?_, ?_, ?_, ?_⟩
      · rw [hpt src, if_neg (path_ne_of_length (by simp)),
          if_neg (by simp [pathLe_snoc_self])]
        exact (hother src (path_ne_of_length (by simp))).trans hsrc
      · apply List.pairwise_append.mpr
        refine ⟨List.Pairwise.filter _ (List.Pairwise.filter _ hnk1),
          List.pairwise_singleton _ _, ?_⟩
        intro x hx y hy
        have hy2 : y = (src ++ [cat, nc.1], Node.file nc.2) := by simpa using hy
        have hx2 := (List.mem_filter.mp hx).2
        rw [hy2]
        simpa using hx2
      · intro e he
        rcases List.mem_append.mp he with hk | hb2
        · have he2 := List.mem_of_mem_filter (List.mem_of_mem_filter hk)
          rcases hcls1 e he2 with h1 | h2 | ⟨en, hen, h3⟩
          · exact Or.inl h1
          · exact Or.inr (Or.inl h2)
          · exact Or.inr (Or.inr ⟨en, List.mem_append_left _ hen, h3⟩)
        · have he2 : e = (src ++ [cat, nc.1], Node.file nc.2) := by simpa using hb2
          refine Or.inr (Or.inr ⟨(src ++ [cat, nc.1], src ++ [nc.1]),
            List.mem_append_right _ (List.mem_cons_self _ _), ?_⟩)
          rw [he2]
      · intro nc2 hnc2
        have hne1 : src ++ [nc2.1] ≠ src ++ [cat, nc.1] := path_ne_of_length (by simp)
        have hne2 : pathLe (src ++ [nc.1]) (src ++ [nc2.1]) = false := by
          rw [pathLe_snoc_snoc]
          simp only [decide_eq_false_iff_not]
          intro hc
          exact hnd.1 (by rw [hc]; exact List.mem_map_of_mem Prod.fst hnc2)
        rw [hpt _, if_neg hne1, if_neg (by simp [hne2])]
        have hne3 : src ++ [nc2.1] ≠ src ++ [cat] := fun hc =>
          hdisjcat nc2 (hsub nc2 (List.mem_cons_of_mem _ hnc2))
            (show nc2.1 = cat by simpa using hc).symm
        exact (hother _ hne3).trans (hremL nc2 (List.mem_cons_of_mem _ hnc2))
      · intro en hen
        rcases List.mem_append.mp hen with hold | hnew
        · obtain ⟨cat2, n2, c2, hc2, hm2, ht2, ho2, hl2⟩ := hlog en hold
          refine ⟨cat2, n2, c2, mem_catsAfter_of_mem _ _ _ hc2, hm2, ht2, ho2, ?_⟩
          have hne2 : pathLe (src ++ [nc.1]) en.1 = false := by
            rw [ht2, pathLe_snoc_pair]
            simp only [decide_eq_false_iff_not]
            intro hc
            exact hdisjold cat2 hc2 nc (hsub nc (List.mem_cons_self _ _)) hc.symm
          rw [hpt _, if_neg (hbfresh en hold), if_neg (by simp [hne2])]
          have hne3 : en.1 ≠ src ++ [cat] := by
            rw [ht2]
            exact path_ne_of_length (by simp)
          exact (hother _ hne3).trans hl2
        · have he2 : en = (src ++ [cat, nc.1], src ++ [nc.1]) := by simpa using hnew
          have he3 : en.1 = src ++ [cat, nc.1] := by rw [he2]
          have he4 : en.2 = src ++ [nc.1] := by rw [he2]
          refine ⟨cat, nc.1, nc.2, mem_catsAfter_self _ _,
            (by simpa using hsub nc (List.mem_cons_self _ _)), he3, he4, ?_⟩
          rw [he3, hpt _, if_pos rfl]
      · intro en hen
        rcases List.mem_append.mp hen with hold | hnew
        · obtain ⟨cat2, n2, c2, hc2, hm2, ht2, ho2, hl2⟩ := hlog en hold
          have hne1 : en.2 ≠ src ++ [cat, nc.1] := by
            rw [ho2]
            exact path_ne_of_length (by simp)
          have hne2 : pathLe (src ++ [nc.1]) en.2 = false := by
            rw [ho2, pathLe_snoc_snoc]
            simp only [decide_eq_false_iff_not]
            intro hc
            exact hafresh en hold (by rw [ho2, ← hc])
          rw [hpt _, if_neg hne1, if_neg (by simp [hne2])]
          have hne3 : en.2 ≠ src ++ [cat] := by
            rw [ho2]
            exact fun hc => hdisjcat (n2, c2) hm2
              (show n2 = cat by simpa using hc).symm
          exact (hother _ hne3).trans (hvac en hold)
        · have he2 : en = (src ++ [cat, nc.1], src ++ [nc.1]) := by simpa using hnew
          have he4 : en.2 = src ++ [nc.1] := by rw [he2]
          rw [he4, hpt _, if_neg (path_ne_of_length (by simp)),
            if_pos (pathLe_refl _)]
      · intro c2 hc2
        rcases mem_catsAfter_elim hc2 with hold | hceq
        · have hne2 : pathLe (src ++ [nc.1]) (src ++ [c2]) = false := by
            rw [pathLe_snoc_snoc]
            simp only [decide_eq_false_iff_not]
            intro hc
            exact hdisjold c2 hold nc (hsub nc (List.mem_cons_self _ _)) hc.symm
          rw [hpt _, if_neg (path_ne_of_length (by simp)), if_neg (by simp [hne2])]
          by_cases hcc : c2 = cat
          · rw [hcc]
            exact hq
          · exact (hother _ (fun hc => hcc (by simpa using hc))).trans (hcats c2 hold)
        · rw [hceq]
          have hne2 : pathLe (src ++ [nc.1]) (src ++ [cat]) = false := by
            rw [pathLe_snoc_snoc]
            simp only [decide_eq_false_iff_not]
            intro hc
            exact hdisjcat nc (hsub nc (List.mem_cons_self _ _)) hc.symm
          rw [hpt _, if_neg (path_ne_of_length (by simp)), if_neg (by simp [hne2])]
          exact hq
      · rw [List.map_append]
        refine List.Nodup.append hndf (List.nodup_singleton _) ?_
        intro x hx1 hx2
        have hx3 : x = src ++ [cat, nc.1] := by simpa using hx2
        rcases List.mem_map.mp hx1 with ⟨en, hen, hfe⟩
        exact hbfresh en hen (hfe.trans hx3)
      · rw [List.map_append]
        refine List.Nodup.append hnds (List.nodup_singleton _) ?_
        intro x hx1 hx2
        have hx3 : x = src ++ [nc.1] := by simpa using hx2
        rcases List.mem_map.mp hx1 with ⟨en, hen, hfe⟩
        exact hafresh en hen (hfe.trans hx3)
      · intro en hen
        rcases List.mem_append.mp hen with hold | hnew
        · exact fun hc => hnames en hold
            (by rw [List.map_cons]; exact List.mem_cons_of_mem _ hc)
        · have he2 : en = (src ++ [cat, nc.1], src ++ [nc.1]) := by simpa using hnew
          have he4 : en.2 = src ++ [nc.1] := by rw [he2]
          rw [he4, pbase_snoc]
          exact hnd.1
  · rw [orgStepMove_moveFail env sd src st nc.1 fh cat fs1 hmk hmf] at hstep
    injection hstep with h1 h2
    subst h1
    exact fs1_inv src cs st nc rem cat fs1 _ _ hother hq hnk1 hcls1 hinv hsub
      (fun mc hmc => hdisj1 cat (mem_catsAfter_self _ _) mc hmc)

theorem orgStep_inv (env : Env) (reg : Registry) (sd : Bool) (src : FPath)
    (cs : List (String × String)) (st st1 : OrgSt) (nc : String × String)
    (rem : List (String × String))
    (hstep : orgStep env reg sd src st nc.1 = (st1, false))
    (hinv : OrgInv src cs st (nc :: rem))
    (hsub : ∀ mc ∈ nc :: rem, mc ∈ cs)
    (hnd : ((nc :: rem).map Prod.fst).Nodup)
    (hdisj1 : ∀ c2 ∈ st1.cats, ∀ mc ∈ cs, c2 ≠ mc.1) :
    OrgInv src cs st1 rem := by
  unfold orgStep at hstep
  rcases hcond : (sd && hashTruthy (if sd then get_file_hash env st.fs (src ++ [nc.1])
      else none) && seenHas st.seen (if sd then get_file_hash env st.fs (src ++ [nc.1])
      else none)) with _ | _
  · rcases hcat : categorize_file env st.fs reg (src ++ [nc.1]) with e | cat
    · rw [orgStepAfterHash_abort env reg sd src st nc.1 _ e hcond hcat] at hstep
      injection hstep with h1 h2
      cases h2
    · rw [orgStepAfterHash_ok env reg sd src st nc.1 _ cat hcond hcat] at hstep
      have hinv2 := hinv
      obtain ⟨hsrc, hnk, hcls, hremL, hlog, hvac, hcats, hndf, hnds, hnames⟩ := hinv2
      rcases hmk0 : fsLookup st.fs (src ++ [cat]) with _ | nd0
      · have hmk := fsMkdir_new st.fs (src ++ [cat]) hmk0
        refine orgMove_inv env sd _ src cs st st1 nc rem cat
          (st.fs ++ [(src ++ [cat], Node.dir)]) hmk ?_ ?_ ?_ hstep hinv hsub hnd hdisj1
        · rw [fsLookup_snoc, hmk0]
          simp
        · apply List.pairwise_append.mpr
          refine ⟨hnk, List.pairwise_singleton _ _, ?_⟩
          intro x hx y hy
          have hy2 : y = (src ++ [cat], Node.dir) := by simpa using hy
          rw [hy2]
          exact lookup_none_forall hmk0 x hx
        · intro e he
          rcases List.mem_append.mp he with h1 | h2
          · exact hcls e h1
          · have he2 : e = (src ++ [cat], Node.dir) := by simpa using h2
            exact Or.inr (Or.inl ⟨cat, by rw [he2]⟩)
      · cases nd0 with
        | file c0 =>
          rw [orgStepMove_mkdirRaise env sd src st nc.1 _ cat
            (fsMkdir_file st.fs _ c0 hmk0)] at hstep
          injection hstep with h1 h2
          cases h2
        | dir =>
          exact orgMove_inv env sd _ src cs st st1 nc rem cat st.fs
            (fsMkdir_dir st.fs _ hmk0) hmk0 hnk hcls hstep hinv hsub hnd hdisj1
  · rw [orgStepAfterHash_skip env reg sd src st nc.1 _ hcond] at hstep
    injection hstep with h1 h2
    subst h1
    obtain ⟨hsrc, hnk, hcls, hremL, hlog, hvac, hcats, hndf, hnds, hnames⟩ := hinv
    exact ⟨hsrc, hnk, hcls, fun nc2 hnc2 => hremL nc2 (List.mem_cons_of_mem _ hnc2),
      hlog, hvac, hcats, hndf, hnds,
      fun en hen hc => hnames en hen
        (by rw [List.map_cons]; exact List.mem_cons_of_mem _ hc)⟩

theorem orgLoop_inv (env : Env) (reg : Registry) (sd : Bool) (src : FPath)
    (cs : List (String × String)) :
    ∀ (rem : List (String × String)) (st stF : OrgSt),
      (∀ mc ∈ rem, mc ∈ cs) →
      (rem.map Prod.fst).Nodup →
      OrgInv src cs st rem →
      orgLoop env reg sd src (rem.map Prod.fst) st = (stF, false) →
      (∀ cat ∈ stF.cats, ∀ mc ∈ cs, cat ≠ mc.1) →
      OrgInv src cs stF [] := by
  intro rem
  induction rem with
  | nil =>
    intro st stF hsub hnd hinv hloop hdisj
    rw [List.map_nil, orgLoop_nil] at hloop
    injection hloop with h1 h2
    subst h1
    exact hinv
  | cons nc rem ih =>
    intro st stF hsub hnd hinv hloop hdisj
    rw [List.map_cons] at hloop
    rcases hstep : orgStep env reg sd src st nc.1 with ⟨st1, ab1⟩
    cases ab1 with
    | true =>
      rw [orgLoop, hstep] at hloop
      injection hloop with h1 h2
      cases h2
    | false =>
      rw [orgLoop, hstep] at hloop
      have hmono := (orgLoop_frame env reg sd src (rem.map Prod.fst)
        st1 stF false hloop).1
      have hdisj1 : ∀ c2 ∈ st1.cats, ∀ mc ∈ cs, c2 ≠ mc.1 :=
        fun c2 hc mc hmc => hdisj c2 (hmono c2 hc) mc hmc
      have hinv1 := orgStep_inv env reg sd src cs st st1 nc rem hstep hinv hsub hnd hdisj1
      simp only [List.map_cons, List.nodup_cons] at hnd
      exact ih st1 stF (fun mc hmc => hsub mc (List.mem_cons_of_mem _ hmc))
        hnd.2 hinv1 hloop hdisj

theorem lookup_of_mem_nodup {fs : FS} {e : FPath × Node}
    (hnk : fs.Pairwise (fun e1 e2 => e1.1 ≠ e2.1)) (he : e ∈ fs) :
    fsLookup fs e.1 = some e.2 := by
  induction fs with
  | nil => cases he
  | cons e0 fs ih =>
    rcases e0 with ⟨q0, n0⟩
    rcases List.pairwise_cons.mp hnk with ⟨h1, h2⟩
    simp only [fsLookup]
    rcases List.mem_cons.mp he with he0 | hm
    · rw [he0]
      simp
    · rw [if_neg (h1 e hm)]
      exact ih h2 hm

theorem childEntries_shape (fs : FS) (sp : FPath) :
    ∀ en ∈ childEntries fs sp, (sp ++ [en.1], en.2) ∈ fs := by
  intro en hen
  unfold childEntries at hen
  rcases List.mem_filterMap.mp hen with ⟨e, he, hcond⟩
  rcases e with ⟨p0, n0⟩
  split at hcond
  · next hc =>
    injection hcond with hcond
    simp only [Bool.and_eq_true, decide_eq_true_eq] at hc
    have he1 : p0 = sp ++ [pbase p0] := eq_snoc_of_le_len hc.1 hc.2
    have h1 : en.1 = pbase p0 := by rw [← hcond]
    have h2 : en.2 = n0 := by rw [← hcond]
    rw [h1, h2, ← he1]
    exact he
  · cases hcond

/-- The restore loop preserves the whole invariant, down to the empty
entry list. -/
theorem restLoop_inv_final (env : Env) (src : FPath) (names cats : List String) :
    ∀ (es : MoveLog) (fs : FS) (rep : List RLine),
      RestInv src names cats fs es →
      RestInv src names cats (restLoop env es fs rep).1 [] := by
  intro es
  induction es with
  | nil =>
    intro fs rep hinv
    exact hinv
  | cons en es ih =>
    intro fs rep hinv
    rcases en with ⟨t1, o1⟩
    rw [restLoop_cons]
    exact ih _ _ (restStep_inv_pres env src names cats fs t1 o1 es hinv)

theorem foldl_cleanup_lookup (sp p : FPath) (nd : Node) :
    ∀ (ents : List (String × Node)) (acc : FS),
      (∀ en ∈ ents, en.2 = Node.dir → sp ++ [en.1] ≠ p) →
      fsLookup acc p = some nd →
      fsLookup (ents.foldl (fun acc en =>
        match en.2 with
        | Node.dir =>
          if dirEmpty acc (sp ++ [en.1]) then
            acc.filter (fun e => e.1 ≠ sp ++ [en.1])
          else acc
        | Node.file _ => acc) acc) p = some nd := by
  intro ents
  induction ents with
  | nil =>
    intro acc _ h
    exact h
  | cons en ents ih =>
    intro acc hne h
    rw [List.foldl_cons]
    apply ih _ (fun e he h2 => hne e (List.mem_cons_of_mem _ he) h2)
    rcases en with ⟨x, n0⟩
    cases n0 with
    | file c => exact h
    | dir =>
      show fsLookup (if dirEmpty acc (sp ++ [x]) then
          acc.filter (fun e => e.1 ≠ sp ++ [x]) else acc) p = some nd
      split
      · rw [fsLookup_filter_keep _ _ _ (fun nd2 => by
          simp only [decide_eq_true_eq]
          intro hc
          have hc2 : p = sp ++ [x] := hc
          exact hne (x, Node.dir) (List.mem_cons_self _ _) rfl hc2.symm)]
        exact h
      · exact h

/-- The cleanup pass never removes a regular file: it only deletes empty
directory entries among the immediate children. -/
theorem cleanupDirs_lookup_file (fs : FS) (sp p : FPath) (c : String)
    (hnk : fs.Pairwise (fun e1 e2 => e1.1 ≠ e2.1))
    (h : fsLookup fs p = some (Node.file c)) :
    fsLookup (cleanupDirs fs sp) p = some (Node.file c) := by
  unfold cleanupDirs
  apply foldl_cleanup_lookup sp p (Node.file c) (childEntries fs sp) fs ?_ h
  intro en hen hdir hc
  have hmem := childEntries_shape fs sp en hen
  rw [hdir] at hmem
  have hlk2 : fsLookup fs (sp ++ [en.1]) = some Node.dir :=
    lookup_of_mem_nodup hnk hmem
  rw [hc, h] at hlk2
  simp at hlk2

/-- C1 amended: on a fresh source directory of distinctly named files, when
the organize run (with either deduplication setting) completes and no
assigned category name collides with a file name, every logged move whose
reverse move the environment permits is restored by the immediately
following restore run (with either cleanup setting) to exactly its
original path with its original content. -/
theorem C1_round_trip_amended (env : Env) (reg : Registry) (skipDup : Bool)
    (cleanup : Bool) (src : FPath)
    (cs : List (String × String)) (t o : FPath)
    (hnod : (cs.map Prod.fst).Nodup)
    (hdone : (orgRun env reg skipDup src cs).outcome = Outcome.done)
    (hdisj : ∀ cat ∈ (orgRun env reg skipDup src cs).cats, ∀ nc ∈ cs, cat ≠ nc.1)
    (hto : (t, o) ∈ (orgRun env reg skipDup src cs).log)
    (hmf : env.moveFails t o = false) :
    (restore_files env cleanup (orgRun env reg skipDup src cs).world).outcome =
      Outcome.done ∧
    (fsLookup (freshFS src cs) o).isSome = true ∧
    fsLookup (restore_files env cleanup
        (orgRun env reg skipDup src cs).world).world.fs o =
      fsLookup (freshFS src cs) o := by
  rw [orgRun_eq] at hdone hdisj hto ⊢
  rcases hloop : orgLoop env reg skipDup src (cs.map Prod.fst)
      { fs := freshFS src cs, log := [], seen := [], cats := []
        report := [] } with ⟨stF, b⟩
  rw [hloop] at hdone hdisj hto
  cases b with
  | true => exact Outcome.noConfusion hdone
  | false =>
    have hdisjF : ∀ cat ∈ stF.cats, ∀ mc ∈ cs, cat ≠ mc.1 := hdisj
    have htoF : (t, o) ∈ stF.log := hto
    have hinv0 : OrgInv src cs ⟨freshFS src cs, [], [], [], []⟩ cs := by
      refine ⟨freshFS_lookup_src src cs, freshFS_nodupkeys src cs hnod, ?_,
        ?_, ?_, ?_, ?_, List.nodup_nil, List.nodup_nil, ?_⟩
      · intro e he
        unfold freshFS at he
        rcases List.mem_cons.mp he with h1 | h2
        · exact Or.inl (by rw [h1])
        · rcases List.mem_map.mp h2 with ⟨nc, hnc, hfe⟩
          exact Or.inr (Or.inl ⟨nc.1, by rw [← hfe]⟩)
      · exact fun nc hnc => freshFS_lookup_child src cs hnod nc hnc
      · intro en hen
        cases hen
      · intro en hen
        cases hen
      · intro c2 hc2
        cases hc2
      · intro en hen
        cases hen
    have hinvF := orgLoop_inv env reg skipDup src cs cs _ stF (fun mc hmc => hmc)
      hnod hinv0 hloop hdisjF
    obtain ⟨hsrcF, hnkF, hclsF, -, hlogF, hvacF, -, hndfF, hndsF, -⟩ := hinvF
    have hne : stF.log.isEmpty = false := by
      cases hl : stF.log with
      | nil =>
        rw [hl] at htoF
        cases htoF
      | cons x xs => rfl
    have hlenF : ∀ e ∈ stF.fs, e.1.length ≤ src.length + 2 := by
      intro e he
      rcases hclsF e he with h1 | ⟨x, h2⟩ | ⟨en, hen, h3⟩
      · rw [h1]
        omega
      · rw [h2]
        simp only [List.length_append, List.length_cons, List.length_nil]
        omega
      · obtain ⟨cat2, n2, c2, hc2, hm2, ht2, ho2, hl2⟩ := hlogF en hen
        rw [h3, ht2]
        simp only [List.length_append, List.length_cons, List.length_nil]
        omega
    have hinvR : RestInv src (cs.map Prod.fst) stF.cats stF.fs stF.log := by
      refine ⟨hsrcF, hlenF, hnkF, ?_, hndfF, hndsF, ?_, ?_⟩
      · intro cat hcat n hn
        rcases List.mem_map.mp hn with ⟨mc, hmc, hfe⟩
        rw [← hfe]
        exact hdisjF cat hcat mc hmc
      · intro en hen
        obtain ⟨cat2, n2, c2, hc2, hm2, ht2, ho2, hl2⟩ := hlogF en hen
        exact ⟨cat2, n2, c2, hc2, List.mem_map_of_mem Prod.fst hm2, ht2, ho2, hl2⟩
      · intro en hen
        exact isDirAt_of_none (hvacF en hen)
    have hmain := restLoop_restores env src (cs.map Prod.fst) stF.cats stF.log
      stF.fs [] t o hinvR htoF hmf
    obtain ⟨cat2, n2, c2, hc2, hm2, ht2, ho2, hl2⟩ := hlogF (t, o) htoF
    simp only at ht2 ho2 hl2
    have hfresh : fsLookup (freshFS src cs) o = some (Node.file c2) := by
      rw [ho2]
      exact freshFS_lookup_child src cs hnod (n2, c2) hm2
    have hinvRF := restLoop_inv_final env src (cs.map Prod.fst) stF.cats
      stF.log stF.fs [] hinvR
    have hsrcR : fsLookup (restLoop env stF.log stF.fs []).1 src =
        some Node.dir := hinvRF.1
    have hnkR : (restLoop env stF.log stF.fs []).1.Pairwise
        (fun e1 e2 => e1.1 ≠ e2.1) := hinvRF.2.2.1
    have hlkR : fsLookup (restLoop env stF.log stF.fs []).1 o =
        some (Node.file c2) := by
      rw [hmain, hl2]
    cases cleanup with
    | false =>
      have hrest0 : restore_files env false ⟨stF.fs, some (Except.ok stF.log)⟩ =
          (if stF.log.isEmpty then
            { world := ⟨stF.fs, some (Except.ok stF.log)⟩, report := []
              outcome := Outcome.emptyLog }
           else
            { world := { fs := (restLoop env stF.log stF.fs []).1
                         persisted := some (Except.ok stF.log) }
              report := (restLoop env stF.log stF.fs []).2
              outcome := Outcome.done }) := rfl
      refine ⟨?_, ?_, ?_⟩
      · show (restore_files env false ⟨stF.fs, some (Except.ok stF.log)⟩).outcome =
          Outcome.done
        rw [hrest0, if_neg (by rw [hne]; exact Bool.false_ne_true)]
      · rw [hfresh]
        rfl
      · show fsLookup (restore_files env false
            ⟨stF.fs, some (Except.ok stF.log)⟩).world.fs o =
          fsLookup (freshFS src cs) o
        rw [hrest0, if_neg (by rw [hne]; exact Bool.false_ne_true)]
        show fsLookup (restLoop env stF.log stF.fs []).1 o =
          fsLookup (freshFS src cs) o
        rw [hlkR, hfresh]
    | true =>
      have hsp : ((stF.log.head?.map (fun e => e.2)).getD []).dropLast = src := by
        cases hlog0 : stF.log with
        | nil =>
          rw [hlog0] at htoF
          cases htoF
        | cons en0 rest =>
          have hen0 : en0 ∈ stF.log := by
            rw [hlog0]
            exact List.mem_cons_self _ _
          obtain ⟨cat0, n0, c0, hc0, hm0, ht0, ho0, hl0⟩ := hlogF en0 hen0
          show List.dropLast en0.2 = src
          rw [ho0, List.dropLast_concat]
      have hrest1 : restore_files env true ⟨stF.fs, some (Except.ok stF.log)⟩ =
          (if stF.log.isEmpty then
            { world := ⟨stF.fs, some (Except.ok stF.log)⟩, report := []
              outcome := Outcome.emptyLog }
           else if isDirAt (restLoop env stF.log stF.fs []).1
               (((stF.log.head?.map (fun e => e.2)).getD []).dropLast) then
            { world := { fs := cleanupDirs (restLoop env stF.log stF.fs []).1
                           (((stF.log.head?.map (fun e => e.2)).getD []).dropLast)
                         persisted := some (Except.ok stF.log) }
              report := (restLoop env stF.log stF.fs []).2
              outcome := Outcome.done }
           else
            { world := { fs := (restLoop env stF.log stF.fs []).1
                         persisted := some (Except.ok stF.log) }
              report := (restLoop env stF.log stF.fs []).2
              outcome := Outcome.aborted }) := rfl
      have hdirR : isDirAt (restLoop env stF.log stF.fs []).1
          (((stF.log.head?.map (fun e => e.2)).getD []).dropLast) = true := by
        rw [hsp]
        exact isDirAt_of_dir hsrcR
      refine ⟨?_, ?_, ?_⟩
      · show (restore_files env true ⟨stF.fs, some (Except.ok stF.log)⟩).outcome =
          Outcome.done
        rw [hrest1, if_neg (by rw [hne]; exact Bool.false_ne_true), if_pos hdirR]
      · rw [hfresh]
        rfl
      · show fsLookup (restore_files env true
            ⟨stF.fs, some (Except.ok stF.log)⟩).world.fs o =
          fsLookup (freshFS src cs) o
        rw [hrest1, if_neg (by rw [hne]; exact Bool.false_ne_true), if_pos hdirR]
        show fsLookup (cleanupDirs (restLoop env stF.log stF.fs []).1
            (((stF.log.head?.map (fun e => e.2)).getD []).dropLast)) o =
          fsLookup (freshFS src cs) o
        rw [hsp, cleanupDirs_lookup_file _ src o c2 hnkR hlkR, hfresh]

/-- Environment for the C1 counterexample: `a.pdf` sniffs as a PDF, the
file named `Documents` sniffs as an unknown binary. -/
def c1cEnv : Env :=
  { md5 := fun _ => "h"
    readFails := fun _ => false
    moveFails := fun _ _ => false
    sniff := fun p => if p = ["s", "a.pdf"] then Except.ok "application/pdf"
                      else Except.ok "application/octet-stream"
    pdfRaw := fun _ => Except.ok ""
    tokTag := fun _ => Except.ok [] }

/-- C1 counterexample: a file named `Documents` is organized into
`Uncategorized/`, and `a.pdf` into a freshly created `Documents/` folder.
Restore then moves `Uncategorized/Documents` onto the now-existing
directory `s/Documents` — `shutil.move` moves it *inside*, so the file
ends at `s/Documents/Documents`, not at its original path, although the
run reports success. -/
theorem C1_counterexample :
    (orgRun c1cEnv CATEGORIES false ["s"]
        [("Documents", "x"), ("a.pdf", "y")]).outcome = Outcome.done ∧
    (["s", "Uncategorized", "Documents"], ["s", "Documents"]) ∈
      (orgRun c1cEnv CATEGORIES false ["s"]
        [("Documents", "x"), ("a.pdf", "y")]).log ∧
    fsLookup (orgRun c1cEnv CATEGORIES false ["s"]
        [("Documents", "x"), ("a.pdf", "y")]).world.fs
      ["s", "Uncategorized", "Documents"] = some (Node.file "x") ∧
    (restore_files c1cEnv false (orgRun c1cEnv CATEGORIES false ["s"]
        [("Documents", "x"), ("a.pdf", "y")]).world).outcome = Outcome.done ∧
    fsLookup (restore_files c1cEnv false (orgRun c1cEnv CATEGORIES false ["s"]
        [("Documents", "x"), ("a.pdf", "y")]).world).world.fs
      ["s", "Documents"] ≠ some (Node.file "x") ∧
    fsLookup (restore_files c1cEnv false (orgRun c1cEnv CATEGORIES false ["s"]
        [("Documents", "x"), ("a.pdf", "y")]).world).world.fs
      ["s", "Documents", "Documents"] = some (Node.file "x") := by
  decide

/-- Environment for the C1 witness: everything succeeds, plain text. -/
def c1wEnv : Env :=
  { md5 := fun _ => "h"
    readFails := fun _ => false
    moveFails := fun _ _ => false
    sniff := fun _ => Except.ok "text/plain"
    pdfRaw := fun _ => Except.ok ""
    tokTag := fun _ => Except.ok [] }

theorem C1_round_trip_amended_witness :
    (restore_files c1wEnv true (orgRun c1wEnv CATEGORIES true ["s"]
        [("a.txt", "x")]).world).outcome = Outcome.done ∧
    (fsLookup (freshFS ["s"] [("a.txt", "x")]) ["s", "a.txt"]).isSome = true ∧
    fsLookup (restore_files c1wEnv true (orgRun c1wEnv CATEGORIES true ["s"]
        [("a.txt", "x")]).world).world.fs ["s", "a.txt"] =
      fsLookup (freshFS ["s"] [("a.txt", "x")]) ["s", "a.txt"] :=
  C1_round_trip_amended c1wEnv CATEGORIES true true ["s"] [("a.txt", "x")]
    ["s", "Documents", "a.txt"] ["s", "a.txt"] (by decide) (by decide)
    (by decide) (by decide) rfl
